import Mathlib

/-! gupshup-go: a shallow embedding of the message client

The client of `src/gupshup.go` builds a form body for one of seven message
kinds, hands it to an injected request builder, sets two headers, hands the
request to an injected sender and decodes the JSON answer into `Response`.

Go strings are byte sequences, so a string is a list of bytes here.  The
functions of Go's standard library that the client calls (`fmt.Sprintf`,
`url.Values.Encode`, `http.Header.Set`, `json.Marshal`, `json.Decoder.Decode`)
are embedded next to the client, each from the behaviour of the Go
implementation the repository is compiled against.
-/

set_option maxRecDepth 100000
set_option maxHeartbeats 4000000

namespace Gupshup

/-! ## Strings -/

/-- One byte of a Go string. -/
abbrev Byte := Fin 256

/-- A Go `string` (or `[]byte`): any sequence of bytes, well-formed UTF-8 or not. -/
abbrev GoString := List Byte

/-- The bytes of an ASCII literal of the source text. -/
def lit (s : String) : GoString := s.toList.map (fun c => Fin.ofNat c.toNat)

/-- Go's `<` on strings: bytewise lexicographic order. -/
def strLess : GoString → GoString → Bool
  | [], [] => false
  | [], _ :: _ => true
  | _ :: _, [] => false
  | a :: as, b :: bs => decide (a.val < b.val) || (a.val == b.val && strLess as bs)

/-- Go's `<=` on strings. -/
def strLe (a b : GoString) : Prop := strLess b a = false

instance strLeDecidable : DecidableRel strLe := fun a b => decEq (strLess b a) false

/-- `slices.Sort(keys)`: the keys in ascending order. -/
def sortStrings (keys : List GoString) : List GoString := List.insertionSort strLe keys

/-- A Go loop `for i < len(s) { ...; i += n }` over a text, where a round may
fail: each round looks at the text from `i` on, appends `out` to the result and
moves on by `n` bytes.  `fuel` bounds the number of rounds; the text's length is
enough, as every round moves on by a byte at least. -/
def scanOpt (round : GoString → Option (GoString × Nat)) : Nat → GoString → Option GoString
  | _, [] => some []
  | 0, _ :: _ => none
  | fuel + 1, c :: rest =>
    match round (c :: rest) with
    | none => none
    | some (out, n) => (fun t => out ++ t) <$> scanOpt round fuel ((c :: rest).drop n)

/-- The same loop for rounds that cannot fail. -/
def scanAll (round : GoString → GoString × Nat) : Nat → GoString → GoString
  | _, [] => []
  | 0, _ :: _ => []
  | fuel + 1, c :: rest =>
    (round (c :: rest)).1 ++ scanAll round fuel ((c :: rest).drop (round (c :: rest)).2)

/-! ## unicode/utf8 -/

namespace utf8

/-- `utf8.RuneError`, U+FFFD. -/
def RuneError : Nat := 0xFFFD

/-- Whether `b` is a continuation byte, `locb <= b <= hicb`. -/
def isCont (b : Byte) : Bool := decide (0x80 ≤ b.val) && decide (b.val ≤ 0xBF)

/-- The accept range of the second byte after first byte `p0`, as `first` and
`acceptRanges` give it. -/
def acceptLo (p0 : Byte) : Nat :=
  if p0.val == 0xE0 then 0xA0 else if p0.val == 0xF0 then 0x90 else 0x80

/-- Upper end of the accept range of the second byte after first byte `p0`. -/
def acceptHi (p0 : Byte) : Nat :=
  if p0.val == 0xED then 0x9F else if p0.val == 0xF4 then 0x8F else 0xBF

/-- The length `first[p0] & 7` of the sequence that first byte `p0` starts; `0`
for a byte that starts none (`first[p0] = xx`), `1` for ASCII. -/
def seqLen (p0 : Byte) : Nat :=
  if p0.val < 0x80 then 1
  else if p0.val < 0xC2 then 0
  else if p0.val < 0xE0 then 2
  else if p0.val < 0xF0 then 3
  else if p0.val < 0xF5 then 4
  else 0

/-- `utf8.DecodeRune`: the first rune of `p` and its width in bytes;
`(RuneError, 1)` on an ill-formed sequence, `(RuneError, 0)` on empty input. -/
def DecodeRune : GoString → Nat × Nat
  | [] => (RuneError, 0)
  | p0 :: rest =>
    if seqLen p0 == 1 then (p0.val, 1)
    else if seqLen p0 == 0 then (RuneError, 1)
    else
      match rest with
      | [] => (RuneError, 1)
      | b1 :: rest1 =>
        if rest.length + 1 < seqLen p0 then (RuneError, 1)
        else if b1.val < acceptLo p0 || acceptHi p0 < b1.val then (RuneError, 1)
        else if seqLen p0 ≤ 2 then (p0.val % 32 * 64 + b1.val % 64, 2)
        else
          match rest1 with
          | [] => (RuneError, 1)
          | b2 :: rest2 =>
            if !isCont b2 then (RuneError, 1)
            else if seqLen p0 ≤ 3 then (p0.val % 16 * 4096 + b1.val % 64 * 64 + b2.val % 64, 3)
            else
              match rest2 with
              | [] => (RuneError, 1)
              | b3 :: _ =>
                if !isCont b3 then (RuneError, 1)
                else (p0.val % 8 * 262144 + b1.val % 64 * 4096 + b2.val % 64 * 64 + b3.val % 64, 4)

/-- `utf8.AppendRune(nil, r)`: the UTF-8 encoding of `r`, that of U+FFFD for a
surrogate or a value above U+10FFFF. -/
def AppendRune (r : Nat) : GoString :=
  if r ≤ 0x7F then [Fin.ofNat r]
  else if r ≤ 0x7FF then [Fin.ofNat (0xC0 + r / 64), Fin.ofNat (0x80 + r % 64)]
  else if r > 0x10FFFF || (0xD800 ≤ r && r ≤ 0xDFFF) then [0xEF, 0xBF, 0xBD]
  else if r ≤ 0xFFFF then
    [Fin.ofNat (0xE0 + r / 4096), Fin.ofNat (0x80 + r / 64 % 64), Fin.ofNat (0x80 + r % 64)]
  else
    [Fin.ofNat (0xF0 + r / 262144), Fin.ofNat (0x80 + r / 4096 % 64),
     Fin.ofNat (0x80 + r / 64 % 64), Fin.ofNat (0x80 + r % 64)]

/-- One round of `utf8.Valid`: the width of the well-formed sequence at the
start of the text, or failure. -/
def validRound (p : GoString) : Option (GoString × Nat) :=
  if (DecodeRune p).1 == RuneError && (DecodeRune p).2 == 1 then none else some ([], (DecodeRune p).2)

/-- `utf8.Valid`: whether `p` consists of well-formed UTF-8 sequences only. -/
def Valid (p : GoString) : Bool := (scanOpt validRound p.length p).isSome

end utf8

/-! ## fmt -/

/-- `fmt.Sprintf(format, args...)` for string operands and the verb `%s`, the
only verb of the client's templates: `%s` is replaced by the next operand,
byte for byte, `%%` by a percent sign; a `%s` without an operand left prints
`%!s(MISSING)`. -/
def Sprintf : GoString → List GoString → GoString
  | [], _ => []
  | [c], _ => if c.val == 0x25 then lit "%!(NOVERB)" else [c]
  | c :: v :: rest, args =>
    if c.val == 0x25 then
      if v.val == 0x73 then
        match args with
        | a :: as => a ++ Sprintf rest as
        | [] => lit "%!s(MISSING)" ++ Sprintf rest []
      else if v.val == 0x25 then v :: Sprintf rest args
      else c :: Sprintf (v :: rest) args
    else c :: Sprintf (v :: rest) args

/-! ## net/url -/

namespace url

/-- `url.Values`: a map from a key to its list of values; the entries stand in
the order in which they were put in, with no key twice. -/
abbrev Values := List (GoString × List GoString)

/-- `upperhex[n]` for `n < 16`. -/
def upperhex (n : Nat) : Byte := Fin.ofNat (if n < 10 then 0x30 + n else 0x37 + n)

/-- `shouldEscape(c, encodeQueryComponent)`: every byte but the unreserved ones
(letters, digits, `-`, `_`, `.`, `~`) is escaped. -/
def shouldEscape (c : Byte) : Bool :=
  !((decide (0x61 ≤ c.val) && decide (c.val ≤ 0x7A)) || (decide (0x41 ≤ c.val) && decide (c.val ≤ 0x5A))
    || (decide (0x30 ≤ c.val) && decide (c.val ≤ 0x39))
    || c.val == 0x2D || c.val == 0x5F || c.val == 0x2E || c.val == 0x7E)

/-- What `escape` writes for one byte in mode `encodeQueryComponent`. -/
def escapeByte (c : Byte) : GoString :=
  if c.val == 0x20 then [0x2B]
  else if shouldEscape c then [0x25, upperhex (c.val / 16), upperhex (c.val % 16)]
  else [c]

/-- `url.QueryEscape`. -/
def QueryEscape (s : GoString) : GoString := s.flatMap escapeByte

/-- `ishex`. -/
def ishex (c : Byte) : Bool :=
  (decide (0x30 ≤ c.val) && decide (c.val ≤ 0x39)) || (decide (0x61 ≤ c.val) && decide (c.val ≤ 0x66))
    || (decide (0x41 ≤ c.val) && decide (c.val ≤ 0x46))

/-- `unhex`. -/
def unhex (c : Byte) : Nat :=
  if 0x30 ≤ c.val ∧ c.val ≤ 0x39 then c.val - 0x30
  else if 0x61 ≤ c.val ∧ c.val ≤ 0x66 then c.val - 0x61 + 10
  else if 0x41 ≤ c.val ∧ c.val ≤ 0x46 then c.val - 0x41 + 10
  else 0

/-- `url.QueryUnescape`: `%XX` becomes the byte `XX`, `+` a space; `none` is the
`EscapeError` for a `%` that two hex digits do not follow. -/
def QueryUnescape : GoString → Option GoString
  | [] => some []
  | c :: rest =>
    if c.val == 0x25 then
      match rest with
      | h :: l :: rest2 =>
        if ishex h && ishex l then
          (fun t => Fin.ofNat (unhex h * 16 + unhex l) :: t) <$> QueryUnescape rest2
        else none
      | _ => none
    else (fun t => (if c.val == 0x2B then 0x20 else c) :: t) <$> QueryUnescape rest

/-- The value list stored under `key`, `nil` when the key is absent: `v[key]`. -/
def Values.get (v : Values) (key : GoString) : List GoString := (v.lookup key).getD []

/-- The statement `m[key] = append(m[key], value)`. -/
def Values.add : Values → GoString → GoString → Values
  | [], key, value => [(key, [value])]
  | (k, vs) :: m, key, value =>
    if k = key then (k, vs ++ [value]) :: m else (k, vs) :: Values.add m key value

/-- The inner loop of `Encode` for one key: every value of the key is written as
`key=value`, after an `&` when the buffer is not empty. -/
def encodeKey (keyEscaped : GoString) (buf : GoString) (vs : List GoString) : GoString :=
  vs.foldl (fun buf v => (if buf.length > 0 then buf ++ [0x26] else buf)
    ++ keyEscaped ++ [0x3D] ++ QueryEscape v) buf

/-- `url.Values.Encode`: the keys are sorted, and each key's values are read
from the map and written in turn. -/
def Values.Encode (v : Values) : GoString :=
  (sortStrings (v.map Prod.fst)).foldl (fun buf k => encodeKey (QueryEscape k) buf (v.get k)) []

/-- `strings.Cut(s, sep)` for a one-byte separator: the text before the first
`sep` and the text after it; the whole of `s` and nothing when there is none. -/
def cut (sep : Byte) : GoString → GoString × Option GoString
  | [] => ([], none)
  | c :: rest =>
    if c = sep then ([], some rest)
    else ((cut sep rest).1.cons c, (cut sep rest).2)

/-- The pieces of `s` between the occurrences of `sep`: the successive
`strings.Cut(query, "&")` of `parseQuery`. -/
def pieces (sep : Byte) : GoString → List GoString
  | [] => [[]]
  | c :: rest =>
    if c = sep then [] :: pieces sep rest
    else
      match pieces sep rest with
      | [] => [[c]]
      | p :: ps => (c :: p) :: ps

/-- The body of the loop of `parseQuery` for one piece `key` of the query. -/
def parsePiece (acc : Values × Bool) (key : GoString) : Values × Bool :=
  if key.any (fun c => c.val == 0x3B) then (acc.1, false)
  else if key = [] then acc
  else
    match QueryUnescape (cut 0x3D key).1, QueryUnescape ((cut 0x3D key).2.getD []) with
    | some k, some value => (Values.add acc.1 k value, acc.2)
    | _, _ => (acc.1, false)

/-- `url.ParseQuery`: the parsed map, and whether no error was met (an
ill-formed piece is dropped and reported, the others are still parsed). -/
def ParseQuery (query : GoString) : Values × Bool :=
  if query = [] then ([], true) else (pieces 0x26 query).foldl parsePiece ([], true)

end url

/-! ## Errors -/

/-- The `error` values that occur: whatever a collaborator returns, and the
errors of `json.Decoder.Decode`.  A `SyntaxError` stands for every syntax error
(message and offset are left out); an `UnmarshalTypeError` keeps the kind of the
JSON value and the name of the field it did not fit. -/
inductive GoError where
  | New (text : GoString)
  | EOF
  | ErrUnexpectedEOF
  | SyntaxError
  | UnmarshalTypeError (Value : GoString) (Field : GoString)
  deriving DecidableEq

/-! ## encoding/json: decoding -/

namespace json

/-- A JSON value as the decoder reads it: a number keeps its literal, a string
its unquoted bytes, an object its members in the order of the text. -/
inductive JVal where
  | null
  | bool (b : Bool)
  | num (raw : GoString)
  | str (s : GoString)
  | arr (elems : List JVal)
  | obj (members : List (GoString × JVal))

/-- The value of a hex digit, as the loop of `getu4` computes it. -/
def hexVal (c : Byte) : Option Nat :=
  if 0x30 ≤ c.val ∧ c.val ≤ 0x39 then some (c.val - 0x30)
  else if 0x61 ≤ c.val ∧ c.val ≤ 0x66 then some (c.val - 0x61 + 10)
  else if 0x41 ≤ c.val ∧ c.val ≤ 0x46 then some (c.val - 0x41 + 10)
  else none

/-- `getu4`: the rune of a leading `\uXXXX`; `none` is the result `-1`. -/
def getu4 : GoString → Option Nat
  | b :: u :: h1 :: h2 :: h3 :: h4 :: _ =>
    if b.val == 0x5C && u.val == 0x75 then
      match hexVal h1, hexVal h2, hexVal h3, hexVal h4 with
      | some a, some b, some c, some d => some (((a * 16 + b) * 16 + c) * 16 + d)
      | _, _, _, _ => none
    else none
  | _ => none

/-- `utf16.IsSurrogate`. -/
def isSurrogate (r : Nat) : Bool := decide (0xD800 ≤ r) && decide (r < 0xE000)

/-- `utf16.DecodeRune(r1, r2)`, with `none` for a second operand `-1`: the rune
of a surrogate pair, U+FFFD when the two are not one. -/
def decodeSurrogates (r1 : Nat) (r2 : Option Nat) : Nat :=
  match r2 with
  | some r2 =>
    if 0xD800 ≤ r1 ∧ r1 < 0xDC00 ∧ 0xDC00 ≤ r2 ∧ r2 < 0xE000 then
      (r1 - 0xD800) * 1024 + (r2 - 0xDC00) + 0x10000
    else utf8.RuneError
  | none => utf8.RuneError

/-- One round of the loop of `unquoteBytes`, at text `s`: the bytes that it
appends and the number of bytes of `s` that it has read; `none` where the Go
function returns with `ok = false`. -/
def unquoteRound (s : GoString) : Option (GoString × Nat) :=
  match s with
  | [] => none
  | c :: rest =>
    if c.val == 0x5C then
      match rest with
      | [] => none
      | e :: _ =>
        if e.val == 0x22 || e.val == 0x5C || e.val == 0x2F || e.val == 0x27 then some ([e], 2)
        else if e.val == 0x62 then some ([0x08], 2)
        else if e.val == 0x66 then some ([0x0C], 2)
        else if e.val == 0x6E then some ([0x0A], 2)
        else if e.val == 0x72 then some ([0x0D], 2)
        else if e.val == 0x74 then some ([0x09], 2)
        else if e.val == 0x75 then
          match getu4 s with
          | none => none
          | some rr =>
            if isSurrogate rr then
              if decodeSurrogates rr (getu4 (s.drop 6)) != utf8.RuneError then
                some (utf8.AppendRune (decodeSurrogates rr (getu4 (s.drop 6))), 12)
              else some (utf8.AppendRune utf8.RuneError, 6)
            else some (utf8.AppendRune rr, 6)
        else none
    else if c.val == 0x22 || c.val < 0x20 then none
    else if c.val < 0x80 then some ([c], 1)
    else some (utf8.AppendRune (utf8.DecodeRune s).1, (utf8.DecodeRune s).2)

/-- `unquoteBytes` on the text between the quotes of a string literal: escapes
are replaced, and bytes that are not well-formed UTF-8 are replaced by U+FFFD;
`none` where the Go function reports `ok = false`. -/
def unquote (s : GoString) : Option GoString := scanOpt unquoteRound s.length s

/-- An entry of the scanner's `parseState` stack, together with what the
decoder has built of the enclosing composite value: an object waiting for a key
(`parseObjectKey`), for the colon after key `key`, for the value of `key`
(`parseObjectValue`), for a comma or the closing brace, and an array
(`parseArrayValue`). -/
inductive Frame where
  | objectKey (ms : List (GoString × JVal))
  | objectColon (ms : List (GoString × JVal)) (key : GoString)
  | objectValue (ms : List (GoString × JVal)) (key : GoString)
  | objectNext (ms : List (GoString × JVal))
  | arrayValue (es : List JVal)

/-- The step functions of `scanner.go` (`stateBeginValue`, `stateInString`, ...). -/
inductive Step where
  | beginValueOrEmpty | beginValue | beginStringOrEmpty | beginString | endValue
  | inString | inStringEsc | inStringEscU | inStringEscU1 | inStringEscU12 | inStringEscU123
  | neg | s1 | s0 | dot | dot0 | e | eSign | e0
  | t | tr | tru | f | fa | fal | fals | n | nu | nul
  | endTop | error
  deriving DecidableEq

/-- The scanner, with the token being read (the text of a string between its
quotes, or of a number) and the top-level value once it is complete. -/
structure Scanner where
  step : Step
  parseState : List Frame
  tok : GoString
  value : Option JVal

/-- `maxNestingDepth`. -/
def maxNestingDepth : Nat := 10000

/-- `isSpace`. -/
def isSpace (c : Byte) : Bool :=
  c.val == 0x20 || c.val == 0x09 || c.val == 0x0D || c.val == 0x0A

/-- Whether `c` is a digit `0` to `9`. -/
def isDigit (c : Byte) : Bool := decide (0x30 ≤ c.val) && decide (c.val ≤ 0x39)

/-- Whether `c` is a hex digit, as `stateInStringEscU` asks. -/
def isHex (c : Byte) : Bool := (hexVal c).isSome

/-- `scanner.reset`. -/
def Scanner.reset : Scanner := ⟨.beginValue, [], [], none⟩

/-- `scanner.error`. -/
def Scanner.error (s : Scanner) : Scanner := ⟨.error, s.parseState, [], none⟩

/-- `pushParseState`. -/
def Scanner.pushParseState (s : Scanner) (f : Frame) (successState : Step) : Scanner :=
  if s.parseState.length + 1 ≤ maxNestingDepth then ⟨successState, f :: s.parseState, [], none⟩
  else s.error

/-- A value is complete: it is the top-level value when the stack is empty,
else the key, the member value or the element that the top frame waits for. -/
def Scanner.deliver (s : Scanner) (v : JVal) : Scanner :=
  match s.parseState with
  | [] => ⟨.endTop, [], [], some v⟩
  | .objectKey ms :: st =>
    match v with
    | .str key => ⟨.endValue, .objectColon ms key :: st, [], none⟩
    | _ => s.error
  | .objectValue ms key :: st => ⟨.endValue, .objectNext (ms ++ [(key, v)]) :: st, [], none⟩
  | .arrayValue es :: st => ⟨.endValue, .arrayValue (es ++ [v]) :: st, [], none⟩
  | _ => s.error

/-- `popParseState`, for the composite value `v` that the popped frame built. -/
def Scanner.popParseState (s : Scanner) (v : JVal) : Scanner :=
  Scanner.deliver ⟨s.step, s.parseState.tail, [], none⟩ v

/-- `stateEndTop`: white space may follow the top-level value; another byte is
an error, while the value that was read stays. -/
def Scanner.stateEndTop (s : Scanner) (c : Byte) : Scanner :=
  if isSpace c then s else ⟨.error, s.parseState, [], s.value⟩

/-- `stateEndValue`. -/
def Scanner.stateEndValue (s : Scanner) (c : Byte) : Scanner :=
  match s.parseState with
  | [] => s.stateEndTop c
  | top :: _ =>
    if isSpace c then ⟨.endValue, s.parseState, [], none⟩
    else
      match top with
      | .objectColon ms key =>
        if c.val == 0x3A then ⟨.beginValue, .objectValue ms key :: s.parseState.tail, [], none⟩
        else s.error
      | .objectNext ms =>
        if c.val == 0x2C then ⟨.beginString, .objectKey ms :: s.parseState.tail, [], none⟩
        else if c.val == 0x7D then s.popParseState (.obj ms)
        else s.error
      | .arrayValue es =>
        if c.val == 0x2C then ⟨.beginValue, s.parseState, [], none⟩
        else if c.val == 0x5D then s.popParseState (.arr es)
        else s.error
      | _ => s.error

/-- `stateBeginValue`. -/
def Scanner.stateBeginValue (s : Scanner) (c : Byte) : Scanner :=
  if isSpace c then s
  else if c.val == 0x7B then s.pushParseState (.objectKey []) .beginStringOrEmpty
  else if c.val == 0x5B then s.pushParseState (.arrayValue []) .beginValueOrEmpty
  else if c.val == 0x22 then ⟨.inString, s.parseState, [], none⟩
  else if c.val == 0x2D then ⟨.neg, s.parseState, [c], none⟩
  else if c.val == 0x30 then ⟨.s0, s.parseState, [c], none⟩
  else if c.val == 0x74 then ⟨.t, s.parseState, [], none⟩
  else if c.val == 0x66 then ⟨.f, s.parseState, [], none⟩
  else if c.val == 0x6E then ⟨.n, s.parseState, [], none⟩
  else if isDigit c then ⟨.s1, s.parseState, [c], none⟩
  else s.error

/-- `stateBeginString`. -/
def Scanner.stateBeginString (s : Scanner) (c : Byte) : Scanner :=
  if isSpace c then s
  else if c.val == 0x22 then ⟨.inString, s.parseState, [], none⟩
  else s.error

/-- The scanner goes to step `st` and takes `c` into the token. -/
def Scanner.shift (s : Scanner) (st : Step) (c : Byte) : Scanner :=
  ⟨st, s.parseState, s.tok ++ [c], none⟩

/-- The number read so far is complete and `c` is the byte after it. -/
def Scanner.endNumber (s : Scanner) (c : Byte) : Scanner :=
  (s.deliver (.num s.tok)).stateEndValue c

/-- `stateE`'s continuation `stateESign`. -/
def Scanner.stateESign (s : Scanner) (c : Byte) : Scanner :=
  if isDigit c then s.shift .e0 c else s.error

/-- One call `s.step(s, c)`. -/
def Scanner.next (s : Scanner) (c : Byte) : Scanner :=
  match s.step with
  | .endTop => s.stateEndTop c
  | .error => s
  | .beginValueOrEmpty =>
    if isSpace c then s
    else if c.val == 0x5D then s.stateEndValue c
    else s.stateBeginValue c
  | .beginValue => s.stateBeginValue c
  | .beginStringOrEmpty =>
    if isSpace c then s
    else if c.val == 0x7D then
      match s.parseState with
      | .objectKey ms :: _ => s.popParseState (.obj ms)
      | _ => s.error
    else s.stateBeginString c
  | .beginString => s.stateBeginString c
  | .endValue => s.stateEndValue c
  | .inString =>
    if c.val == 0x22 then
      match unquote s.tok with
      | some str => s.deliver (.str str)
      | none => s.error
    else if c.val == 0x5C then s.shift .inStringEsc c
    else if c.val < 0x20 then s.error
    else s.shift .inString c
  | .inStringEsc =>
    if c.val == 0x62 || c.val == 0x66 || c.val == 0x6E || c.val == 0x72 || c.val == 0x74
        || c.val == 0x5C || c.val == 0x2F || c.val == 0x22 then s.shift .inString c
    else if c.val == 0x75 then s.shift .inStringEscU c
    else s.error
  | .inStringEscU => if isHex c then s.shift .inStringEscU1 c else s.error
  | .inStringEscU1 => if isHex c then s.shift .inStringEscU12 c else s.error
  | .inStringEscU12 => if isHex c then s.shift .inStringEscU123 c else s.error
  | .inStringEscU123 => if isHex c then s.shift .inString c else s.error
  | .neg =>
    if c.val == 0x30 then s.shift .s0 c
    else if isDigit c then s.shift .s1 c
    else s.error
  | .s1 =>
    if isDigit c then s.shift .s1 c
    else if c.val == 0x2E then s.shift .dot c
    else if c.val == 0x65 || c.val == 0x45 then s.shift .e c
    else s.endNumber c
  | .s0 =>
    if c.val == 0x2E then s.shift .dot c
    else if c.val == 0x65 || c.val == 0x45 then s.shift .e c
    else s.endNumber c
  | .dot => if isDigit c then s.shift .dot0 c else s.error
  | .dot0 =>
    if isDigit c then s.shift .dot0 c
    else if c.val == 0x65 || c.val == 0x45 then s.shift .e c
    else s.endNumber c
  | .e => if c.val == 0x2B || c.val == 0x2D then s.shift .eSign c else s.stateESign c
  | .eSign => s.stateESign c
  | .e0 => if isDigit c then s.shift .e0 c else s.endNumber c
  | .t => if c.val == 0x72 then s.shift .tr c else s.error
  | .tr => if c.val == 0x75 then s.shift .tru c else s.error
  | .tru => if c.val == 0x65 then s.deliver (.bool true) else s.error
  | .f => if c.val == 0x61 then s.shift .fa c else s.error
  | .fa => if c.val == 0x6C then s.shift .fal c else s.error
  | .fal => if c.val == 0x73 then s.shift .fals c else s.error
  | .fals => if c.val == 0x65 then s.deliver (.bool false) else s.error
  | .n => if c.val == 0x75 then s.shift .nu c else s.error
  | .nu => if c.val == 0x6C then s.shift .nul c else s.error
  | .nul => if c.val == 0x6C then s.deliver .null else s.error

/-- The scanner after the bytes `data`, from state `s`. -/
def Scanner.run (s : Scanner) (data : GoString) : Scanner := data.foldl Scanner.next s

/-- `Decoder.readValue` followed by the decoding of the value read: the first
JSON value of `data`.  The decoder stops at the end of that value, so the bytes
after it play no part.  A byte that cannot continue the value is a
`SyntaxError`; input that ends inside the value is `io.ErrUnexpectedEOF`, input
of white space only is `io.EOF`. -/
def readValue (data : GoString) : Except GoError JVal :=
  match (Scanner.reset.run data).value with
  | some v => .ok v
  | none =>
    if (Scanner.reset.run data).step = .error then .error .SyntaxError
    else
      match ((Scanner.reset.run data).next 0x20).value with
      | some v => .ok v
      | none => if data.any (fun c => !isSpace c) then .error .ErrUnexpectedEOF else .error .EOF

/-- `json.Unmarshal(data, &v)` for a `v` of type `any`, the value kept as a
tree: `data` has to be one JSON value with nothing but white space around it
(`checkValid`), else the result is a `SyntaxError`. -/
def Unmarshal (data : GoString) : Except GoError JVal :=
  if ((Scanner.reset.run data).next 0x20).step = .error then .error .SyntaxError
  else
    match ((Scanner.reset.run data).next 0x20).value with
    | some v => .ok v
    | none => .error .SyntaxError

/-! ### Decoding into `Response` -/

end json

/-- The `Response` of `src/gupshup.go`, with JSON names `status` and `messageId`. -/
structure Response where
  Status : GoString
  MessageId : GoString
  deriving DecidableEq

namespace json

/-- The fields of `Response`. -/
inductive ResponseField where
  | Status
  | MessageId
  deriving DecidableEq

/-- `foldRune` as far as it matters for names of ASCII letters: the two runes
beside ASCII that fold to an ASCII letter are U+017F (to `S`) and U+212A (to
`K`); every other rune beyond ASCII folds to a rune beyond ASCII, for which the
rune itself stands here. -/
def foldRune (r : Nat) : Nat := if r == 0x17F then 0x53 else if r == 0x212A then 0x4B else r

/-- One round of `appendFoldedName`. -/
def foldRound (s : GoString) : GoString × Nat :=
  match s with
  | [] => ([], 0)
  | c :: _ =>
    if c.val < 0x80 then
      ([if 0x61 ≤ c.val ∧ c.val ≤ 0x7A then Fin.ofNat (c.val - 0x20) else c], 1)
    else (utf8.AppendRune (foldRune (utf8.DecodeRune s).1), (utf8.DecodeRune s).2)

/-- `foldName`: the name with ASCII letters in upper case and the other runes folded. -/
def foldName (s : GoString) : GoString := scanAll foldRound s.length s

/-- The field that an object key names: the field of exactly that JSON name,
else the first field whose name matches when case is ignored. -/
def fieldOf (key : GoString) : Option ResponseField :=
  if key = lit "status" then some .Status
  else if key = lit "messageId" then some .MessageId
  else if foldName key = foldName (lit "status") then some .Status
  else if foldName key = foldName (lit "messageId") then some .MessageId
  else none

/-- The JSON name of a field, as `UnmarshalTypeError.Field` has it. -/
def ResponseField.name : ResponseField → GoString
  | .Status => lit "status"
  | .MessageId => lit "messageId"

/-- `saveError`: the first error is kept. -/
def saveError (saved : Option GoError) (err : GoError) : Option GoError :=
  match saved with
  | none => some err
  | some e => some e

/-- What the decoder does with one member of the object: a member whose key
names no field is skipped; a string is stored in the field, `null` leaves the
field as it is, every other value is an `UnmarshalTypeError` that is saved while
decoding goes on. -/
def storeMember (d : Response × Option GoError) (m : GoString × JVal) : Response × Option GoError :=
  match fieldOf m.1 with
  | none => d
  | some f =>
    match m.2 with
    | .str s =>
      match f with
      | .Status => (⟨s, d.1.MessageId⟩, d.2)
      | .MessageId => (⟨d.1.Status, s⟩, d.2)
    | .null => d
    | .bool _ => (d.1, saveError d.2 (.UnmarshalTypeError (lit "bool") f.name))
    | .num _ => (d.1, saveError d.2 (.UnmarshalTypeError (lit "number") f.name))
    | .arr _ => (d.1, saveError d.2 (.UnmarshalTypeError (lit "array") f.name))
    | .obj _ => (d.1, saveError d.2 (.UnmarshalTypeError (lit "object") f.name))

/-- `decodeState.unmarshal` into a `*Response`: an object fills the fields
member by member, `null` changes nothing, any other value is an
`UnmarshalTypeError`. -/
def unmarshal (response : Response) : JVal → Response × Option GoError
  | .obj ms => ms.foldl storeMember (response, none)
  | .null => (response, none)
  | .bool _ => (response, some (.UnmarshalTypeError (lit "bool") []))
  | .num _ => (response, some (.UnmarshalTypeError (lit "number") []))
  | .str _ => (response, some (.UnmarshalTypeError (lit "string") []))
  | .arr _ => (response, some (.UnmarshalTypeError (lit "array") []))

/-- `json.NewDecoder(body).Decode(&response)` on a body that delivers the bytes
`data` and then ends: the value of `response` afterwards, and the error. -/
def Decode (data : GoString) (response : Response) : Response × Option GoError :=
  match readValue data with
  | .error err => (response, some err)
  | .ok v => unmarshal response v

/-! ## encoding/json: encoding -/

/-- `hex[n]` for `n < 16`, lower case. -/
def hex (n : Nat) : Byte := Fin.ofNat (if n < 10 then 0x30 + n else 0x57 + n)

/-- What `appendString` writes for an ASCII byte with HTML escaping on: the byte
itself when `htmlSafeSet` has it, else its escape. -/
def escapeASCII (b : Byte) : GoString :=
  if b.val == 0x5C || b.val == 0x22 then [0x5C, b]
  else if b.val == 0x08 then [0x5C, 0x62]
  else if b.val == 0x0C then [0x5C, 0x66]
  else if b.val == 0x0A then [0x5C, 0x6E]
  else if b.val == 0x0D then [0x5C, 0x72]
  else if b.val == 0x09 then [0x5C, 0x74]
  else if b.val < 0x20 || b.val == 0x3C || b.val == 0x3E || b.val == 0x26 then
    [0x5C, 0x75, 0x30, 0x30, hex (b.val / 16), hex (b.val % 16)]
  else [b]

/-- One round of the loop of `appendString(dst, src, true)`, at text `s`: what
it writes and how far it moves.  An ASCII byte is written as `escapeASCII` has
it, an ill-formed byte as the escape of U+FFFD, U+2028 and U+2029 as their
escapes, every other rune as it stands. -/
def escapeRound (s : GoString) : GoString × Nat :=
  match s with
  | [] => ([], 0)
  | b :: _ =>
    if b.val < 0x80 then (escapeASCII b, 1)
    else if (utf8.DecodeRune s).1 == utf8.RuneError && (utf8.DecodeRune s).2 == 1 then
      (lit "\\ufffd", 1)
    else if (utf8.DecodeRune s).1 == 0x2028 || (utf8.DecodeRune s).1 == 0x2029 then
      ([0x5C, 0x75, 0x32, 0x30, 0x32, hex ((utf8.DecodeRune s).1 % 16)], (utf8.DecodeRune s).2)
    else (s.take (utf8.DecodeRune s).2, (utf8.DecodeRune s).2)

/-- The loop of `appendString(dst, src, true)`: the text between the quotes. -/
def escapeString (src : GoString) : GoString := scanAll escapeRound src.length src

/-- `appendString(nil, src, true)`: a JSON string literal for `src`. -/
def appendString (src : GoString) : GoString := [0x22] ++ escapeString src ++ [0x22]

end json

/-! ## net/http -/

namespace http

/-- `http.Header`: a map from a canonical key to its values. -/
abbrev Header := List (GoString × List GoString)

/-- `validHeaderFieldByte`: the token characters of RFC 7230. -/
def validHeaderFieldByte (c : Byte) : Bool :=
  (decide (0x61 ≤ c.val) && decide (c.val ≤ 0x7A)) || (decide (0x41 ≤ c.val) && decide (c.val ≤ 0x5A))
    || (decide (0x30 ≤ c.val) && decide (c.val ≤ 0x39))
    || c.val == 0x21 || c.val == 0x23 || c.val == 0x24 || c.val == 0x25 || c.val == 0x26
    || c.val == 0x27 || c.val == 0x2A || c.val == 0x2B || c.val == 0x2D || c.val == 0x2E
    || c.val == 0x5E || c.val == 0x5F || c.val == 0x60 || c.val == 0x7C || c.val == 0x7E

/-- The loop of `canonicalMIMEHeaderKey`: a letter at the start or after a
hyphen is put in upper case, every other letter in lower case. -/
def canonicalize : Bool → GoString → GoString
  | _, [] => []
  | upper, c :: rest =>
    if upper && decide (0x61 ≤ c.val) && decide (c.val ≤ 0x7A) then
      Fin.ofNat (c.val - 0x20) :: canonicalize false rest
    else if !upper && decide (0x41 ≤ c.val) && decide (c.val ≤ 0x5A) then
      Fin.ofNat (c.val + 0x20) :: canonicalize false rest
    else c :: canonicalize (c.val == 0x2D) rest

/-- `textproto.CanonicalMIMEHeaderKey`: a key with a byte that is no token
character is returned as it is. -/
def CanonicalMIMEHeaderKey (s : GoString) : GoString :=
  if s.all validHeaderFieldByte then canonicalize true s else s

/-- The assignment `h[key] = values`. -/
def Header.assign : Header → GoString → List GoString → Header
  | [], key, values => [(key, values)]
  | (k, vs) :: h, key, values =>
    if k = key then (k, values) :: h else (k, vs) :: Header.assign h key values

/-- `Header.Set`. -/
def Header.Set (h : Header) (key value : GoString) : Header :=
  Header.assign h (CanonicalMIMEHeaderKey key) [value]

/-- `Header.Get`: the first value under the key, the empty string if there is none. -/
def Header.Get (h : Header) (key : GoString) : GoString :=
  match h.lookup (CanonicalMIMEHeaderKey key) with
  | some (v :: _) => v
  | _ => []

/-- What the client sees and sets of an `*http.Request`; `Body` is the text
that the body reader delivers. -/
structure Request where
  Method : GoString
  URL : GoString
  Body : GoString
  Header : Header

/-- What the client reads of an `*http.Response`; `Body` is the text that the
body delivers before it ends. -/
structure Response where
  StatusCode : Int
  Body : GoString

end http

/-! ## The client: `src/gupshup.go` -/

/-- `MessageUrl`. -/
def MessageUrl : GoString := lit "https://api.gupshup.io/sm/api/v1/msg"

/-- `ContentType`. -/
def ContentType : GoString := lit "application/x-www-form-urlencoded"

/-- The interface `httpClient` of `src/http.go`: `Do(req)` returns a response or
an error. -/
abbrev httpClient := http.Request → Except GoError http.Response

/-- The interface `httpBuilder` of `src/http.go`: `BuildRequest(method, url,
body)` returns a request or an error; `body` is the text of the reader. -/
abbrev httpBuilder := GoString → GoString → GoString → Except GoError http.Request

/-- The struct `client`. -/
structure client where
  ApiKey : GoString
  AppName : GoString
  httpClient : httpClient
  httpBuilder : httpBuilder

/-- `NewClient(apiKey, appName)`; `stdClient` and `stdBuilder` stand for the
`&http.Client{}` and the `&httpRequest{}` that it creates. -/
def NewClient (stdClient : httpClient) (stdBuilder : httpBuilder) (apiKey appName : GoString) :
    client :=
  { ApiKey := apiKey, AppName := appName, httpClient := stdClient, httpBuilder := stdBuilder }

structure TextRequest where
  Source : GoString
  Destination : GoString
  Text : GoString

structure ImageRequest where
  Source : GoString
  Destination : GoString
  Image : GoString
  Preview : GoString
  Caption : GoString

structure DocumentRequest where
  Source : GoString
  Destination : GoString
  Url : GoString
  Filename : GoString

structure AudioRequest where
  Source : GoString
  Destination : GoString
  Url : GoString

structure VideoRequest where
  Source : GoString
  Destination : GoString
  Url : GoString
  Caption : GoString

structure StickerRequest where
  Source : GoString
  Destination : GoString
  Url : GoString

/-- A Go slice: `none` is the `nil` slice, `some l` a slice that is not `nil`
and holds the elements `l`. -/
abbrev Slice (α : Type) := Option (List α)

/-- The struct `InteractiveGlobalButtons`; `Type_` is its field `Type`. -/
structure InteractiveGlobalButtons where
  Type_ : GoString
  Title : GoString

/-- The struct `InteractiveMessageOptions`; `Type_` is its field `Type`. -/
structure InteractiveMessageOptions where
  Type_ : GoString
  Title : GoString
  Description : GoString
  Postback : GoString

structure InteractiveMessageItem where
  Title : GoString
  Subtitle : GoString
  Options : Slice InteractiveMessageOptions

/-- The struct `InteractiveMessage`; `Type_` is its field `Type`. -/
structure InteractiveMessage where
  Type_ : GoString
  Title : GoString
  Body : GoString
  MessageId : GoString
  GlobalButtons : Slice InteractiveGlobalButtons
  Items : Slice InteractiveMessageItem

structure InteractiveMessageRequest where
  Source : GoString
  Destination : GoString
  InteractiveMessage : InteractiveMessage

def NewInteractiveMessage (body title messageId : GoString)
    (button : Slice InteractiveGlobalButtons) (items : Slice InteractiveMessageItem) :
    InteractiveMessage :=
  { Type_ := lit "list", Title := title, Body := body, MessageId := messageId,
    GlobalButtons := button, Items := items }

def NewInteractiveMessageItem (title subtitle : GoString)
    (options : Slice InteractiveMessageOptions) : InteractiveMessageItem :=
  { Title := title, Subtitle := subtitle, Options := options }

def NewInteractiveMessageOption (title description postback : GoString) :
    InteractiveMessageOptions :=
  { Type_ := lit "text", Title := title, Description := description, Postback := postback }

def NewButton (title : GoString) : InteractiveGlobalButtons :=
  { Type_ := lit "text", Title := title }

namespace json

/-- The slice encoder: `null` for a `nil` slice, else the elements between
brackets with commas between them. -/
def marshalSlice {α : Type} (enc : α → GoString) : Slice α → GoString
  | none => lit "null"
  | some [] => lit "[]"
  | some (x :: xs) => [0x5B] ++ enc x ++ xs.flatMap (fun y => 0x2C :: enc y) ++ [0x5D]

/-- The struct encoder for `InteractiveGlobalButtons`. -/
def marshalButton (b : InteractiveGlobalButtons) : GoString :=
  lit "\x7b\"type\":" ++ appendString b.Type_ ++ lit ",\"title\":" ++ appendString b.Title
    ++ lit "\x7d"

/-- The struct encoder for `InteractiveMessageOptions`. -/
def marshalOption (o : InteractiveMessageOptions) : GoString :=
  lit "\x7b\"type\":" ++ appendString o.Type_ ++ lit ",\"title\":" ++ appendString o.Title
    ++ lit ",\"description\":" ++ appendString o.Description
    ++ lit ",\"postbackText\":" ++ appendString o.Postback ++ lit "\x7d"

/-- The struct encoder for `InteractiveMessageItem`. -/
def marshalItem (i : InteractiveMessageItem) : GoString :=
  lit "\x7b\"title\":" ++ appendString i.Title ++ lit ",\"subtitle\":" ++ appendString i.Subtitle
    ++ lit ",\"options\":" ++ marshalSlice marshalOption i.Options ++ lit "\x7d"

/-- `json.Marshal` of an `InteractiveMessage`: the fields in the order of the
struct, under their JSON names.  It returns no error for this type. -/
def Marshal (m : InteractiveMessage) : GoString :=
  lit "\x7b\"type\":" ++ appendString m.Type_ ++ lit ",\"title\":" ++ appendString m.Title
    ++ lit ",\"body\":" ++ appendString m.Body ++ lit ",\"msgid\":" ++ appendString m.MessageId
    ++ lit ",\"globalButtons\":" ++ marshalSlice marshalButton m.GlobalButtons
    ++ lit ",\"items\":" ++ marshalSlice marshalItem m.Items ++ lit "\x7d"

end json

/-- One call of a collaborator: `BuildRequest(method, url, body)` on the
builder, or `Do(req)` on the sender. -/
inductive Call where
  | BuildRequest (method url body : GoString)
  | Do (req : http.Request)

/-- What a send operation returns, `(Response, error)`, and the calls of the
collaborators that it made, in their order. -/
structure Outcome where
  response : Response
  err : Option GoError
  calls : List Call

/-- The method `sendRequest`.  The collaborators keep Go's convention that the
result is there when the error is `nil`; the request that the builder returns
has a header map. -/
def client.sendRequest (g : client) (requestBody : url.Values) : Outcome :=
  let response : Response := ⟨[], []⟩
  let build := Call.BuildRequest (lit "POST") MessageUrl requestBody.Encode
  match g.httpBuilder (lit "POST") MessageUrl requestBody.Encode with
  | .error err => ⟨response, some err, [build]⟩
  | .ok httpRequest =>
    let httpRequest : http.Request :=
      { httpRequest with Header := httpRequest.Header.Set (lit "Content-Type") ContentType }
    let httpRequest : http.Request :=
      { httpRequest with Header := httpRequest.Header.Set (lit "apikey") g.ApiKey }
    match g.httpClient httpRequest with
    | .error err => ⟨response, some err, [build, .Do httpRequest]⟩
    | .ok resp =>
      match json.Decode resp.Body response with
      | (response, some err) => ⟨response, some err, [build, .Do httpRequest]⟩
      | (response, none) => ⟨response, none, [build, .Do httpRequest]⟩

/-- The form of a message: the five entries of the `url.Values` literal that
every send method writes, in the order of the source, for the payload `message`. -/
def client.form (g : client) (source destination message : GoString) : url.Values :=
  [ (lit "channel", [lit "whatsapp"]),
    (lit "source", [source]),
    (lit "destination", [destination]),
    (lit "src.name", [g.AppName]),
    (lit "message", [message]) ]

/-- The payload of `SendText`. -/
def TextRequest.message (request : TextRequest) : GoString :=
  Sprintf (lit "\x7b\n\t\t\t\"type\": \"text\",\n\t\t\t\"text\": \"%s\"\n\t\t\x7d") [request.Text]

def client.SendText (g : client) (request : TextRequest) : Outcome :=
  g.sendRequest (g.form request.Source request.Destination request.message)

/-- The payload of `SendImage`. -/
def ImageRequest.message (request : ImageRequest) : GoString :=
  Sprintf (lit ("\x7b\n\t\t\t\t\"type\": \"image\",\n\t\t\t\t\"originalUrl\": \"%s\",\n"
    ++ "\t\t\t\t\"previewUrl\": \"%s\",\n\t\t\t\t\"caption\": \"%s\"\n\t\t\t\x7d"))
    [request.Image, request.Preview, request.Caption]

def client.SendImage (g : client) (request : ImageRequest) : Outcome :=
  g.sendRequest (g.form request.Source request.Destination request.message)

/-- The payload of `SendDocument`. -/
def DocumentRequest.message (request : DocumentRequest) : GoString :=
  Sprintf (lit ("\x7b\n\t\t\t\t\"type\": \"file\",\n\t\t\t\t\"url\": \"%s\",\n"
    ++ "\t\t\t    \"filename\": \"%s\"\n\t\t\t\x7d")) [request.Url, request.Filename]

def client.SendDocument (g : client) (request : DocumentRequest) : Outcome :=
  g.sendRequest (g.form request.Source request.Destination request.message)

/-- The payload of `SendAudio`. -/
def AudioRequest.message (request : AudioRequest) : GoString :=
  Sprintf (lit "\x7b\n\t\t\t\t\"type\": \"audio\",\n\t\t\t\t\"url\": \"%s\"\n\t\t\t\x7d") [request.Url]

def client.SendAudio (g : client) (request : AudioRequest) : Outcome :=
  g.sendRequest (g.form request.Source request.Destination request.message)

/-- The payload of `SendVideo`. -/
def VideoRequest.message (request : VideoRequest) : GoString :=
  Sprintf (lit ("\x7b\n\t\t\t\t\"type\": \"video\",\n\t\t\t\t\"url\": \"%s\",\n"
    ++ "\t\t\t\t\"caption\": \"%s\"\n\t\t\t\x7d")) [request.Url, request.Caption]

def client.SendVideo (g : client) (request : VideoRequest) : Outcome :=
  g.sendRequest (g.form request.Source request.Destination request.message)

/-- The payload of `SendSticker`. -/
def StickerRequest.message (request : StickerRequest) : GoString :=
  Sprintf (lit "\x7b\n\t\t\t\t\"type\": \"sticker\",\n\t\t\t\t\"url\": \"%s\"\n\t\t\t\x7d") [request.Url]

def client.SendSticker (g : client) (request : StickerRequest) : Outcome :=
  g.sendRequest (g.form request.Source request.Destination request.message)

/-- The payload of `SendInteractiveMessage`: `json.Marshal` of the message,
printed with `%s`. -/
def InteractiveMessageRequest.message (request : InteractiveMessageRequest) : GoString :=
  Sprintf (lit "%s") [json.Marshal request.InteractiveMessage]

def client.SendInteractiveMessage (g : client) (request : InteractiveMessageRequest) : Outcome :=
  g.sendRequest (g.form request.Source request.Destination request.message)

/-- A request of one of the seven kinds. -/
inductive AnyRequest where
  | text (request : TextRequest)
  | image (request : ImageRequest)
  | document (request : DocumentRequest)
  | audio (request : AudioRequest)
  | video (request : VideoRequest)
  | sticker (request : StickerRequest)
  | interactive (request : InteractiveMessageRequest)

/-- The send method of the request's kind. -/
def client.Send (g : client) : AnyRequest → Outcome
  | .text request => g.SendText request
  | .image request => g.SendImage request
  | .document request => g.SendDocument request
  | .audio request => g.SendAudio request
  | .video request => g.SendVideo request
  | .sticker request => g.SendSticker request
  | .interactive request => g.SendInteractiveMessage request

/-- The sender of the request. -/
def AnyRequest.Source : AnyRequest → GoString
  | .text request => request.Source
  | .image request => request.Source
  | .document request => request.Source
  | .audio request => request.Source
  | .video request => request.Source
  | .sticker request => request.Source
  | .interactive request => request.Source

/-- The recipient of the request. -/
def AnyRequest.Destination : AnyRequest → GoString
  | .text request => request.Destination
  | .image request => request.Destination
  | .document request => request.Destination
  | .audio request => request.Destination
  | .video request => request.Destination
  | .sticker request => request.Destination
  | .interactive request => request.Destination

/-- The payload of the request, the value of the form field `message`. -/
def AnyRequest.message : AnyRequest → GoString
  | .text request => request.message
  | .image request => request.message
  | .document request => request.message
  | .audio request => request.message
  | .video request => request.message
  | .sticker request => request.message
  | .interactive request => request.message

/-- The `requestBody` that the send method of the request's kind builds. -/
def AnyRequest.form (g : client) (r : AnyRequest) : url.Values :=
  g.form r.Source r.Destination r.message

/-- The request that `sendRequest` hands to the sender when the builder
returned `req`: `req` with the two headers set. -/
def client.stamped (g : client) (req : http.Request) : http.Request :=
  { req with
    Header := (req.Header.Set (lit "Content-Type") ContentType).Set (lit "apikey") g.ApiKey }

/-! ## Fixtures of `src/gupshup/client_test.go` -/

/-- The body of the stub of `mockGetDoFunc`. -/
def submittedBody : GoString := lit "\x7b\"status\":\"submitted\",\"messageId\":\"1234-56789\"\x7d"

/-- The stub of `mockGetDoFunc`, for a status code and a body. -/
def mockDo (statusCode : Int) (body : GoString) : httpClient :=
  fun _ => .ok { StatusCode := statusCode, Body := body }

/-- The stub `errors.New("error from gupshup")` of the sender. -/
def mockDoError : httpClient := fun _ => .error (.New (lit "error from gupshup"))

/-- The stub of `mockGetBuildRequestFunc`: a request as `http.NewRequest` makes
it, with an empty header. -/
def mockBuildRequest : httpBuilder :=
  fun method url body => .ok { Method := method, URL := url, Body := body, Header := [] }

/-- The stub `errors.New("error wrong url")` of the builder. -/
def mockBuildRequestError : httpBuilder := fun _ _ _ => .error (.New (lit "error wrong url"))

/-- The client `gc` of the tests, over the stubs that answer. -/
def gc : client :=
  { ApiKey := lit "test", AppName := lit "test", httpClient := mockDo 200 submittedBody,
    httpBuilder := mockBuildRequest }

/-- The fixture `textRequest`. -/
def textRequest : TextRequest :=
  { Source := lit "123456789", Destination := lit "123456789", Text := lit "lorem" }

/-- The client `gc` over a builder that fails. -/
def gcBuildError : client := { gc with httpBuilder := mockBuildRequestError }

/-- The client `gc` over a sender that answers with status 200 and `body`. -/
def gcBody (body : GoString) : client := { gc with httpClient := mockDo 200 body }

/-- A byte string without `&`, `=` and `;`. -/
def plain (a : GoString) : Prop := ∀ c ∈ a, c.val ≠ 0x26 ∧ c.val ≠ 0x3D ∧ c.val ≠ 0x3B

/-- The shape of `utf8.DecodeRune` on text whose first byte `c` is beyond
ASCII: either the text starts with no well-formed sequence, or it starts with
one of two, three or four bytes, which `utf8.AppendRune` gives back and which
alone decide the result. -/
inductive Decoded (c : Byte) (rest : GoString) : Prop where
  | one (h : utf8.DecodeRune (c :: rest) = (utf8.RuneError, 1))
  | two (b1 : Byte) (r1 : GoString) (hr : rest = b1 :: r1)
      (h : (utf8.DecodeRune (c :: rest)).2 = 2)
      (henc : utf8.AppendRune (utf8.DecodeRune (c :: rest)).1 = [c, b1])
      (hcont : 0x80 ≤ b1.val)
      (hind : ∀ y, utf8.DecodeRune (c :: b1 :: y) = utf8.DecodeRune (c :: rest))
  | three (b1 b2 : Byte) (r2 : GoString) (hr : rest = b1 :: b2 :: r2)
      (h : (utf8.DecodeRune (c :: rest)).2 = 3)
      (henc : utf8.AppendRune (utf8.DecodeRune (c :: rest)).1 = [c, b1, b2])
      (hcont : 0x80 ≤ b1.val ∧ 0x80 ≤ b2.val)
      (hind : ∀ y, utf8.DecodeRune (c :: b1 :: b2 :: y) = utf8.DecodeRune (c :: rest))
  | four (b1 b2 b3 : Byte) (r3 : GoString) (hr : rest = b1 :: b2 :: b3 :: r3)
      (h : (utf8.DecodeRune (c :: rest)).2 = 4)
      (henc : utf8.AppendRune (utf8.DecodeRune (c :: rest)).1 = [c, b1, b2, b3])
      (hcont : 0x80 ≤ b1.val ∧ 0x80 ≤ b2.val ∧ 0x80 ≤ b3.val)
      (hind : ∀ y, utf8.DecodeRune (c :: b1 :: b2 :: b3 :: y) = utf8.DecodeRune (c :: rest))

/-- One round of the coercion that `json.unquote` applies to text without
escapes: an ASCII byte stays, every other rune is decoded and encoded again. -/
def json.coerceRound (s : GoString) : GoString × Nat :=
  match s with
  | [] => ([], 0)
  | c :: _ =>
    if c.val < 0x80 then ([c], 1)
    else (utf8.AppendRune (utf8.DecodeRune s).1, (utf8.DecodeRune s).2)

/-- What `json.unquote` makes of text without escapes: well-formed UTF-8 stays
and each ill-formed byte becomes U+FFFD. -/
def json.coerce (s : GoString) : GoString := scanAll json.coerceRound s.length s

/-- A string without double quote, backslash and control byte (a byte below
0x20). -/
def unescaped (s : GoString) : Prop := ∀ c ∈ s, c.val ≠ 0x22 ∧ c.val ≠ 0x5C ∧ 0x20 ≤ c.val

/-- Text of white space only. -/
def allSpace (ws : GoString) : Prop := ∀ c ∈ ws, json.isSpace c = true

/-- The scanner that waits for a value under the stack `st`: in an array before
its first element when `first` holds (`stateBeginValueOrEmpty`), else
`stateBeginValue`. -/
def json.Scanner.await (st : List json.Frame) (first : Bool) : json.Scanner :=
  ⟨if first then .beginValueOrEmpty else .beginValue, st, [], none⟩

/-- The scanner that has read a value under the stack `st` and waits for what
follows it (`stateEndValue`). -/
def json.Scanner.after (st : List json.Frame) : json.Scanner := ⟨.endValue, st, [], none⟩

/-- The scanner reads `text` as the value `v`: wherever a value is awaited,
under any stack that leaves room for `depth` more frames, the scanner after
`text` is the one to which `v` was delivered. -/
def ParsesAs (text : GoString) (v : json.JVal) (depth : Nat) : Prop :=
  ∀ (st : List json.Frame) (first : Bool), st.length + depth ≤ json.maxNestingDepth →
    (json.Scanner.await st first).run text = (json.Scanner.after st).deliver v

/-- Text that the scanner takes into a string token as it stands: from inside
a string it leads back to inside the string. -/
def Passes (raw : GoString) : Prop :=
  ∀ (st : List json.Frame) (tok : GoString),
    json.Scanner.run ⟨.inString, st, tok, none⟩ raw = ⟨.inString, st, tok ++ raw, none⟩

/-- The tree of a slice: `null` for a `nil` slice, else the array of the trees
of its elements. -/
def json.sliceTree {α : Type} (tree : α → json.JVal) : Slice α → json.JVal
  | none => .null
  | some l => .arr (l.map tree)

/-- The JSON value that a button is written as, with its strings coerced to
well-formed UTF-8. -/
def json.buttonTree (b : InteractiveGlobalButtons) : json.JVal :=
  .obj [(lit "type", .str (json.coerce b.Type_)), (lit "title", .str (json.coerce b.Title))]

/-- The JSON value that an option is written as. -/
def json.optionTree (o : InteractiveMessageOptions) : json.JVal :=
  .obj [(lit "type", .str (json.coerce o.Type_)), (lit "title", .str (json.coerce o.Title)),
    (lit "description", .str (json.coerce o.Description)),
    (lit "postbackText", .str (json.coerce o.Postback))]

/-- The JSON value that a section is written as. -/
def json.itemTree (i : InteractiveMessageItem) : json.JVal :=
  .obj [(lit "title", .str (json.coerce i.Title)), (lit "subtitle", .str (json.coerce i.Subtitle)),
    (lit "options", json.sliceTree json.optionTree i.Options)]

/-- The JSON value that an interactive message is written as. -/
def json.messageTree (m : InteractiveMessage) : json.JVal :=
  .obj [(lit "type", .str (json.coerce m.Type_)), (lit "title", .str (json.coerce m.Title)),
    (lit "body", .str (json.coerce m.Body)), (lit "msgid", .str (json.coerce m.MessageId)),
    (lit "globalButtons", json.sliceTree json.buttonTree m.GlobalButtons),
    (lit "items", json.sliceTree json.itemTree m.Items)]

/-- The string fields that a request of a templated kind puts into its payload,
in the order of the template; none for an interactive message. -/
def AnyRequest.fields : AnyRequest → List GoString
  | .text request => [request.Text]
  | .image request => [request.Image, request.Preview, request.Caption]
  | .document request => [request.Url, request.Filename]
  | .audio request => [request.Url]
  | .video request => [request.Url, request.Caption]
  | .sticker request => [request.Url]
  | .interactive _ => []

/-- The discriminator that the specification gives for the kind of a request. -/
def AnyRequest.discriminator : AnyRequest → GoString
  | .text _ => lit "text"
  | .image _ => lit "image"
  | .document _ => lit "file"
  | .audio _ => lit "audio"
  | .video _ => lit "video"
  | .sticker _ => lit "sticker"
  | .interactive _ => lit "list"

/-- The JSON object that the specification gives for the payload of a request of
a templated kind; none for an interactive message. -/
def AnyRequest.specPayload : AnyRequest → Option json.JVal
  | .text request => some (.obj [(lit "type", .str (lit "text")), (lit "text", .str request.Text)])
  | .image request =>
    some (.obj [(lit "type", .str (lit "image")), (lit "originalUrl", .str request.Image),
      (lit "previewUrl", .str request.Preview), (lit "caption", .str request.Caption)])
  | .document request =>
    some (.obj [(lit "type", .str (lit "file")), (lit "url", .str request.Url),
      (lit "filename", .str request.Filename)])
  | .audio request => some (.obj [(lit "type", .str (lit "audio")), (lit "url", .str request.Url)])
  | .video request =>
    some (.obj [(lit "type", .str (lit "video")), (lit "url", .str request.Url),
      (lit "caption", .str request.Caption)])
  | .sticker request => some (.obj [(lit "type", .str (lit "sticker")), (lit "url", .str request.Url)])
  | .interactive _ => none

/-- The member `key` of a JSON value: of an object the value of the last member
of that name, as a decoder into a map keeps it; none of any other value. -/
def json.JVal.member (v : json.JVal) (key : GoString) : Option json.JVal :=
  match v with
  | .obj ms => ms.reverse.lookup key
  | _ => none

/-- A text request whose text is the Latin-1 encoding of `café`: its last byte,
0xE9, is no well-formed UTF-8. -/
def latin1Request : TextRequest := { Source := [], Destination := [], Text := lit "caf" ++ [0xE9] }

/-- A text request whose text is one double quote. -/
def quoteRequest : TextRequest := { Source := [], Destination := [], Text := lit "\"" }

/-- An interactive request written as a struct literal, with `Type` set to
`button` and no buttons and sections. -/
def buttonRequest : InteractiveMessageRequest :=
  { Source := [], Destination := [],
    InteractiveMessage :=
      { Type_ := lit "button", Title := [], Body := [], MessageId := [], GlobalButtons := none,
        Items := none } }

/-- The request `interactiveMessageRequest` of the tests. -/
def interactiveMessageRequest : InteractiveMessageRequest :=
  { Source := lit "593958711086", Destination := lit "593988434471",
    InteractiveMessage :=
      NewInteractiveMessage (lit "Body") (lit "Title") (lit "123456")
        (some [NewButton (lit "Button")])
        (some [
          NewInteractiveMessageItem (lit "first section") (lit "first section subtitle")
            (some [
              NewInteractiveMessageOption (lit "1st option") (lit "1st option description") (lit "1"),
              NewInteractiveMessageOption (lit "2nd option") (lit "2nd option description") (lit "2"),
              NewInteractiveMessageOption (lit "3rd option") (lit "3rd option description") (lit "3")]),
          NewInteractiveMessageItem (lit "second section") (lit "second section subtitle")
            (some [
              NewInteractiveMessageOption (lit "4st option") (lit "4st option description") (lit "4"),
              NewInteractiveMessageOption (lit "5nd option") (lit "5nd option description") (lit "5"),
              NewInteractiveMessageOption (lit "6rd option") (lit "6rd option description") (lit "6")])]) }

/-- The member `key` of the JSON value of `text`; none when `text` is not valid
JSON or its value has no such member. -/
def json.memberOfText (text key : GoString) : Option json.JVal :=
  match json.Unmarshal text with
  | .ok v => v.member key
  | .error _ => none

/-- The message of `NewInteractiveMessage` with `nil` for both slices. -/
def nilMessage : InteractiveMessage := NewInteractiveMessage [] [] [] none none

/-- The message of `NewInteractiveMessage` with the Latin-1 byte 0xE9 for its
title and empty slices that are not `nil`. -/
def latin1Message : InteractiveMessage := NewInteractiveMessage [] [0xE9] [] (some []) (some [])

/-! ## The client of the sub-package: `src/gupshup/client.go`

The sub-package declares `Response`, the request structs, the interactive
message with its constructors, `MessageUrl`, `ContentType` and the two
interfaces word for word as `src/gupshup.go` and `src/http.go` do, so the
definitions above stand for both packages.  What differs is the client: the
struct `Client` holds no transport, and its methods read the package-level
variables `Http` and `HttpClient`. -/

namespace gupshup

/-- The package-level variables `HttpClient` and `Http`, as they stand when a
method of `Client` is called. -/
structure Globals where
  HttpClient : httpClient
  Http : httpBuilder

/-- The function `init()` of the package; `stdClient` and `stdBuilder` stand for
the `&http.Client{}` and the `&httpRequest{}` that it assigns. -/
def init (stdClient : httpClient) (stdBuilder : httpBuilder) : Globals :=
  { HttpClient := stdClient, Http := stdBuilder }

/-- The struct `Client`. -/
structure Client where
  ApiKey : GoString
  AppName : GoString

/-- The method `Client.sendRequest`, under the package variables `vars`. -/
def Client.sendRequest (vars : Globals) (g : Client) (requestBody : url.Values) : Outcome :=
  let response : Response := ⟨[], []⟩
  let build := Call.BuildRequest (lit "POST") MessageUrl requestBody.Encode
  match vars.Http (lit "POST") MessageUrl requestBody.Encode with
  | .error err => ⟨response, some err, [build]⟩
  | .ok httpRequest =>
    let httpRequest : http.Request :=
      { httpRequest with Header := httpRequest.Header.Set (lit "Content-Type") ContentType }
    let httpRequest : http.Request :=
      { httpRequest with Header := httpRequest.Header.Set (lit "apikey") g.ApiKey }
    match vars.HttpClient httpRequest with
    | .error err => ⟨response, some err, [build, .Do httpRequest]⟩
    | .ok resp =>
      match json.Decode resp.Body response with
      | (response, some err) => ⟨response, some err, [build, .Do httpRequest]⟩
      | (response, none) => ⟨response, none, [build, .Do httpRequest]⟩

/-- The entry `message` of `Client.SendText`. -/
def textMessage (request : TextRequest) : GoString :=
  Sprintf (lit "\x7b\n\t\t\t\"type\": \"text\",\n\t\t\t\"text\": \"%s\"\n\t\t\x7d") [request.Text]

def Client.SendText (vars : Globals) (g : Client) (request : TextRequest) : Outcome :=
  g.sendRequest vars
    [ (lit "channel", [lit "whatsapp"]),
      (lit "source", [request.Source]),
      (lit "destination", [request.Destination]),
      (lit "src.name", [g.AppName]),
      (lit "message", [textMessage request]) ]

/-- The entry `message` of `Client.SendImage`. -/
def imageMessage (request : ImageRequest) : GoString :=
  Sprintf (lit ("\x7b\n\t\t\t\t\"type\": \"image\",\n\t\t\t\t\"originalUrl\": \"%s\",\n"
    ++ "\t\t\t\t\"previewUrl\": \"%s\",\n\t\t\t\t\"caption\": \"%s\"\n\t\t\t\x7d"))
    [request.Image, request.Preview, request.Caption]

def Client.SendImage (vars : Globals) (g : Client) (request : ImageRequest) : Outcome :=
  g.sendRequest vars
    [ (lit "channel", [lit "whatsapp"]),
      (lit "source", [request.Source]),
      (lit "destination", [request.Destination]),
      (lit "src.name", [g.AppName]),
      (lit "message", [imageMessage request]) ]

/-- The entry `message` of `Client.SendDocument`. -/
def documentMessage (request : DocumentRequest) : GoString :=
  Sprintf (lit ("\x7b\n\t\t\t\t\"type\": \"file\",\n\t\t\t\t\"url\": \"%s\",\n"
    ++ "\t\t\t    \"filename\": \"%s\"\n\t\t\t\x7d")) [request.Url, request.Filename]

def Client.SendDocument (vars : Globals) (g : Client) (request : DocumentRequest) : Outcome :=
  g.sendRequest vars
    [ (lit "channel", [lit "whatsapp"]),
      (lit "source", [request.Source]),
      (lit "destination", [request.Destination]),
      (lit "src.name", [g.AppName]),
      (lit "message", [documentMessage request]) ]

/-- The entry `message` of `Client.SendAudio`. -/
def audioMessage (request : AudioRequest) : GoString :=
  Sprintf (lit "\x7b\n\t\t\t\t\"type\": \"audio\",\n\t\t\t\t\"url\": \"%s\"\n\t\t\t\x7d") [request.Url]

def Client.SendAudio (vars : Globals) (g : Client) (request : AudioRequest) : Outcome :=
  g.sendRequest vars
    [ (lit "channel", [lit "whatsapp"]),
      (lit "source", [request.Source]),
      (lit "destination", [request.Destination]),
      (lit "src.name", [g.AppName]),
      (lit "message", [audioMessage request]) ]

/-- The entry `message` of `Client.SendVideo`. -/
def videoMessage (request : VideoRequest) : GoString :=
  Sprintf (lit ("\x7b\n\t\t\t\t\"type\": \"video\",\n\t\t\t\t\"url\": \"%s\",\n"
    ++ "\t\t\t\t\"caption\": \"%s\"\n\t\t\t\x7d")) [request.Url, request.Caption]

def Client.SendVideo (vars : Globals) (g : Client) (request : VideoRequest) : Outcome :=
  g.sendRequest vars
    [ (lit "channel", [lit "whatsapp"]),
      (lit "source", [request.Source]),
      (lit "destination", [request.Destination]),
      (lit "src.name", [g.AppName]),
      (lit "message", [videoMessage request]) ]

/-- The entry `message` of `Client.SendSticker`. -/
def stickerMessage (request : StickerRequest) : GoString :=
  Sprintf (lit "\x7b\n\t\t\t\t\"type\": \"sticker\",\n\t\t\t\t\"url\": \"%s\"\n\t\t\t\x7d") [request.Url]

def Client.SendSticker (vars : Globals) (g : Client) (request : StickerRequest) : Outcome :=
  g.sendRequest vars
    [ (lit "channel", [lit "whatsapp"]),
      (lit "source", [request.Source]),
      (lit "destination", [request.Destination]),
      (lit "src.name", [g.AppName]),
      (lit "message", [stickerMessage request]) ]

/-- The entry `message` of `Client.SendInteractiveMessage`: `json.Marshal` of
the message, printed with `%s`. -/
def interactiveMessage (request : InteractiveMessageRequest) : GoString :=
  Sprintf (lit "%s") [json.Marshal request.InteractiveMessage]

def Client.SendInteractiveMessage (vars : Globals) (g : Client)
    (request : InteractiveMessageRequest) : Outcome :=
  g.sendRequest vars
    [ (lit "channel", [lit "whatsapp"]),
      (lit "source", [request.Source]),
      (lit "destination", [request.Destination]),
      (lit "src.name", [g.AppName]),
      (lit "message", [interactiveMessage request]) ]

/-- The send method of the request's kind. -/
def Client.Send (vars : Globals) (g : Client) : AnyRequest → Outcome
  | .text request => g.SendText vars request
  | .image request => g.SendImage vars request
  | .document request => g.SendDocument vars request
  | .audio request => g.SendAudio vars request
  | .video request => g.SendVideo vars request
  | .sticker request => g.SendSticker vars request
  | .interactive request => g.SendInteractiveMessage vars request

end gupshup

/-- `json.Valid(data)`: `checkValid` meets no error, neither at a byte of `data`
nor at its end, where the scanner has to have seen a complete top-level value. -/
def json.Valid (data : GoString) : Bool :=
  decide (((json.Scanner.reset.run data).next 0x20).step = .endTop)

/-- The steps of the scanner outside of a string literal, `error` among them. -/
def json.Step.outer (st : json.Step) : Prop :=
  st ≠ .inString ∧ st ≠ .inStringEsc ∧ st ≠ .inStringEscU ∧ st ≠ .inStringEscU1
    ∧ st ≠ .inStringEscU12 ∧ st ≠ .inStringEscU123

/-- Where the scanner stands after a text without backslash: in a string
literal when `inside`, else outside of one; `error` goes with both. -/
def json.Step.side (inside : Bool) (st : json.Step) : Prop :=
  if inside then st = .inString ∨ st = .error else st.outer

/-- The number of double quotes of `s`. -/
def quotes (s : GoString) : Nat := (s.filter fun c => c.val == 0x22).length

/-- A text of two backslashes. -/
def backslashRequest : TextRequest := { Source := [], Destination := [], Text := lit "\\\\" }

/-- A text with double quotes that closes the member `text` and opens a member `x`. -/
def memberRequest : TextRequest :=
  { Source := [], Destination := [], Text := lit "a\", \"x\": \"b" }

/-- The client `gc` over a sender that answers with status `statusCode` and the
body of `mockGetDoFunc`. -/
def gcStatus (statusCode : Int) : client := { gc with httpClient := mockDo statusCode submittedBody }

/-- The strings that the members `ms` of an object give for the field `f`, in
the order of the text: the values of the members whose key names `f` and whose
value is a string. -/
def json.stringsOf (f : json.ResponseField) (ms : List (GoString × json.JVal)) : List GoString :=
  ms.filterMap fun m =>
    if json.fieldOf m.1 = some f then
      match m.2 with
      | .str s => some s
      | _ => none
    else none

/-- The string member of the JSON value `v` for the field `f`: the last string
that an object gives for `f`; the empty string when it gives none, and when `v`
is no object. -/
def json.JVal.field (v : json.JVal) (f : json.ResponseField) : GoString :=
  match v with
  | .obj ms => ((json.stringsOf f ms).getLast?).getD []
  | _ => []

/-- Whether a member can be stored in a `Response`: its key names no field, or
its value is a string or `null`. -/
def json.fitsMember (m : GoString × json.JVal) : Bool :=
  match json.fieldOf m.1, m.2 with
  | none, _ => true
  | some _, .str _ => true
  | some _, .null => true
  | some _, _ => false

/-- Whether the JSON value `v` can be stored in a `Response`: `null`, or an
object of members that can. -/
def json.JVal.fits (v : json.JVal) : Bool :=
  match v with
  | .null => true
  | .obj ms => ms.all json.fitsMember
  | _ => false

/-- Whether the bytes `t` after a backslash complete an escape sequence of a
JSON string: one of `b f n r t \ / "`, or `u` and four hex digits. -/
def json.completesEscape : GoString → Bool
  | [] => false
  | e :: rest =>
    (e.val == 0x62 || e.val == 0x66 || e.val == 0x6E || e.val == 0x72 || e.val == 0x74
        || e.val == 0x5C || e.val == 0x2F || e.val == 0x22)
      || (e.val == 0x75 &&
        match rest with
        | a :: b :: c :: d :: _ => json.isHex a && json.isHex b && json.isHex c && json.isHex d
        | _ => false)

/-- A text that stays inside the quotes of a JSON string: every backslash of it
starts a complete escape sequence, and no double quote stands outside of one. -/
inductive Escaped : GoString → Prop where
  | nil : Escaped []
  | plain (c : Byte) (p : GoString) : c.val ≠ 0x22 → c.val ≠ 0x5C → Escaped p → Escaped (c :: p)
  | simple (e : Byte) (p : GoString) :
    (e.val == 0x62 || e.val == 0x66 || e.val == 0x6E || e.val == 0x72 || e.val == 0x74
      || e.val == 0x5C || e.val == 0x2F || e.val == 0x22) = true →
    Escaped p → Escaped (0x5C :: e :: p)
  | unicode (a b c d : Byte) (p : GoString) :
    json.isHex a = true → json.isHex b = true → json.isHex c = true → json.isHex d = true →
    Escaped p → Escaped (0x5C :: 0x75 :: a :: b :: c :: d :: p)

/-- The scanner is in a string literal under the stack `st`, or has met an error. -/
def json.Scanner.inText (st : List json.Frame) (s : json.Scanner) : Prop :=
  s.step = .error ∨ (s.step = .inString ∧ s.parseState = st)

/-- The scanner has met an error or has read the whole top-level value. -/
def json.Scanner.done (s : json.Scanner) : Prop := s.step = .error ∨ s.step = .endTop

/-- The scanner stands in the top-level object after a member value, where a
comma or the closing brace may come, or has met an error. -/
def json.Scanner.afterMember (s : json.Scanner) : Prop :=
  s.step = .error ∨ (s.step = .endValue ∧ ∃ ms, s.parseState = [.objectNext ms])

/-- The scanner stands in the top-level object after a key, where the colon has
to come, or has met an error. -/
def json.Scanner.afterKey (s : json.Scanner) : Prop :=
  s.step = .error ∨ (s.step = .endValue ∧ ∃ ms key, s.parseState = [.objectColon ms key])

/-- Where the scanner can stand in the top-level object from the end of a member
value on, as long as no colon has been read: after the member, before or inside
the next key, after that key, after the closing brace, or at an error. -/
def json.Scanner.beforeColon (s : json.Scanner) : Prop :=
  s.afterMember ∨ s.afterKey ∨ s.done
    ∨ ((s.step = .beginString ∨ ¬ s.step.outer) ∧ ∃ ms, s.parseState = [.objectKey ms])

/-- A text with a quotation in double quotes. -/
def saidRequest : TextRequest :=
  { Source := [], Destination := [], Text := lit "He said \"hi\"" }

/-! ## The shape of every send operation -/

theorem Send_eq_sendRequest (g : client) (r : AnyRequest) : g.Send r = g.sendRequest (r.form g) := by
  cases r <;> rfl

theorem sendRequest_eq (g : client) (v : url.Values) :
    g.sendRequest v =
      match g.httpBuilder (lit "POST") MessageUrl v.Encode with
      | .error err => ⟨⟨[], []⟩, some err, [.BuildRequest (lit "POST") MessageUrl v.Encode]⟩
      | .ok req =>
        match g.httpClient (g.stamped req) with
        | .error err =>
          ⟨⟨[], []⟩, some err, [.BuildRequest (lit "POST") MessageUrl v.Encode, .Do (g.stamped req)]⟩
        | .ok resp =>
          ⟨(json.Decode resp.Body ⟨[], []⟩).1, (json.Decode resp.Body ⟨[], []⟩).2,
            [.BuildRequest (lit "POST") MessageUrl v.Encode, .Do (g.stamped req)]⟩ := by
  unfold client.sendRequest
  cases hb : g.httpBuilder (lit "POST") MessageUrl v.Encode with
  | error err => rfl
  | ok req =>
    simp only []
    show (match g.httpClient (g.stamped req) with
      | .error err => _
      | .ok resp => _) = _
    cases hs : g.httpClient (g.stamped req) with
    | error err => rfl
    | ok resp =>
      simp only []
      rcases hd : json.Decode resp.Body ⟨[], []⟩ with ⟨response, _ | err⟩ <;> rfl

theorem Send_of_build_error (g : client) (r : AnyRequest) (err : GoError)
    (hb : g.httpBuilder (lit "POST") MessageUrl (r.form g).Encode = .error err) :
    g.Send r = ⟨⟨[], []⟩, some err, [.BuildRequest (lit "POST") MessageUrl (r.form g).Encode]⟩ := by
  rw [Send_eq_sendRequest, sendRequest_eq, hb]

theorem Send_of_do_error (g : client) (r : AnyRequest) (req : http.Request) (err : GoError)
    (hb : g.httpBuilder (lit "POST") MessageUrl (r.form g).Encode = .ok req)
    (hs : g.httpClient (g.stamped req) = .error err) :
    g.Send r = ⟨⟨[], []⟩, some err,
      [.BuildRequest (lit "POST") MessageUrl (r.form g).Encode, .Do (g.stamped req)]⟩ := by
  rw [Send_eq_sendRequest, sendRequest_eq, hb]
  simp only [hs]

theorem Send_of_response (g : client) (r : AnyRequest) (req : http.Request) (resp : http.Response)
    (hb : g.httpBuilder (lit "POST") MessageUrl (r.form g).Encode = .ok req)
    (hs : g.httpClient (g.stamped req) = .ok resp) :
    g.Send r = ⟨(json.Decode resp.Body ⟨[], []⟩).1, (json.Decode resp.Body ⟨[], []⟩).2,
      [.BuildRequest (lit "POST") MessageUrl (r.form g).Encode, .Do (g.stamped req)]⟩ := by
  rw [Send_eq_sendRequest, sendRequest_eq, hb]
  simp only [hs]

theorem Decode_submittedBody :
    json.Decode submittedBody ⟨[], []⟩ = (⟨lit "submitted", lit "1234-56789"⟩, none) := by
  decide

/-- C1: for each of the seven send operations, every request and every client,
if the request builder succeeds and the sender returns a response whose body is
`{"status":"submitted","messageId":"1234-56789"}`, the operation returns
`Response{"submitted", "1234-56789"}` and a nil error. -/
theorem C1_submitted (g : client) (r : AnyRequest) (req : http.Request) (resp : http.Response)
    (hb : g.httpBuilder (lit "POST") MessageUrl (r.form g).Encode = .ok req)
    (hs : g.httpClient (g.stamped req) = .ok resp)
    (hbody : resp.Body = submittedBody) :
    (g.Send r).response = ⟨lit "submitted", lit "1234-56789"⟩ ∧ (g.Send r).err = none := by
  rw [Send_of_response g r req resp hb hs, hbody, Decode_submittedBody]
  exact ⟨rfl, rfl⟩

theorem C1_submitted_witness :
    (gc.Send (.text textRequest)).response = ⟨lit "submitted", lit "1234-56789"⟩
      ∧ (gc.Send (.text textRequest)).err = none :=
  C1_submitted gc (.text textRequest)
    { Method := lit "POST", URL := MessageUrl, Body := (AnyRequest.form gc (.text textRequest)).Encode,
      Header := [] }
    { StatusCode := 200, Body := submittedBody } rfl rfl rfl

/-- C2: for each of the seven send operations and every request, if the request
builder returns an error, or the builder succeeds and the sender returns an
error, the operation returns the zero-valued `Response` and exactly the error
that the collaborator returned. -/
theorem C2_collaborator_error (g : client) (r : AnyRequest) (err : GoError)
    (h : g.httpBuilder (lit "POST") MessageUrl (r.form g).Encode = .error err
      ∨ ∃ req, g.httpBuilder (lit "POST") MessageUrl (r.form g).Encode = .ok req
          ∧ g.httpClient (g.stamped req) = .error err) :
    (g.Send r).response = ⟨[], []⟩ ∧ (g.Send r).err = some err := by
  rcases h with hb | ⟨req, hb, hs⟩
  · rw [Send_of_build_error g r err hb]
    exact ⟨rfl, rfl⟩
  · rw [Send_of_do_error g r req err hb hs]
    exact ⟨rfl, rfl⟩

theorem C2_collaborator_error_witness :
    (gcBuildError.Send (.text textRequest)).response = ⟨[], []⟩
      ∧ (gcBuildError.Send (.text textRequest)).err = some (.New (lit "error wrong url")) :=
  C2_collaborator_error gcBuildError (.text textRequest) (.New (lit "error wrong url")) (Or.inl rfl)

theorem lookup_assign_self (h : http.Header) (k : GoString) (vs : List GoString) :
    (http.Header.assign h k vs).lookup k = some vs := by
  induction h with
  | nil => simp [http.Header.assign, List.lookup]
  | cons e h ih =>
    obtain ⟨k', vs'⟩ := e
    unfold http.Header.assign
    by_cases hk : k' = k
    · subst hk
      simp [List.lookup]
    · have : (k == k') = false := by simpa using fun h => hk h.symm
      simp [hk, List.lookup, this, ih]

theorem lookup_assign_other (h : http.Header) (k k2 : GoString) (vs : List GoString) (hne : k2 ≠ k) :
    (http.Header.assign h k vs).lookup k2 = h.lookup k2 := by
  induction h with
  | nil =>
    have : (k2 == k) = false := by simpa using hne
    simp [http.Header.assign, List.lookup, this]
  | cons e h ih =>
    obtain ⟨k', vs'⟩ := e
    unfold http.Header.assign
    by_cases hk : k' = k
    · subst hk
      have : (k2 == k') = false := by simpa using hne
      simp [List.lookup, this]
    · simp only [hk, if_false, List.lookup]
      cases (k2 == k') <;> simp [ih]

theorem stamped_Get_apikey (g : client) (req : http.Request) :
    (g.stamped req).Header.Get (lit "apikey") = g.ApiKey := by
  simp only [client.stamped, http.Header.Get, http.Header.Set, lookup_assign_self]

theorem stamped_Get_ContentType (g : client) (req : http.Request) :
    (g.stamped req).Header.Get (lit "Content-Type") = ContentType := by
  simp only [client.stamped, http.Header.Get, http.Header.Set]
  rw [lookup_assign_other _ _ _ _ (by decide), lookup_assign_self]

theorem Decode_of_not_object (data : GoString)
    (h : ∀ ms, json.readValue data ≠ .ok (.obj ms)) : (json.Decode data ⟨[], []⟩).1 = ⟨[], []⟩ := by
  unfold json.Decode
  cases hv : json.readValue data with
  | error err => rfl
  | ok v =>
    cases v with
    | obj ms => exact absurd hv (h ms)
    | _ => rfl

theorem Send_of_decode_error (g : client) (r : AnyRequest) (req : http.Request)
    (resp : http.Response) (err : GoError)
    (hb : g.httpBuilder (lit "POST") MessageUrl (r.form g).Encode = .ok req)
    (hs : g.httpClient (g.stamped req) = .ok resp)
    (hd : (json.Decode resp.Body ⟨[], []⟩).2 = some err) :
    (g.Send r).err = some err
      ∧ ((∀ ms, json.readValue resp.Body ≠ .ok (.obj ms)) → (g.Send r).response = ⟨[], []⟩) := by
  rw [Send_of_response g r req resp hb hs]
  exact ⟨hd, fun h => Decode_of_not_object resp.Body h⟩

/-- C3: the code departs from the claim at the body
`{"status":"ok","messageId":5}`, a JSON value whose `messageId` is not a string:
decoding fails with an `UnmarshalTypeError` for `messageId`, and the operation
returns that error together with `Response{Status: "ok"}`, not with the
zero-valued `Response` that the claim states and that the two other error
returns of `sendRequest` give. -/
theorem C3_decode_error_response :
    ((gcBody (lit "\x7b\"status\":\"ok\",\"messageId\":5\x7d")).Send (.text textRequest)).err
        = some (.UnmarshalTypeError (lit "number") (lit "messageId"))
      ∧ ((gcBody (lit "\x7b\"status\":\"ok\",\"messageId\":5\x7d")).Send (.text textRequest)).response
        = ⟨lit "ok", []⟩
      ∧ ((gcBody (lit "\x7b\"status\":\"ok\",\"messageId\":5\x7d")).Send (.text textRequest)).response
        ≠ ⟨[], []⟩
      ∧ (gcBuildError.Send (.text textRequest)).response = ⟨[], []⟩ := by
  decide

/-- C7: for every send operation and every request, the request builder is
called once, with method `POST` and the URL
`https://api.gupshup.io/sm/api/v1/msg`; when it fails the sender is not called;
when it succeeds the sender is called once, with a request whose header
`Content-Type` is `application/x-www-form-urlencoded` and whose header `apikey`
is the client's `ApiKey`, the `apiKey` given to `NewClient`. -/
theorem C7_single_post (g : client) (r : AnyRequest) (stdClient : httpClient)
    (stdBuilder : httpBuilder) (apiKey appName : GoString) :
    (NewClient stdClient stdBuilder apiKey appName).ApiKey = apiKey ∧
    match g.httpBuilder (lit "POST") (lit "https://api.gupshup.io/sm/api/v1/msg") (r.form g).Encode with
    | .error _ =>
      (g.Send r).calls =
        [.BuildRequest (lit "POST") (lit "https://api.gupshup.io/sm/api/v1/msg") (r.form g).Encode]
    | .ok req =>
      ∃ sent : http.Request,
        (g.Send r).calls =
          [.BuildRequest (lit "POST") (lit "https://api.gupshup.io/sm/api/v1/msg") (r.form g).Encode,
            .Do sent]
        ∧ sent.Header.Get (lit "Content-Type") = lit "application/x-www-form-urlencoded"
        ∧ sent.Header.Get (lit "apikey") = g.ApiKey
        ∧ sent.Method = req.Method ∧ sent.URL = req.URL ∧ sent.Body = req.Body := by
  refine ⟨rfl, ?_⟩
  cases hb : g.httpBuilder (lit "POST") (lit "https://api.gupshup.io/sm/api/v1/msg") (r.form g).Encode with
  | error err =>
    simp only []
    rw [Send_of_build_error g r err hb]
    rfl
  | ok req =>
    simp only []
    refine ⟨g.stamped req, ?_, stamped_Get_ContentType g req, stamped_Get_apikey g req, rfl, rfl, rfl⟩
    cases hs : g.httpClient (g.stamped req) with
    | error err => rw [Send_of_do_error g r req err hb hs]; rfl
    | ok resp => rw [Send_of_response g r req resp hb hs]; rfl

/-! ## Lemmas on `net/url` -/

theorem upperhex_spec : ∀ n : Fin 16, url.ishex (url.upperhex n.val) = true ∧ url.unhex (url.upperhex n.val) = n.val
    ∧ (url.upperhex n.val).val ≠ 0x26 ∧ (url.upperhex n.val).val ≠ 0x3D ∧ (url.upperhex n.val).val ≠ 0x3B := by
  decide

theorem upperhex_spec' (n : Nat) (h : n < 16) : url.ishex (url.upperhex n) = true ∧ url.unhex (url.upperhex n) = n
    ∧ (url.upperhex n).val ≠ 0x26 ∧ (url.upperhex n).val ≠ 0x3D ∧ (url.upperhex n).val ≠ 0x3B :=
  upperhex_spec ⟨n, h⟩

theorem not_shouldEscape (b : Byte) (h : url.shouldEscape b = false) :
    b.val ≠ 0x25 ∧ b.val ≠ 0x2B ∧ b.val ≠ 0x26 ∧ b.val ≠ 0x3D ∧ b.val ≠ 0x3B := by
  simp only [url.shouldEscape, Bool.not_eq_false', Bool.or_eq_true, Bool.and_eq_true, decide_eq_true_eq,
    beq_iff_eq] at h
  omega

theorem escapeByte_clean (b : Byte) : ∀ c ∈ url.escapeByte b,
    c.val ≠ 0x26 ∧ c.val ≠ 0x3D ∧ c.val ≠ 0x3B := by
  intro c hc
  unfold url.escapeByte at hc
  have h1 := upperhex_spec' (b.val / 16) (by omega)
  have h2 := upperhex_spec' (b.val % 16) (by omega)
  split at hc
  · simp only [List.mem_singleton] at hc
    subst hc
    decide
  · split at hc
    · simp only [List.mem_cons, List.mem_singleton, List.not_mem_nil, or_false] at hc
      rcases hc with rfl | rfl | rfl
      · decide
      · exact h1.2.2
      · exact h2.2.2
    · rename_i h
      simp only [List.mem_singleton] at hc
      subst hc
      have := not_shouldEscape c (by simpa using h)
      exact ⟨this.2.2.1, this.2.2.2.1, this.2.2.2.2⟩

theorem QueryUnescape_cons (c : Byte) (rest : GoString) :
    url.QueryUnescape (c :: rest) =
      if c.val == 0x25 then
        match rest with
        | h :: l :: rest2 =>
          if url.ishex h && url.ishex l then
            (fun t => Fin.ofNat (url.unhex h * 16 + url.unhex l) :: t) <$> url.QueryUnescape rest2
          else none
        | _ => none
      else (fun t => (if c.val == 0x2B then 0x20 else c) :: t) <$> url.QueryUnescape rest := by
  cases rest with
  | nil => rfl
  | cons h t =>
    cases t with
    | nil => rfl
    | cons l t => rfl

theorem QueryUnescape_escapeByte (b : Byte) (x : GoString) :
    url.QueryUnescape (url.escapeByte b ++ x) = (fun t => b :: t) <$> url.QueryUnescape x := by
  have h1 := upperhex_spec' (b.val / 16) (by omega)
  have h2 := upperhex_spec' (b.val % 16) (by omega)
  unfold url.escapeByte
  split
  · rename_i hb
    have : b = 0x20 := Fin.ext (by simpa using hb)
    subst this
    rw [List.singleton_append, QueryUnescape_cons]
    rfl
  · split
    · have hv : (Fin.ofNat (url.unhex (url.upperhex (b.val / 16)) * 16 + url.unhex (url.upperhex (b.val % 16))) : Byte) = b := by
        apply Fin.ext
        rw [h1.2.1, h2.2.1]
        simp only [Fin.ofNat, Nat.reduceAdd]
        omega
      have h25 : ((0x25 : Byte).val == 0x25) = true := by decide
      simp only [List.cons_append, List.nil_append]
      rw [QueryUnescape_cons]
      simp only [h25, if_true, h1.1, h2.1, Bool.and_self, hv]
    · rename_i hb h
      have hn := not_shouldEscape b (by simpa using h)
      have e1 : (b.val == 0x25) = false := by simpa using hn.1
      have e2 : (b.val == 0x2B) = false := by simpa using hn.2.1
      rw [List.singleton_append, QueryUnescape_cons]
      simp [e1, e2]

theorem QueryUnescape_QueryEscape (s : GoString) : url.QueryUnescape (url.QueryEscape s) = some s := by
  induction s with
  | nil => rfl
  | cons b s ih =>
    have : url.QueryEscape (b :: s) = url.escapeByte b ++ url.QueryEscape s := by
      simp [url.QueryEscape, List.flatMap_cons]
    rw [this, QueryUnescape_escapeByte, ih]
    rfl

theorem QueryEscape_clean (s : GoString) : ∀ c ∈ url.QueryEscape s,
    c.val ≠ 0x26 ∧ c.val ≠ 0x3D ∧ c.val ≠ 0x3B := by
  intro c hc
  simp only [url.QueryEscape, List.mem_flatMap] at hc
  obtain ⟨b, _, hb⟩ := hc
  exact escapeByte_clean b c hb

theorem form_keys_sorted (g : client) (source destination message : GoString) :
    sortStrings ((g.form source destination message).map Prod.fst) =
      [lit "channel", lit "destination", lit "message", lit "source", lit "src.name"] := by
  show sortStrings [lit "channel", lit "source", lit "destination", lit "src.name", lit "message"] = _
  decide

theorem encodeKey_single (k buf v : GoString) :
    url.encodeKey k buf [v] = (if buf.length > 0 then buf ++ [0x26] else buf) ++ k ++ [0x3D] ++ url.QueryEscape v := rfl

theorem form_Encode (g : client) (source destination message : GoString) :
    (g.form source destination message).Encode =
      lit "channel=whatsapp&destination=" ++ (url.QueryEscape destination ++ (lit "&message="
        ++ (url.QueryEscape message ++ (lit "&source=" ++ (url.QueryEscape source
        ++ (lit "&src.name=" ++ url.QueryEscape g.AppName)))))) := by
  unfold url.Values.Encode
  rw [form_keys_sorted]
  have g1 : (g.form source destination message).get (lit "channel") = [lit "whatsapp"] := rfl
  have g2 : (g.form source destination message).get (lit "destination") = [destination] := rfl
  have g3 : (g.form source destination message).get (lit "message") = [message] := rfl
  have g4 : (g.form source destination message).get (lit "source") = [source] := rfl
  have g5 : (g.form source destination message).get (lit "src.name") = [g.AppName] := rfl
  simp only [List.foldl_cons, List.foldl_nil, g1, g2, g3, g4, g5, encodeKey_single]
  have e1 : url.QueryEscape (lit "channel") = lit "channel" := by decide
  have e2 : url.QueryEscape (lit "destination") = lit "destination" := by decide
  have e3 : url.QueryEscape (lit "message") = lit "message" := by decide
  have e4 : url.QueryEscape (lit "source") = lit "source" := by decide
  have e5 : url.QueryEscape (lit "src.name") = lit "src.name" := by decide
  have e6 : url.QueryEscape (lit "whatsapp") = lit "whatsapp" := by decide
  rw [e1, e2, e3, e4, e5, e6]
  simp [lit]
  decide

theorem pieces_append_sep (sep : Byte) (a rest : GoString) (ha : ∀ c ∈ a, c ≠ sep) :
    url.pieces sep (a ++ sep :: rest) = a :: url.pieces sep rest := by
  induction a with
  | nil => simp [url.pieces]
  | cons c a ih =>
    have hc : c ≠ sep := ha c (List.mem_cons_self _ _)
    have := ih (fun x hx => ha x (List.mem_cons_of_mem _ hx))
    simp [url.pieces, hc, this]

theorem pieces_no_sep (sep : Byte) (a : GoString) (ha : ∀ c ∈ a, c ≠ sep) :
    url.pieces sep a = [a] := by
  induction a with
  | nil => rfl
  | cons c a ih =>
    have hc : c ≠ sep := ha c (List.mem_cons_self _ _)
    have := ih (fun x hx => ha x (List.mem_cons_of_mem _ hx))
    simp [url.pieces, hc, this]

theorem cut_append_sep (sep : Byte) (a rest : GoString) (ha : ∀ c ∈ a, c ≠ sep) :
    url.cut sep (a ++ sep :: rest) = (a, some rest) := by
  induction a with
  | nil => simp [url.cut]
  | cons c a ih =>
    have hc : c ≠ sep := ha c (List.mem_cons_self _ _)
    have := ih (fun x hx => ha x (List.mem_cons_of_mem _ hx))
    simp [url.cut, hc, this]

theorem plain_ne (a : GoString) (h : plain a) (sep : Byte)
    (hs : sep.val = 0x26 ∨ sep.val = 0x3D ∨ sep.val = 0x3B) : ∀ c ∈ a, c ≠ sep := by
  intro c hc e
  subst e
  have := h c hc
  omega

theorem parsePiece_pair (acc : url.Values × Bool) (k k' v : GoString) (hk : plain k)
    (hu : url.QueryUnescape k = some k') :
    url.parsePiece acc (k ++ 0x3D :: url.QueryEscape v) = (url.Values.add acc.1 k' v, acc.2) := by
  have hv : plain (url.QueryEscape v) := QueryEscape_clean v
  have hany : (k ++ 0x3D :: url.QueryEscape v).any (fun c => c.val == 0x3B) = false := by
    rw [List.any_eq_false]
    intro c hc
    simp only [List.mem_append, List.mem_cons] at hc
    rcases hc with hc | rfl | hc
    · simpa using (hk c hc).2.2
    · decide
    · simpa using (hv c hc).2.2
  have hne : k ++ 0x3D :: url.QueryEscape v ≠ [] := by simp
  unfold url.parsePiece
  rw [hany, cut_append_sep 0x3D k _ (plain_ne k hk 0x3D (by decide))]
  simp [hne, hu, QueryUnescape_QueryEscape]

theorem ParseQuery_form (g : client) (source destination message : GoString) :
    url.ParseQuery (g.form source destination message).Encode =
      ([(lit "channel", [lit "whatsapp"]), (lit "destination", [destination]),
        (lit "message", [message]), (lit "source", [source]), (lit "src.name", [g.AppName])], true) := by
  have h : (g.form source destination message).Encode =
      (lit "channel" ++ 0x3D :: url.QueryEscape (lit "whatsapp")) ++ 0x26 ::
      ((lit "destination" ++ 0x3D :: url.QueryEscape destination) ++ 0x26 ::
      ((lit "message" ++ 0x3D :: url.QueryEscape message) ++ 0x26 ::
      ((lit "source" ++ 0x3D :: url.QueryEscape source) ++ 0x26 ::
      (lit "src.name" ++ 0x3D :: url.QueryEscape g.AppName)))) := by
    rw [form_Encode]
    have e6 : url.QueryEscape (lit "whatsapp") = lit "whatsapp" := by decide
    rw [e6]
    simp [lit]
    decide
  have amp : ∀ (k v : GoString), (∀ c ∈ k, c.val ≠ 0x26) →
      ∀ c ∈ k ++ 0x3D :: url.QueryEscape v, c ≠ (0x26 : Byte) := by
    intro k v hk c hc e
    subst e
    simp only [List.mem_append, List.mem_cons] at hc
    rcases hc with hc | hc | hc
    · exact hk _ hc rfl
    · exact absurd hc (by decide)
    · exact (QueryEscape_clean v _ hc).1 rfl
  have k1 : plain (lit "channel") := by unfold plain; decide
  have k2 : plain (lit "destination") := by unfold plain; decide
  have k3 : plain (lit "message") := by unfold plain; decide
  have k4 : plain (lit "source") := by unfold plain; decide
  have k5 : plain (lit "src.name") := by unfold plain; decide
  have hne : (g.form source destination message).Encode ≠ [] := by rw [h]; simp [lit]
  unfold url.ParseQuery
  rw [if_neg hne, h]
  rw [pieces_append_sep _ _ _ (amp _ _ (fun c hc => (k1 c hc).1)),
    pieces_append_sep _ _ _ (amp _ _ (fun c hc => (k2 c hc).1)),
    pieces_append_sep _ _ _ (amp _ _ (fun c hc => (k3 c hc).1)),
    pieces_append_sep _ _ _ (amp _ _ (fun c hc => (k4 c hc).1)),
    pieces_no_sep _ _ (amp _ _ (fun c hc => (k5 c hc).1))]
  simp only [List.foldl_cons, List.foldl_nil]
  rw [parsePiece_pair _ _ (lit "channel") _ k1 (by decide),
    parsePiece_pair _ _ (lit "destination") _ k2 (by decide),
    parsePiece_pair _ _ (lit "message") _ k3 (by decide),
    parsePiece_pair _ _ (lit "source") _ k4 (by decide),
    parsePiece_pair _ _ (lit "src.name") _ k5 (by decide)]
  rfl

theorem Send_calls_head (g : client) (r : AnyRequest) :
    (g.Send r).calls.head? = some (.BuildRequest (lit "POST") MessageUrl (r.form g).Encode) := by
  rw [Send_eq_sendRequest, sendRequest_eq]
  cases g.httpBuilder (lit "POST") MessageUrl (r.form g).Encode with
  | error err => rfl
  | ok req =>
    simp only []
    cases g.httpClient (g.stamped req) <;> rfl

/-- C4: for each of the seven send operations, every request and every client,
parsing the form body handed to the request builder yields exactly five fields
with one value each: `channel` is `whatsapp`, `source` and `destination` are the
request's, `src.name` is the client's `AppName` and `message` is the payload of
the kind; the values come back unchanged whatever bytes they hold. -/
theorem C4_form_fields (g : client) (r : AnyRequest) :
    (g.Send r).calls.head? = some (.BuildRequest (lit "POST") MessageUrl (r.form g).Encode)
      ∧ url.ParseQuery (r.form g).Encode =
        ([(lit "channel", [lit "whatsapp"]), (lit "destination", [r.Destination]),
          (lit "message", [r.message]), (lit "source", [r.Source]),
          (lit "src.name", [g.AppName])], true) :=
  ⟨Send_calls_head g r, ParseQuery_form g r.Source r.Destination r.message⟩

theorem strLess_irrefl (a : GoString) : strLess a a = false := by
  induction a with
  | nil => rfl
  | cons x a ih => simp [strLess, ih]

theorem strLess_asymm (a b : GoString) (h : strLess a b = true) : strLess b a = false := by
  induction a generalizing b with
  | nil => cases b <;> simp [strLess] at h ⊢
  | cons x a ih =>
    cases b with
    | nil => simp [strLess] at h
    | cons y b =>
      simp only [strLess, Bool.or_eq_true, decide_eq_true_eq, Bool.and_eq_true, beq_iff_eq] at h
      simp only [strLess, Bool.or_eq_false_iff, decide_eq_false_iff_not, Bool.and_eq_false_imp,
        beq_iff_eq]
      rcases h with h | ⟨h1, h2⟩
      · exact ⟨by omega, fun e => by omega⟩
      · exact ⟨by omega, fun _ => ih b h2⟩

theorem strLess_connex (a b : GoString) (h1 : strLess a b = false) (h2 : strLess b a = false) :
    a = b := by
  induction a generalizing b with
  | nil => cases b <;> simp [strLess] at h1 h2 ⊢
  | cons x a ih =>
    cases b with
    | nil => simp [strLess] at h2
    | cons y b =>
      simp only [strLess, Bool.or_eq_false_iff, decide_eq_false_iff_not, Bool.and_eq_false_imp,
        beq_iff_eq] at h1 h2
      have hxy : x = y := Fin.ext (by omega)
      subst hxy
      rw [ih b (h1.2 rfl) (h2.2 rfl)]

theorem strLess_trans (a b c : GoString) (h1 : strLess a b = true) (h2 : strLess b c = true) :
    strLess a c = true := by
  induction a generalizing b c with
  | nil =>
    cases c with
    | nil => cases b <;> simp [strLess] at h1 h2
    | cons z c => rfl
  | cons x a ih =>
    cases b with
    | nil => simp [strLess] at h1
    | cons y b =>
      cases c with
      | nil => simp [strLess] at h2
      | cons z c =>
        simp only [strLess, Bool.or_eq_true, decide_eq_true_eq, Bool.and_eq_true, beq_iff_eq] at h1 h2 ⊢
        rcases h1 with h1 | ⟨e1, h1⟩ <;> rcases h2 with h2 | ⟨e2, h2⟩
        · left; omega
        · left; omega
        · left; omega
        · right; exact ⟨by omega, ih b c h1 h2⟩

instance strLe_total : IsTotal GoString strLe where
  total a b := by
    unfold strLe
    cases h : strLess b a with
    | false => exact Or.inl rfl
    | true => exact Or.inr (strLess_asymm b a h)

instance strLe_antisymm : IsAntisymm GoString strLe where
  antisymm a b h1 h2 := strLess_connex a b h2 h1

instance strLe_trans : IsTrans GoString strLe where
  trans a b c h1 h2 := by
    unfold strLe at *
    cases h : strLess c a with
    | false => rfl
    | true =>
      cases hab : strLess a b with
      | true =>
        rw [strLess_trans c a b h hab] at h2
        exact absurd h2 (by simp)
      | false =>
        have : a = b := strLess_connex a b hab h1
        subst this
        rw [h] at h2
        exact absurd h2 (by simp)

theorem sortStrings_perm (l₁ l₂ : List GoString) (h : l₁.Perm l₂) :
    sortStrings l₁ = sortStrings l₂ := by
  unfold sortStrings
  apply List.eq_of_perm_of_sorted (r := strLe)
  · exact ((List.perm_insertionSort strLe l₁).trans h).trans (List.perm_insertionSort strLe l₂).symm
  · exact List.sorted_insertionSort strLe l₁
  · exact List.sorted_insertionSort strLe l₂

theorem lookup_perm (k : GoString) (l₁ l₂ : url.Values) (h : l₁.Perm l₂)
    (nd : (l₁.map Prod.fst).Nodup) : l₁.lookup k = l₂.lookup k := by
  induction h with
  | nil => rfl
  | cons x _ ih =>
    obtain ⟨kx, vx⟩ := x
    simp only [List.map_cons, List.nodup_cons] at nd
    simp only [List.lookup]
    cases (k == kx) <;> simp [ih nd.2]
  | swap x y l =>
    obtain ⟨kx, vx⟩ := x
    obtain ⟨ky, vy⟩ := y
    simp only [List.map_cons, List.nodup_cons, List.mem_cons, not_or] at nd
    have hne : ky ≠ kx := nd.1.1
    simp only [List.lookup]
    by_cases h1 : k = kx
    · subst h1
      have : (k == ky) = false := by simpa using fun e => hne e.symm
      simp [this]
    · have : (k == kx) = false := by simpa using h1
      simp [this]
  | trans h₁ _ ih₁ ih₂ =>
    rw [ih₁ nd, ih₂ ((h₁.map Prod.fst).nodup_iff.mp nd)]

theorem Encode_perm (l₁ l₂ : url.Values) (h : l₁.Perm l₂) (nd : (l₁.map Prod.fst).Nodup) :
    url.Values.Encode l₁ = url.Values.Encode l₂ := by
  unfold url.Values.Encode
  rw [sortStrings_perm _ _ (h.map Prod.fst)]
  have : url.Values.get l₁ = url.Values.get l₂ := by
    funext k
    unfold url.Values.get
    rw [lookup_perm k l₁ l₂ h nd]
  rw [this]

theorem form_keys_nodup (g : client) (source destination message : GoString) :
    ((g.form source destination message).map Prod.fst).Nodup := by
  show [lit "channel", lit "source", lit "destination", lit "src.name", lit "message"].Nodup
  decide

/-- C10: for every request of every kind and every client, the form body is a
function of the request and the `AppName` only, and it does not depend on the
order in which the five fields were put into the form map: the encoder writes
the keys in ascending order, `channel`, `destination`, `message`, `source`,
`src.name`. -/
theorem C10_encode_deterministic (g g' : client) (r : AnyRequest) (entries : url.Values)
    (hname : g'.AppName = g.AppName) (hperm : entries.Perm (r.form g)) :
    (g'.Send r).calls.head? = (g.Send r).calls.head?
      ∧ url.Values.Encode entries = (r.form g).Encode
      ∧ (r.form g).Encode =
        lit "channel=whatsapp&destination=" ++ (url.QueryEscape r.Destination ++ (lit "&message="
          ++ (url.QueryEscape r.message ++ (lit "&source=" ++ (url.QueryEscape r.Source
          ++ (lit "&src.name=" ++ url.QueryEscape g.AppName)))))) := by
  refine ⟨?_, ?_, form_Encode g r.Source r.Destination r.message⟩
  · rw [Send_calls_head, Send_calls_head]
    unfold AnyRequest.form client.form
    rw [hname]
  · exact Encode_perm entries (r.form g) hperm
      ((hperm.map Prod.fst).nodup_iff.mpr (form_keys_nodup g r.Source r.Destination r.message))

theorem C10_encode_deterministic_witness :
    (gcBuildError.Send (.text textRequest)).calls.head? = (gc.Send (.text textRequest)).calls.head?
      ∧ url.Values.Encode (AnyRequest.form gc (.text textRequest)).reverse
        = (AnyRequest.form gc (.text textRequest)).Encode
      ∧ (AnyRequest.form gc (.text textRequest)).Encode =
        lit "channel=whatsapp&destination=" ++ (url.QueryEscape (AnyRequest.text textRequest).Destination
          ++ (lit "&message=" ++ (url.QueryEscape (AnyRequest.text textRequest).message
          ++ (lit "&source=" ++ (url.QueryEscape (AnyRequest.text textRequest).Source
          ++ (lit "&src.name=" ++ url.QueryEscape gc.AppName)))))) :=
  C10_encode_deterministic gc gcBuildError (.text textRequest)
    (AnyRequest.form gc (.text textRequest)).reverse rfl (List.reverse_perm _)

/-! ## Lemmas on `unicode/utf8` -/

theorem ofNat_val (n : Nat) (b : Byte) (h : n = b.val) : (Fin.ofNat n : Byte) = b := by
  apply Fin.ext
  simp only [Fin.ofNat]
  omega

theorem seqLen_cases (c : Byte) (hc : 0x80 ≤ c.val) :
    utf8.seqLen c = 0 ∨ (utf8.seqLen c = 2 ∧ 0xC2 ≤ c.val ∧ c.val < 0xE0)
      ∨ (utf8.seqLen c = 3 ∧ 0xE0 ≤ c.val ∧ c.val < 0xF0) ∨ (utf8.seqLen c = 4 ∧ 0xF0 ≤ c.val ∧ c.val < 0xF5) := by
  unfold utf8.seqLen
  split
  · omega
  · split
    · exact Or.inl rfl
    · split
      · exact Or.inr (Or.inl ⟨rfl, by omega, by omega⟩)
      · split
        · exact Or.inr (Or.inr (Or.inl ⟨rfl, by omega, by omega⟩))
        · split
          · exact Or.inr (Or.inr (Or.inr ⟨rfl, by omega, by omega⟩))
          · exact Or.inl rfl

theorem accept_cases (c : Byte) :
    (c.val = 0xE0 ∧ utf8.acceptLo c = 0xA0 ∧ utf8.acceptHi c = 0xBF)
      ∨ (c.val = 0xF0 ∧ utf8.acceptLo c = 0x90 ∧ utf8.acceptHi c = 0xBF)
      ∨ (c.val = 0xED ∧ utf8.acceptLo c = 0x80 ∧ utf8.acceptHi c = 0x9F)
      ∨ (c.val = 0xF4 ∧ utf8.acceptLo c = 0x80 ∧ utf8.acceptHi c = 0x8F)
      ∨ (c.val ≠ 0xE0 ∧ c.val ≠ 0xF0 ∧ c.val ≠ 0xED ∧ c.val ≠ 0xF4
          ∧ utf8.acceptLo c = 0x80 ∧ utf8.acceptHi c = 0xBF) := by
  unfold utf8.acceptLo utf8.acceptHi
  simp only [beq_iff_eq]
  by_cases h1 : c.val = 0xE0
  · left; simp [h1]
  by_cases h2 : c.val = 0xF0
  · right; left; simp [h2]
  by_cases h3 : c.val = 0xED
  · right; right; left; simp [h3]
  by_cases h4 : c.val = 0xF4
  · right; right; right; left; simp [h4]
  · right; right; right; right; simp [h1, h2, h3, h4]

theorem isCont_iff (b : Byte) : utf8.isCont b = true ↔ 0x80 ≤ b.val ∧ b.val ≤ 0xBF := by
  simp [utf8.isCont]

theorem AppendRune_two (r : Nat) (h1 : 0x7F < r) (h2 : r ≤ 0x7FF) :
    utf8.AppendRune r = [Fin.ofNat (0xC0 + r / 64), Fin.ofNat (0x80 + r % 64)] := by
  unfold utf8.AppendRune
  rw [if_neg (by omega), if_pos h2]

theorem AppendRune_three (r : Nat) (h1 : 0x7FF < r) (h2 : r ≤ 0xFFFF) (h3 : r < 0xD800 ∨ 0xDFFF < r) :
    utf8.AppendRune r =
      [Fin.ofNat (0xE0 + r / 4096), Fin.ofNat (0x80 + r / 64 % 64), Fin.ofNat (0x80 + r % 64)] := by
  unfold utf8.AppendRune
  have : ¬ ((decide (r > 0x10FFFF) || (decide (0xD800 ≤ r) && decide (r ≤ 0xDFFF))) = true) := by
    simp only [Bool.or_eq_true, decide_eq_true_eq, Bool.and_eq_true, not_or, not_and]
    omega
  rw [if_neg (by omega), if_neg (by omega), if_neg this, if_pos h2]

theorem AppendRune_four (r : Nat) (h1 : 0xFFFF < r) (h2 : r ≤ 0x10FFFF) :
    utf8.AppendRune r =
      [Fin.ofNat (0xF0 + r / 262144), Fin.ofNat (0x80 + r / 4096 % 64),
        Fin.ofNat (0x80 + r / 64 % 64), Fin.ofNat (0x80 + r % 64)] := by
  unfold utf8.AppendRune
  have : ¬ ((decide (r > 0x10FFFF) || (decide (0xD800 ≤ r) && decide (r ≤ 0xDFFF))) = true) := by
    simp only [Bool.or_eq_true, decide_eq_true_eq, Bool.and_eq_true, not_or, not_and]
    omega
  rw [if_neg (by omega), if_neg (by omega), if_neg this, if_neg (by omega)]

theorem encode_two (c b1 : Byte) (hc : 0xC2 ≤ c.val ∧ c.val < 0xE0)
    (h1 : 0x80 ≤ b1.val ∧ b1.val ≤ 0xBF) :
    utf8.AppendRune (c.val % 32 * 64 + b1.val % 64) = [c, b1] := by
  rw [AppendRune_two _ (by omega) (by omega), ofNat_val _ c (by omega), ofNat_val _ b1 (by omega)]

theorem encode_three (c b1 b2 : Byte) (hc : 0xE0 ≤ c.val ∧ c.val < 0xF0)
    (h1 : utf8.acceptLo c ≤ b1.val ∧ b1.val ≤ utf8.acceptHi c) (h2 : 0x80 ≤ b2.val ∧ b2.val ≤ 0xBF) :
    utf8.AppendRune (c.val % 16 * 4096 + b1.val % 64 * 64 + b2.val % 64) = [c, b1, b2]
      ∧ 0x80 ≤ b1.val := by
  have hb1 := b1.isLt
  rcases accept_cases c with ⟨e, lo, hi⟩ | ⟨e, lo, hi⟩ | ⟨e, lo, hi⟩ | ⟨e, lo, hi⟩ | ⟨n1, n2, n3, n4, lo, hi⟩ <;>
    rw [lo, hi] at h1 <;>
    refine ⟨?_, by omega⟩ <;>
    rw [AppendRune_three _ (by omega) (by omega) (by omega), ofNat_val _ c (by omega),
      ofNat_val _ b1 (by omega), ofNat_val _ b2 (by omega)]

theorem encode_four (c b1 b2 b3 : Byte) (hc : 0xF0 ≤ c.val ∧ c.val < 0xF5)
    (h1 : utf8.acceptLo c ≤ b1.val ∧ b1.val ≤ utf8.acceptHi c) (h2 : 0x80 ≤ b2.val ∧ b2.val ≤ 0xBF)
    (h3 : 0x80 ≤ b3.val ∧ b3.val ≤ 0xBF) :
    utf8.AppendRune (c.val % 8 * 262144 + b1.val % 64 * 4096 + b2.val % 64 * 64 + b3.val % 64)
        = [c, b1, b2, b3]
      ∧ 0x80 ≤ b1.val := by
  have hb1 := b1.isLt
  rcases accept_cases c with ⟨e, lo, hi⟩ | ⟨e, lo, hi⟩ | ⟨e, lo, hi⟩ | ⟨e, lo, hi⟩ | ⟨n1, n2, n3, n4, lo, hi⟩ <;>
    rw [lo, hi] at h1 <;>
    refine ⟨?_, by omega⟩ <;>
    rw [AppendRune_four _ (by omega) (by omega), ofNat_val _ c (by omega),
      ofNat_val _ b1 (by omega), ofNat_val _ b2 (by omega), ofNat_val _ b3 (by omega)]

theorem decoded (c : Byte) (rest : GoString) (hc : 0x80 ≤ c.val) : Decoded c rest := by
  have hlt := c.isLt
  rcases seqLen_cases c hc with h0 | ⟨h2, hlo, hhi⟩ | ⟨h3, hlo, hhi⟩ | ⟨h4, hlo, hhi⟩
  · exact .one (by simp [utf8.DecodeRune, h0])
  · cases rest with
    | nil => exact .one (by simp [utf8.DecodeRune, h2])
    | cons b1 rest1 =>
      have hacc : utf8.acceptLo c = 0x80 ∧ utf8.acceptHi c = 0xBF := by
        rcases accept_cases c with ⟨e, _⟩ | ⟨e, _⟩ | ⟨e, _⟩ | ⟨e, _⟩ | ⟨_, _, _, _, lo, hi⟩
        · omega
        · omega
        · omega
        · omega
        · exact ⟨lo, hi⟩
      by_cases hb : b1.val < 0x80 ∨ 0xBF < b1.val
      · exact .one (by simp [utf8.DecodeRune, h2, hacc.1, hacc.2, hb])
      · have hd : ∀ y, utf8.DecodeRune (c :: b1 :: y) = (c.val % 32 * 64 + b1.val % 64, 2) := by
          intro y
          simp only [utf8.DecodeRune, h2, hacc.1, hacc.2]
          simp only [beq_iff_eq, OfNat.ofNat_ne_one, OfNat.ofNat_ne_zero, if_false, List.length_cons,
            Bool.or_eq_true, decide_eq_true_eq, le_refl, if_true]
          rw [if_neg (by omega), if_neg hb]
        refine .two b1 rest1 rfl (by rw [hd]) ?_ (by omega) (fun y => by rw [hd, hd])
        rw [hd]
        exact encode_two c b1 ⟨hlo, hhi⟩ (by omega)
  · cases rest with
    | nil => exact .one (by simp [utf8.DecodeRune, h3])
    | cons b1 rest1 =>
      cases rest1 with
      | nil => exact .one (by simp [utf8.DecodeRune, h3])
      | cons b2 rest2 =>
        by_cases hb : b1.val < utf8.acceptLo c ∨ utf8.acceptHi c < b1.val
        · exact .one (by simp [utf8.DecodeRune, h3, hb])
        · by_cases hb' : utf8.isCont b2 = true
          · have hc2 := (isCont_iff b2).mp hb'
            have hd : ∀ y, utf8.DecodeRune (c :: b1 :: b2 :: y)
                = (c.val % 16 * 4096 + b1.val % 64 * 64 + b2.val % 64, 3) := by
              intro y
              simp only [utf8.DecodeRune, h3]
              simp [hb, hb']
            have he := encode_three c b1 b2 ⟨hlo, hhi⟩ (by omega) hc2
            refine .three b1 b2 rest2 rfl (by rw [hd]) ?_ ⟨he.2, hc2.1⟩ (fun y => by rw [hd, hd])
            rw [hd]
            exact he.1
          · exact .one (by simp [utf8.DecodeRune, h3, hb, hb'])
  · cases rest with
    | nil => exact .one (by simp [utf8.DecodeRune, h4])
    | cons b1 rest1 =>
      cases rest1 with
      | nil => exact .one (by simp [utf8.DecodeRune, h4])
      | cons b2 rest2 =>
        cases rest2 with
        | nil =>
          refine .one ?_
          simp only [utf8.DecodeRune, h4]
          simp
        | cons b3 rest3 =>
          by_cases hb : b1.val < utf8.acceptLo c ∨ utf8.acceptHi c < b1.val
          · exact .one (by simp [utf8.DecodeRune, h4, hb])
          · by_cases hb' : utf8.isCont b2 = true
            · by_cases hb'' : utf8.isCont b3 = true
              · have hc2 := (isCont_iff b2).mp hb'
                have hc3 := (isCont_iff b3).mp hb''
                have hd : ∀ y, utf8.DecodeRune (c :: b1 :: b2 :: b3 :: y)
                    = (c.val % 8 * 262144 + b1.val % 64 * 4096 + b2.val % 64 * 64 + b3.val % 64, 4) := by
                  intro y
                  simp only [utf8.DecodeRune, h4]
                  simp [hb, hb', hb'']
                have he := encode_four c b1 b2 b3 ⟨hlo, hhi⟩ (by omega) hc2 hc3
                refine .four b1 b2 b3 rest3 rfl (by rw [hd]) ?_ ⟨he.2, hc2.1, hc3.1⟩
                  (fun y => by rw [hd, hd])
                rw [hd]
                exact he.1
              · exact .one (by simp [utf8.DecodeRune, h4, hb, hb', hb''])
            · exact .one (by simp [utf8.DecodeRune, h4, hb, hb'])

/-! ## Lemmas on the loops over text -/

theorem scanOpt_fuel (round : GoString → Option (GoString × Nat))
    (hround : ∀ s out n, s ≠ [] → round s = some (out, n) → 1 ≤ n) (fuel : Nat) (s : GoString)
    (h : s.length ≤ fuel) : scanOpt round fuel s = scanOpt round s.length s := by
  induction fuel using Nat.strong_induction_on generalizing s with
  | _ fuel ih =>
    cases s with
    | nil => cases fuel <;> rfl
    | cons c rest =>
      cases fuel with
      | zero => simp at h
      | succ fuel =>
        simp only [List.length_cons, scanOpt]
        cases hr : round (c :: rest) with
        | none => rfl
        | some p =>
          obtain ⟨out, n⟩ := p
          have hn := hround _ _ _ (by simp) hr
          have hlen : ((c :: rest).drop n).length ≤ rest.length := by
            simp only [List.length_drop, List.length_cons]
            omega
          simp only []
          rw [ih fuel (Nat.lt_succ_self _) _ (by simp only [List.length_cons] at h; omega),
            ih rest.length (by simp only [List.length_cons] at h; omega) _ hlen]

theorem scanAll_fuel (round : GoString → GoString × Nat)
    (hround : ∀ s, s ≠ [] → 1 ≤ (round s).2) (fuel : Nat) (s : GoString)
    (h : s.length ≤ fuel) : scanAll round fuel s = scanAll round s.length s := by
  induction fuel using Nat.strong_induction_on generalizing s with
  | _ fuel ih =>
    cases s with
    | nil => cases fuel <;> rfl
    | cons c rest =>
      cases fuel with
      | zero => simp at h
      | succ fuel =>
        simp only [List.length_cons, scanAll]
        have hn := hround (c :: rest) (by simp)
        have hlen : ((c :: rest).drop (round (c :: rest)).2).length ≤ rest.length := by
          simp only [List.length_drop, List.length_cons]
          omega
        rw [ih fuel (Nat.lt_succ_self _) _ (by simp only [List.length_cons] at h; omega),
          ih rest.length (by simp only [List.length_cons] at h; omega) _ hlen]


theorem scanOpt_round (round : GoString → Option (GoString × Nat))
    (hround : ∀ s out n, s ≠ [] → round s = some (out, n) → 1 ≤ n) (s : GoString) (hs : s ≠ []) :
    scanOpt round s.length s =
      match round s with
      | none => none
      | some (out, n) => (fun t => out ++ t) <$> scanOpt round (s.drop n).length (s.drop n) := by
  cases s with
  | nil => exact absurd rfl hs
  | cons c rest =>
    simp only [List.length_cons, scanOpt]
    cases hr : round (c :: rest) with
    | none => rfl
    | some p =>
      obtain ⟨out, n⟩ := p
      have hn := hround _ _ _ (by simp) hr
      simp only []
      rw [scanOpt_fuel round hround rest.length _ (by simp only [List.length_drop, List.length_cons]; omega)]

theorem scanAll_round (round : GoString → GoString × Nat)
    (hround : ∀ s, s ≠ [] → 1 ≤ (round s).2) (s : GoString) (hs : s ≠ []) :
    scanAll round s.length s =
      (round s).1 ++ scanAll round (s.drop (round s).2).length (s.drop (round s).2) := by
  cases s with
  | nil => exact absurd rfl hs
  | cons c rest =>
    simp only [List.length_cons, scanAll]
    have hn := hround (c :: rest) (by simp)
    rw [scanAll_fuel round hround rest.length _ (by simp only [List.length_drop, List.length_cons]; omega)]

theorem DecodeRune_ascii (c : Byte) (rest : GoString) (h : c.val < 0x80) :
    utf8.DecodeRune (c :: rest) = (c.val, 1) := by
  have : utf8.seqLen c = 1 := by unfold utf8.seqLen; rw [if_pos h]
  simp [utf8.DecodeRune, this]

theorem DecodeRune_size_pos (s : GoString) (hs : s ≠ []) : 1 ≤ (utf8.DecodeRune s).2 := by
  cases s with
  | nil => exact absurd rfl hs
  | cons c rest =>
    by_cases h : c.val < 0x80
    · rw [DecodeRune_ascii c rest h]
    · rcases decoded c rest (by omega) with h1 | ⟨_, _, _, h2, _, _, _⟩ | ⟨_, _, _, _, h3, _, _, _⟩
          | ⟨_, _, _, _, _, h4, _, _, _⟩
      · rw [h1]
      · rw [h2]; omega
      · rw [h3]; omega
      · rw [h4]; omega

theorem coerceRound_pos (s : GoString) (hs : s ≠ []) : 1 ≤ (json.coerceRound s).2 := by
  cases s with
  | nil => exact absurd rfl hs
  | cons c rest =>
    unfold json.coerceRound
    simp only []
    split
    · exact le_refl 1
    · exact DecodeRune_size_pos _ hs

theorem validRound_pos (s : GoString) (out : GoString) (n : Nat) (hs : s ≠ [])
    (h : utf8.validRound s = some (out, n)) : 1 ≤ n := by
  unfold utf8.validRound at h
  split at h
  · exact absurd h (by simp)
  · simp only [Option.some.injEq, Prod.mk.injEq] at h
    rw [← h.2]
    exact DecodeRune_size_pos s hs

theorem coerce_nil : json.coerce [] = [] := rfl

theorem coerce_cons (c : Byte) (rest : GoString) :
    json.coerce (c :: rest) = (json.coerceRound (c :: rest)).1
      ++ json.coerce ((c :: rest).drop (json.coerceRound (c :: rest)).2) :=
  scanAll_round json.coerceRound coerceRound_pos (c :: rest) (by simp)

theorem Valid_cons (c : Byte) (rest : GoString) (h : utf8.Valid (c :: rest) = true) :
    ∃ n, utf8.validRound (c :: rest) = some ([], n) ∧ utf8.Valid ((c :: rest).drop n) = true := by
  unfold utf8.Valid at h
  rw [scanOpt_round utf8.validRound validRound_pos (c :: rest) (by simp)] at h
  cases hr : utf8.validRound (c :: rest) with
  | none => rw [hr] at h; simp at h
  | some p =>
    obtain ⟨out, n⟩ := p
    rw [hr] at h
    have hout : out = [] := by
      unfold utf8.validRound at hr
      split at hr
      · exact absurd hr (by simp)
      · simp only [Option.some.injEq, Prod.mk.injEq] at hr
        exact hr.1.symm
    subst hout
    refine ⟨n, rfl, ?_⟩
    unfold utf8.Valid
    simpa using h

theorem coerce_of_Valid_aux (k : Nat) : ∀ s : GoString, s.length ≤ k → utf8.Valid s = true →
    json.coerce s = s := by
  induction k with
  | zero =>
    intro s hn _
    cases s with
    | nil => rfl
    | cons c rest => simp at hn
  | succ k ih =>
    intro s hn h
    cases s with
    | nil => rfl
    | cons c rest =>
      simp only [List.length_cons] at hn
      obtain ⟨n, hr, hv⟩ := Valid_cons c rest h
      rw [coerce_cons]
      by_cases hc : c.val < 0x80
      · have e : json.coerceRound (c :: rest) = ([c], 1) := by simp [json.coerceRound, hc]
        have e' : n = 1 := by
          unfold utf8.validRound at hr
          rw [DecodeRune_ascii c rest hc] at hr
          split at hr
          · exact absurd hr (by simp)
          · simp only [Option.some.injEq, Prod.mk.injEq] at hr
            exact hr.2.symm
        subst e'
        rw [e]
        simp only [List.drop_succ_cons, List.drop_zero] at hv ⊢
        rw [ih rest (by omega) hv]
        rfl
      · have e : json.coerceRound (c :: rest)
            = (utf8.AppendRune (utf8.DecodeRune (c :: rest)).1, (utf8.DecodeRune (c :: rest)).2) := by
          simp [json.coerceRound, hc]
        rw [e]
        simp only []
        have hn' : n = (utf8.DecodeRune (c :: rest)).2 := by
          unfold utf8.validRound at hr
          split at hr
          · exact absurd hr (by simp)
          · simp only [Option.some.injEq, Prod.mk.injEq] at hr
            exact hr.2.symm
        rcases decoded c rest (by omega) with h1 | ⟨b1, r1, rfl, h2, henc, _, _⟩
            | ⟨b1, b2, r2, rfl, h3, henc, _, _⟩ | ⟨b1, b2, b3, r3, rfl, h4, henc, _, _⟩
        · unfold utf8.validRound at hr
          rw [h1] at hr
          simp at hr
        · rw [h2] at hn' ⊢
          subst hn'
          rw [henc]
          simp only [List.drop_succ_cons, List.drop_zero] at hv ⊢
          rw [ih r1 (by simp only [List.length_cons] at hn; omega) hv]
          rfl
        · rw [h3] at hn' ⊢
          subst hn'
          rw [henc]
          simp only [List.drop_succ_cons, List.drop_zero] at hv ⊢
          rw [ih r2 (by simp only [List.length_cons] at hn; omega) hv]
          rfl
        · rw [h4] at hn' ⊢
          subst hn'
          rw [henc]
          simp only [List.drop_succ_cons, List.drop_zero] at hv ⊢
          rw [ih r3 (by simp only [List.length_cons] at hn; omega) hv]
          rfl

theorem coerce_of_Valid (s : GoString) (h : utf8.Valid s = true) : json.coerce s = s :=
  coerce_of_Valid_aux s.length s (le_refl _) h

theorem unquoteRound_pos (s : GoString) (out : GoString) (n : Nat) (hs : s ≠ [])
    (h : json.unquoteRound s = some (out, n)) : 1 ≤ n := by
  have hp := DecodeRune_size_pos s hs
  unfold json.unquoteRound at h
  repeat' split at h
  all_goals first
    | (simp only [reduceCtorEq] at h)
    | (simp only [Option.some.injEq, Prod.mk.injEq] at h; omega)

theorem unquote_nil : json.unquote [] = some [] := rfl

theorem unquote_cons (c : Byte) (rest : GoString) :
    json.unquote (c :: rest) =
      match json.unquoteRound (c :: rest) with
      | none => none
      | some (out, n) => (fun t => out ++ t) <$> json.unquote ((c :: rest).drop n) :=
  scanOpt_round json.unquoteRound unquoteRound_pos (c :: rest) (by simp)

theorem unquote_chunk (e x out : GoString) (he : e ≠ [])
    (h : json.unquoteRound (e ++ x) = some (out, e.length)) :
    json.unquote (e ++ x) = (fun t => out ++ t) <$> json.unquote x := by
  cases e with
  | nil => exact absurd rfl he
  | cons c e =>
    rw [List.cons_append, unquote_cons, ← List.cons_append, h]
    simp only [List.drop_left]

theorem unquoteRound_plain (c : Byte) (rest : GoString) (h1 : c.val ≠ 0x22) (h2 : c.val ≠ 0x5C)
    (h3 : 0x20 ≤ c.val) :
    json.unquoteRound (c :: rest) = some (json.coerceRound (c :: rest)) := by
  unfold json.unquoteRound json.coerceRound
  have e1 : (c.val == 0x5C) = false := by simpa using h2
  have e2 : (c.val == 0x22 || decide (c.val < 0x20)) = false := by
    simp only [Bool.or_eq_false_iff, beq_eq_false_iff_ne, ne_eq, decide_eq_false_iff_not]
    exact ⟨h1, by omega⟩
  simp only [e1, e2, Bool.false_eq_true, if_false]
  split <;> rfl

theorem unquote_unescaped_aux (k : Nat) : ∀ s : GoString, s.length ≤ k → unescaped s →
    json.unquote s = some (json.coerce s) := by
  induction k with
  | zero =>
    intro s hn _
    cases s with
    | nil => rfl
    | cons c rest => simp at hn
  | succ k ih =>
    intro s hn h
    cases s with
    | nil => rfl
    | cons c rest =>
      simp only [List.length_cons] at hn
      have hc := h c (List.mem_cons_self _ _)
      have hpos := coerceRound_pos (c :: rest) (by simp)
      have hd : unescaped ((c :: rest).drop (json.coerceRound (c :: rest)).2) :=
        fun x hx => h x (List.mem_of_mem_drop hx)
      have hl : ((c :: rest).drop (json.coerceRound (c :: rest)).2).length ≤ k := by
        simp only [List.length_drop, List.length_cons]
        omega
      rw [unquote_cons, unquoteRound_plain c rest hc.1 hc.2.1 hc.2.2, coerce_cons]
      simp only []
      rw [ih _ hl hd]
      rfl

theorem unquote_unescaped (s : GoString) (h : unescaped s) : json.unquote s = some (json.coerce s) :=
  unquote_unescaped_aux s.length s (le_refl _) h

/-! ## Lemmas on the scanner -/

theorem run_append (s : json.Scanner) (a b : GoString) : s.run (a ++ b) = (s.run a).run b := by
  unfold json.Scanner.run
  rw [List.foldl_append]

theorem run_cons (s : json.Scanner) (c : Byte) (b : GoString) : s.run (c :: b) = (s.next c).run b := rfl

theorem run_nil (s : json.Scanner) : s.run [] = s := rfl

theorem next_inString_plain (st : List json.Frame) (tok : GoString) (c : Byte) (h1 : c.val ≠ 0x22)
    (h2 : c.val ≠ 0x5C) (h3 : 0x20 ≤ c.val) :
    json.Scanner.next ⟨.inString, st, tok, none⟩ c = ⟨.inString, st, tok ++ [c], none⟩ := by
  have e1 : (c.val == 0x22) = false := by simpa using h1
  have e2 : (c.val == 0x5C) = false := by simpa using h2
  have e3 : ¬ c.val < 0x20 := by omega
  simp only [json.Scanner.next, e1, e2, e3, Bool.false_eq_true, if_false, json.Scanner.shift]

theorem Passes_nil : Passes [] := fun st tok => by rw [run_nil, List.append_nil]

theorem Passes_append (a b : GoString) (ha : Passes a) (hb : Passes b) : Passes (a ++ b) := by
  intro st tok
  rw [run_append, ha, hb, List.append_assoc]

theorem Passes_plain (c : Byte) (h1 : c.val ≠ 0x22) (h2 : c.val ≠ 0x5C) (h3 : 0x20 ≤ c.val) :
    Passes [c] := by
  intro st tok
  rw [run_cons, run_nil, next_inString_plain st tok c h1 h2 h3]

theorem Passes_unescaped (text : GoString) (h : unescaped text) : Passes text := by
  induction text with
  | nil => exact Passes_nil
  | cons c text ih =>
    have hc := h c (List.mem_cons_self _ _)
    exact Passes_append [c] text (Passes_plain c hc.1 hc.2.1 hc.2.2)
      (ih (fun x hx => h x (List.mem_cons_of_mem _ hx)))

theorem deliver_congr (s s' : json.Scanner) (v : json.JVal) (h : s.parseState = s'.parseState) :
    s.deliver v = s'.deliver v := by
  obtain ⟨a, st, b, c⟩ := s
  obtain ⟨a', st', b', c'⟩ := s'
  simp only at h
  subst h
  unfold json.Scanner.deliver json.Scanner.error
  rfl

theorem next_ws_await (st : List json.Frame) (first : Bool) (c : Byte) (h : json.isSpace c = true) :
    (json.Scanner.await st first).next c = json.Scanner.await st first := by
  cases first <;> simp [json.Scanner.await, json.Scanner.next, json.Scanner.stateBeginValue, h]

theorem run_ws_await (st : List json.Frame) (first : Bool) (ws : GoString) (h : allSpace ws) :
    (json.Scanner.await st first).run ws = json.Scanner.await st first := by
  induction ws with
  | nil => rfl
  | cons c ws ih =>
    rw [run_cons, next_ws_await st first c (h c (List.mem_cons_self _ _)),
      ih (fun x hx => h x (List.mem_cons_of_mem _ hx))]

theorem next_ws_after (f : json.Frame) (st : List json.Frame) (c : Byte) (h : json.isSpace c = true) :
    (json.Scanner.after (f :: st)).next c = json.Scanner.after (f :: st) := by
  simp [json.Scanner.after, json.Scanner.next, json.Scanner.stateEndValue, h]

theorem run_ws_after (f : json.Frame) (st : List json.Frame) (ws : GoString) (h : allSpace ws) :
    (json.Scanner.after (f :: st)).run ws = json.Scanner.after (f :: st) := by
  induction ws with
  | nil => rfl
  | cons c ws ih =>
    rw [run_cons, next_ws_after f st c (h c (List.mem_cons_self _ _)),
      ih (fun x hx => h x (List.mem_cons_of_mem _ hx))]

theorem next_ws_key (step : json.Step) (hstep : step = .beginString ∨ step = .beginStringOrEmpty)
    (st : List json.Frame) (c : Byte) (h : json.isSpace c = true) :
    json.Scanner.next ⟨step, st, [], none⟩ c = ⟨step, st, [], none⟩ := by
  rcases hstep with rfl | rfl <;> simp [json.Scanner.next, json.Scanner.stateBeginString, h]

theorem run_ws_key (step : json.Step) (hstep : step = .beginString ∨ step = .beginStringOrEmpty)
    (st : List json.Frame) (ws : GoString) (h : allSpace ws) :
    json.Scanner.run ⟨step, st, [], none⟩ ws = ⟨step, st, [], none⟩ := by
  induction ws with
  | nil => rfl
  | cons c ws ih =>
    rw [run_cons, next_ws_key step hstep st c (h c (List.mem_cons_self _ _)),
      ih (fun x hx => h x (List.mem_cons_of_mem _ hx))]

/-- A key between quotes and the colon after it. -/
theorem run_key (step : json.Step) (hstep : step = .beginString ∨ step = .beginStringOrEmpty)
    (ms : List (GoString × json.JVal)) (st : List json.Frame) (ws key rest : GoString) (hws : allSpace ws)
    (hkey : unescaped key) :
    json.Scanner.run ⟨step, .objectKey ms :: st, [], none⟩ (ws ++ 0x22 :: (key ++ 0x22 :: 0x3A :: rest)) =
      (json.Scanner.await (.objectValue ms (json.coerce key) :: st) false).run rest := by
  rw [run_append, run_ws_key step hstep _ ws hws, run_cons]
  have h1 : json.Scanner.next ⟨step, .objectKey ms :: st, [], none⟩ 0x22
      = ⟨.inString, .objectKey ms :: st, [], none⟩ := by
    rcases hstep with rfl | rfl <;> rfl
  rw [h1, run_append, Passes_unescaped key hkey, run_cons, run_cons, List.nil_append]
  have h2 : json.Scanner.next ⟨.inString, .objectKey ms :: st, key, none⟩ 0x22
      = ⟨.endValue, .objectColon ms (json.coerce key) :: st, [], none⟩ := by
    show (match json.unquote key with
      | some str => json.Scanner.deliver ⟨.inString, .objectKey ms :: st, key, none⟩ (.str str)
      | none => json.Scanner.error ⟨.inString, .objectKey ms :: st, key, none⟩) = _
    rw [unquote_unescaped key hkey]
    rfl
  rw [h2]
  rfl

/-- An object opens and its first key is read. -/
theorem run_open (st : List json.Frame) (first : Bool) (ws key rest : GoString)
    (hd : st.length + 1 ≤ json.maxNestingDepth) (hws : allSpace ws) (hkey : unescaped key) :
    (json.Scanner.await st first).run (0x7B :: (ws ++ 0x22 :: (key ++ 0x22 :: 0x3A :: rest))) =
      (json.Scanner.await (.objectValue [] (json.coerce key) :: st) false).run rest := by
  rw [run_cons]
  have h1 : (json.Scanner.await st first).next 0x7B = ⟨.beginStringOrEmpty, .objectKey [] :: st, [], none⟩ := by
    have e : ((0x7B : Byte) : Nat) = 0x7B := rfl
    cases first <;>
      simp [json.Scanner.await, json.Scanner.next, json.Scanner.stateBeginValue, json.Scanner.pushParseState, json.isSpace, hd, e]
  rw [h1, run_key _ (Or.inr rfl) _ _ _ _ _ hws hkey]

/-- After a member, a comma and the next key are read. -/
theorem run_next (ms : List (GoString × json.JVal)) (st : List json.Frame) (ws key rest : GoString)
    (hws : allSpace ws) (hkey : unescaped key) :
    (json.Scanner.after (.objectNext ms :: st)).run (0x2C :: (ws ++ 0x22 :: (key ++ 0x22 :: 0x3A :: rest))) =
      (json.Scanner.await (.objectValue ms (json.coerce key) :: st) false).run rest := by
  rw [run_cons]
  have h1 : (json.Scanner.after (.objectNext ms :: st)).next 0x2C
      = ⟨.beginString, .objectKey ms :: st, [], none⟩ := rfl
  rw [h1, run_key _ (Or.inl rfl) _ _ _ _ _ hws hkey]

/-- The value of a member is read. -/
theorem run_value (text : GoString) (v : json.JVal) (d : Nat) (h : ParsesAs text v d)
    (ms : List (GoString × json.JVal)) (key : GoString) (st : List json.Frame) (ws rest : GoString)
    (hd : st.length + 1 + d ≤ json.maxNestingDepth) (hws : allSpace ws) :
    (json.Scanner.await (.objectValue ms key :: st) false).run (ws ++ (text ++ rest)) =
      (json.Scanner.after (.objectNext (ms ++ [(key, v)]) :: st)).run rest := by
  rw [run_append, run_ws_await _ _ ws hws, run_append,
    h (.objectValue ms key :: st) false (by simp only [List.length_cons]; omega)]
  rfl

/-- The object closes. -/
theorem run_close (ms : List (GoString × json.JVal)) (st : List json.Frame) (ws : GoString)
    (hws : allSpace ws) :
    (json.Scanner.after (.objectNext ms :: st)).run (ws ++ [0x7D]) = (json.Scanner.after st).deliver (.obj ms) := by
  rw [run_append, run_ws_after _ _ ws hws, run_cons, run_nil]
  show json.Scanner.deliver _ _ = _
  exact deliver_congr _ _ _ rfl

/-- Text between quotes that needs no escape is read as a string. -/
theorem ParsesAs_quoted (text : GoString) (h : unescaped text) :
    ParsesAs (0x22 :: (text ++ [0x22])) (.str (json.coerce text)) 0 := by
  intro st first _
  rw [run_cons]
  have h1 : (json.Scanner.await st first).next 0x22 = ⟨.inString, st, [], none⟩ := by
    cases first <;> rfl
  rw [h1, run_append, Passes_unescaped text h, run_cons, run_nil, List.nil_append]
  show (match json.unquote text with
    | some str => json.Scanner.deliver ⟨.inString, st, text, none⟩ (.str str)
    | none => json.Scanner.error ⟨.inString, st, text, none⟩) = _
  rw [unquote_unescaped text h]
  exact deliver_congr _ _ _ rfl

/-- The value of a member is read, for a string between quotes that needs no
escape. -/
theorem run_value_quoted (text : GoString) (h : unescaped text)
    (ms : List (GoString × json.JVal)) (key : GoString) (st : List json.Frame) (ws rest : GoString)
    (hd : st.length + 1 ≤ json.maxNestingDepth) (hws : allSpace ws) :
    (json.Scanner.await (.objectValue ms key :: st) false).run (ws ++ 0x22 :: (text ++ 0x22 :: rest)) =
      (json.Scanner.after (.objectNext (ms ++ [(key, .str (json.coerce text))]) :: st)).run rest := by
  have e : ws ++ 0x22 :: (text ++ 0x22 :: rest) = ws ++ ((0x22 :: (text ++ [0x22])) ++ rest) := by
    simp
  rw [e, run_value _ _ 0 (ParsesAs_quoted text h) ms key st ws rest (by omega) hws]

/-- A text that is read as a value is valid JSON with that value. -/
theorem Unmarshal_of_ParsesAs (text : GoString) (v : json.JVal) (d : Nat) (h : ParsesAs text v d)
    (hd : d ≤ json.maxNestingDepth) : json.Unmarshal text = .ok v := by
  have h1 : json.Scanner.reset.run text = ⟨.endTop, [], [], some v⟩ :=
    h [] false (by simpa using hd)
  unfold json.Unmarshal
  rw [h1]
  rfl

/-! ## The templated payloads -/

theorem allSpace_lit1 : allSpace (lit "\n\t\t") := by unfold allSpace; decide
theorem allSpace_lit2 : allSpace (lit "\n\t\t\t") := by unfold allSpace; decide
theorem allSpace_lit3 : allSpace (lit "\n\t\t\t\t") := by unfold allSpace; decide
theorem allSpace_lit4 : allSpace (lit "\n\t\t\t    ") := by unfold allSpace; decide
theorem allSpace_lit5 : allSpace (lit " ") := by unfold allSpace; decide

theorem unescaped_audio : unescaped (lit "audio") := by unfold unescaped; decide
theorem coerce_audio : json.coerce (lit "audio") = lit "audio" := by decide

theorem unescaped_caption : unescaped (lit "caption") := by unfold unescaped; decide
theorem coerce_caption : json.coerce (lit "caption") = lit "caption" := by decide

theorem unescaped_file : unescaped (lit "file") := by unfold unescaped; decide
theorem coerce_file : json.coerce (lit "file") = lit "file" := by decide

theorem unescaped_filename : unescaped (lit "filename") := by unfold unescaped; decide
theorem coerce_filename : json.coerce (lit "filename") = lit "filename" := by decide

theorem unescaped_image : unescaped (lit "image") := by unfold unescaped; decide
theorem coerce_image : json.coerce (lit "image") = lit "image" := by decide

theorem unescaped_originalUrl : unescaped (lit "originalUrl") := by unfold unescaped; decide
theorem coerce_originalUrl : json.coerce (lit "originalUrl") = lit "originalUrl" := by decide

theorem unescaped_previewUrl : unescaped (lit "previewUrl") := by unfold unescaped; decide
theorem coerce_previewUrl : json.coerce (lit "previewUrl") = lit "previewUrl" := by decide

theorem unescaped_sticker : unescaped (lit "sticker") := by unfold unescaped; decide
theorem coerce_sticker : json.coerce (lit "sticker") = lit "sticker" := by decide

theorem unescaped_text : unescaped (lit "text") := by unfold unescaped; decide
theorem coerce_text : json.coerce (lit "text") = lit "text" := by decide

theorem unescaped_type : unescaped (lit "type") := by unfold unescaped; decide
theorem coerce_type : json.coerce (lit "type") = lit "type" := by decide

theorem unescaped_url : unescaped (lit "url") := by unfold unescaped; decide
theorem coerce_url : json.coerce (lit "url") = lit "url" := by decide

theorem unescaped_video : unescaped (lit "video") := by unfold unescaped; decide
theorem coerce_video : json.coerce (lit "video") = lit "video" := by decide

theorem TextRequest_message_eq (request : TextRequest) :
    request.message =
      0x7B :: (lit "\n\t\t\t" ++ 0x22 :: (lit "type" ++ 0x22 :: 0x3A :: (lit " " ++
      0x22 :: (lit "text" ++ 0x22 ::
      (0x2C :: (lit "\n\t\t\t" ++ 0x22 :: (lit "text" ++ 0x22 :: 0x3A :: (lit " " ++
      0x22 :: (request.Text ++ 0x22 ::
      (lit "\n\t\t" ++ [0x7D])))))))))) := rfl

theorem ParsesAs_TextRequest (request : TextRequest)
    (hText : unescaped request.Text) :
    ParsesAs request.message
      (.obj [
        (lit "type", .str (lit "text")), (lit "text", .str (json.coerce request.Text))]) 1 := by
  intro st first hd
  rw [TextRequest_message_eq, run_open st first _ _ _ hd allSpace_lit2 unescaped_type,
    run_value_quoted _ unescaped_text _ _ _ _ _ hd allSpace_lit5]
  rw [run_next _ _ _ _ _ allSpace_lit2 unescaped_text,
    run_value_quoted _ hText _ _ _ _ _ hd allSpace_lit5]
  rw [run_close _ _ _ allSpace_lit1, coerce_type, coerce_text]
  rfl

theorem ImageRequest_message_eq (request : ImageRequest) :
    request.message =
      0x7B :: (lit "\n\t\t\t\t" ++ 0x22 :: (lit "type" ++ 0x22 :: 0x3A :: (lit " " ++
      0x22 :: (lit "image" ++ 0x22 ::
      (0x2C :: (lit "\n\t\t\t\t" ++ 0x22 :: (lit "originalUrl" ++ 0x22 :: 0x3A :: (lit " " ++
      0x22 :: (request.Image ++ 0x22 ::
      (0x2C :: (lit "\n\t\t\t\t" ++ 0x22 :: (lit "previewUrl" ++ 0x22 :: 0x3A :: (lit " " ++
      0x22 :: (request.Preview ++ 0x22 ::
      (0x2C :: (lit "\n\t\t\t\t" ++ 0x22 :: (lit "caption" ++ 0x22 :: 0x3A :: (lit " " ++
      0x22 :: (request.Caption ++ 0x22 ::
      (lit "\n\t\t\t" ++ [0x7D])))))))))))))))))))) := rfl

theorem ParsesAs_ImageRequest (request : ImageRequest)
    (hImage : unescaped request.Image) (hPreview : unescaped request.Preview) (hCaption : unescaped request.Caption) :
    ParsesAs request.message
      (.obj [
        (lit "type", .str (lit "image")), (lit "originalUrl", .str (json.coerce request.Image)),
        (lit "previewUrl", .str (json.coerce request.Preview)),
        (lit "caption", .str (json.coerce request.Caption))]) 1 := by
  intro st first hd
  rw [ImageRequest_message_eq, run_open st first _ _ _ hd allSpace_lit3 unescaped_type,
    run_value_quoted _ unescaped_image _ _ _ _ _ hd allSpace_lit5]
  rw [run_next _ _ _ _ _ allSpace_lit3 unescaped_originalUrl,
    run_value_quoted _ hImage _ _ _ _ _ hd allSpace_lit5]
  rw [run_next _ _ _ _ _ allSpace_lit3 unescaped_previewUrl,
    run_value_quoted _ hPreview _ _ _ _ _ hd allSpace_lit5]
  rw [run_next _ _ _ _ _ allSpace_lit3 unescaped_caption,
    run_value_quoted _ hCaption _ _ _ _ _ hd allSpace_lit5]
  rw [run_close _ _ _ allSpace_lit2, coerce_type, coerce_image, coerce_originalUrl, coerce_previewUrl, coerce_caption]
  rfl

theorem DocumentRequest_message_eq (request : DocumentRequest) :
    request.message =
      0x7B :: (lit "\n\t\t\t\t" ++ 0x22 :: (lit "type" ++ 0x22 :: 0x3A :: (lit " " ++
      0x22 :: (lit "file" ++ 0x22 ::
      (0x2C :: (lit "\n\t\t\t\t" ++ 0x22 :: (lit "url" ++ 0x22 :: 0x3A :: (lit " " ++
      0x22 :: (request.Url ++ 0x22 ::
      (0x2C :: (lit "\n\t\t\t    " ++ 0x22 :: (lit "filename" ++ 0x22 :: 0x3A :: (lit " " ++
      0x22 :: (request.Filename ++ 0x22 ::
      (lit "\n\t\t\t" ++ [0x7D]))))))))))))))) := rfl

theorem ParsesAs_DocumentRequest (request : DocumentRequest)
    (hUrl : unescaped request.Url) (hFilename : unescaped request.Filename) :
    ParsesAs request.message
      (.obj [
        (lit "type", .str (lit "file")), (lit "url", .str (json.coerce request.Url)),
        (lit "filename", .str (json.coerce request.Filename))]) 1 := by
  intro st first hd
  rw [DocumentRequest_message_eq, run_open st first _ _ _ hd allSpace_lit3 unescaped_type,
    run_value_quoted _ unescaped_file _ _ _ _ _ hd allSpace_lit5]
  rw [run_next _ _ _ _ _ allSpace_lit3 unescaped_url,
    run_value_quoted _ hUrl _ _ _ _ _ hd allSpace_lit5]
  rw [run_next _ _ _ _ _ allSpace_lit4 unescaped_filename,
    run_value_quoted _ hFilename _ _ _ _ _ hd allSpace_lit5]
  rw [run_close _ _ _ allSpace_lit2, coerce_type, coerce_file, coerce_url, coerce_filename]
  rfl

theorem AudioRequest_message_eq (request : AudioRequest) :
    request.message =
      0x7B :: (lit "\n\t\t\t\t" ++ 0x22 :: (lit "type" ++ 0x22 :: 0x3A :: (lit " " ++
      0x22 :: (lit "audio" ++ 0x22 ::
      (0x2C :: (lit "\n\t\t\t\t" ++ 0x22 :: (lit "url" ++ 0x22 :: 0x3A :: (lit " " ++
      0x22 :: (request.Url ++ 0x22 ::
      (lit "\n\t\t\t" ++ [0x7D])))))))))) := rfl

theorem ParsesAs_AudioRequest (request : AudioRequest)
    (hUrl : unescaped request.Url) :
    ParsesAs request.message
      (.obj [
        (lit "type", .str (lit "audio")), (lit "url", .str (json.coerce request.Url))]) 1 := by
  intro st first hd
  rw [AudioRequest_message_eq, run_open st first _ _ _ hd allSpace_lit3 unescaped_type,
    run_value_quoted _ unescaped_audio _ _ _ _ _ hd allSpace_lit5]
  rw [run_next _ _ _ _ _ allSpace_lit3 unescaped_url,
    run_value_quoted _ hUrl _ _ _ _ _ hd allSpace_lit5]
  rw [run_close _ _ _ allSpace_lit2, coerce_type, coerce_audio, coerce_url]
  rfl

theorem VideoRequest_message_eq (request : VideoRequest) :
    request.message =
      0x7B :: (lit "\n\t\t\t\t" ++ 0x22 :: (lit "type" ++ 0x22 :: 0x3A :: (lit " " ++
      0x22 :: (lit "video" ++ 0x22 ::
      (0x2C :: (lit "\n\t\t\t\t" ++ 0x22 :: (lit "url" ++ 0x22 :: 0x3A :: (lit " " ++
      0x22 :: (request.Url ++ 0x22 ::
      (0x2C :: (lit "\n\t\t\t\t" ++ 0x22 :: (lit "caption" ++ 0x22 :: 0x3A :: (lit " " ++
      0x22 :: (request.Caption ++ 0x22 ::
      (lit "\n\t\t\t" ++ [0x7D]))))))))))))))) := rfl

theorem ParsesAs_VideoRequest (request : VideoRequest)
    (hUrl : unescaped request.Url) (hCaption : unescaped request.Caption) :
    ParsesAs request.message
      (.obj [
        (lit "type", .str (lit "video")), (lit "url", .str (json.coerce request.Url)),
        (lit "caption", .str (json.coerce request.Caption))]) 1 := by
  intro st first hd
  rw [VideoRequest_message_eq, run_open st first _ _ _ hd allSpace_lit3 unescaped_type,
    run_value_quoted _ unescaped_video _ _ _ _ _ hd allSpace_lit5]
  rw [run_next _ _ _ _ _ allSpace_lit3 unescaped_url,
    run_value_quoted _ hUrl _ _ _ _ _ hd allSpace_lit5]
  rw [run_next _ _ _ _ _ allSpace_lit3 unescaped_caption,
    run_value_quoted _ hCaption _ _ _ _ _ hd allSpace_lit5]
  rw [run_close _ _ _ allSpace_lit2, coerce_type, coerce_video, coerce_url, coerce_caption]
  rfl

theorem StickerRequest_message_eq (request : StickerRequest) :
    request.message =
      0x7B :: (lit "\n\t\t\t\t" ++ 0x22 :: (lit "type" ++ 0x22 :: 0x3A :: (lit " " ++
      0x22 :: (lit "sticker" ++ 0x22 ::
      (0x2C :: (lit "\n\t\t\t\t" ++ 0x22 :: (lit "url" ++ 0x22 :: 0x3A :: (lit " " ++
      0x22 :: (request.Url ++ 0x22 ::
      (lit "\n\t\t\t" ++ [0x7D])))))))))) := rfl

theorem ParsesAs_StickerRequest (request : StickerRequest)
    (hUrl : unescaped request.Url) :
    ParsesAs request.message
      (.obj [
        (lit "type", .str (lit "sticker")), (lit "url", .str (json.coerce request.Url))]) 1 := by
  intro st first hd
  rw [StickerRequest_message_eq, run_open st first _ _ _ hd allSpace_lit3 unescaped_type,
    run_value_quoted _ unescaped_sticker _ _ _ _ _ hd allSpace_lit5]
  rw [run_next _ _ _ _ _ allSpace_lit3 unescaped_url,
    run_value_quoted _ hUrl _ _ _ _ _ hd allSpace_lit5]
  rw [run_close _ _ _ allSpace_lit2, coerce_type, coerce_sticker, coerce_url]
  rfl

/-! ## Writing a string and reading it back -/

theorem hex_spec : ∀ n : Fin 16, json.hexVal (json.hex n.val) = some n.val := by decide

theorem hex_spec' (n : Nat) (h : n < 16) : json.hexVal (json.hex n) = some n := hex_spec ⟨n, h⟩

theorem Passes_escape2 (e : Byte)
    (he : (e.val == 0x62 || e.val == 0x66 || e.val == 0x6E || e.val == 0x72 || e.val == 0x74
        || e.val == 0x5C || e.val == 0x2F || e.val == 0x22) = true) :
    Passes [0x5C, e] := by
  intro st tok
  rw [run_cons, run_cons, run_nil]
  have h1 : json.Scanner.next ⟨.inString, st, tok, none⟩ 0x5C = ⟨.inStringEsc, st, tok ++ [0x5C], none⟩ := rfl
  rw [h1]
  simp only [json.Scanner.next, he, if_true, json.Scanner.shift, List.append_assoc, List.singleton_append]

theorem Passes_escapeU (h1 h2 h3 h4 : Byte) (e1 : json.isHex h1 = true) (e2 : json.isHex h2 = true)
    (e3 : json.isHex h3 = true) (e4 : json.isHex h4 = true) :
    Passes [0x5C, 0x75, h1, h2, h3, h4] := by
  intro st tok
  rw [run_cons, run_cons, run_cons, run_cons, run_cons, run_cons, run_nil]
  have a1 : json.Scanner.next ⟨.inString, st, tok, none⟩ 0x5C = ⟨.inStringEsc, st, tok ++ [0x5C], none⟩ := rfl
  have a2 : json.Scanner.next ⟨.inStringEsc, st, tok ++ [0x5C], none⟩ 0x75
      = ⟨.inStringEscU, st, tok ++ [0x5C] ++ [0x75], none⟩ := rfl
  rw [a1, a2]
  simp only [json.Scanner.next, e1, e2, e3, e4, if_true, json.Scanner.shift, List.append_assoc,
    List.singleton_append, List.cons_append, List.nil_append]

theorem isHex_hex (n : Nat) (h : n < 16) : json.isHex (json.hex n) = true := by
  unfold json.isHex
  rw [hex_spec' n h]
  rfl

theorem AppendRune_ascii (c : Byte) (h : c.val < 0x80) : utf8.AppendRune c.val = [c] := by
  unfold utf8.AppendRune
  rw [if_pos (by omega), ofNat_val _ c rfl]

theorem escapeASCII_spec (c : Byte) (hc : c.val < 0x80) :
    json.escapeASCII c ≠ [] ∧ Passes (json.escapeASCII c)
      ∧ ∀ x, json.unquoteRound (json.escapeASCII c ++ x) = some ([c], (json.escapeASCII c).length) := by
  unfold json.escapeASCII
  split
  · rename_i h
    refine ⟨by simp, Passes_escape2 c ?_, ?_⟩
    · simp only [Bool.or_eq_true, beq_iff_eq] at h ⊢
      omega
    · intro x
      simp only [Bool.or_eq_true, beq_iff_eq] at h
      have e : (c.val == 0x22 || c.val == 0x5C || c.val == 0x2F || c.val == 0x27) = true := by
        simp only [Bool.or_eq_true, beq_iff_eq]
        omega
      simp only [List.cons_append, List.nil_append, json.unquoteRound, e, if_true]
      rfl
  · split
    · rename_i h
      have : c = 0x08 := Fin.ext (by simpa using h)
      subst this
      exact ⟨by simp, Passes_escape2 _ (by decide), fun x => rfl⟩
    · split
      · rename_i h
        have : c = 0x0C := Fin.ext (by simpa using h)
        subst this
        exact ⟨by simp, Passes_escape2 _ (by decide), fun x => rfl⟩
      · split
        · rename_i h
          have : c = 0x0A := Fin.ext (by simpa using h)
          subst this
          exact ⟨by simp, Passes_escape2 _ (by decide), fun x => rfl⟩
        · split
          · rename_i h
            have : c = 0x0D := Fin.ext (by simpa using h)
            subst this
            exact ⟨by simp, Passes_escape2 _ (by decide), fun x => rfl⟩
          · split
            · rename_i h
              have : c = 0x09 := Fin.ext (by simpa using h)
              subst this
              exact ⟨by simp, Passes_escape2 _ (by decide), fun x => rfl⟩
            · split
              · refine ⟨by simp, Passes_escapeU _ _ _ _ (by decide) (by decide)
                  (isHex_hex _ (by omega)) (isHex_hex _ (by omega)), ?_⟩
                intro x
                have g : json.getu4 ([0x5C, 0x75, 0x30, 0x30, json.hex (c.val / 16), json.hex (c.val % 16)] ++ x)
                    = some c.val := by
                  simp only [List.cons_append, List.nil_append, json.getu4]
                  rw [hex_spec' _ (by omega), hex_spec' _ (by omega)]
                  have z : json.hexVal 0x30 = some 0 := by decide
                  rw [z]
                  simp only [show ((0x5C : Byte).val == 0x5C && (0x75 : Byte).val == 0x75) = true from rfl,
                    if_true]
                  congr 1
                  omega
                have ns : json.isSurrogate c.val = false := by
                  simp only [json.isSurrogate, Bool.and_eq_false_imp, decide_eq_true_eq,
                    decide_eq_false_iff_not]
                  omega
                unfold json.unquoteRound
                simp only [List.cons_append, List.nil_append]
                simp only [show ((0x5C : Byte).val == 0x5C) = true from rfl, if_true]
                have g' := g
                simp only [List.cons_append, List.nil_append] at g'
                simp only [show ((0x75 : Byte).val == 0x22 || (0x75 : Byte).val == 0x5C
                    || (0x75 : Byte).val == 0x2F || (0x75 : Byte).val == 0x27) = false from rfl,
                  show ((0x75 : Byte).val == 0x62) = false from rfl,
                  show ((0x75 : Byte).val == 0x66) = false from rfl,
                  show ((0x75 : Byte).val == 0x6E) = false from rfl,
                  show ((0x75 : Byte).val == 0x72) = false from rfl,
                  show ((0x75 : Byte).val == 0x74) = false from rfl,
                  show ((0x75 : Byte).val == 0x75) = true from rfl,
                  Bool.false_eq_true, if_false, if_true, g', ns, AppendRune_ascii c hc]
                rfl
              · rename_i n1 n2 n3 n4 n5 n6 n7
                have p1 : c.val ≠ 0x22 := by
                  simp only [Bool.or_eq_true, beq_iff_eq, not_or] at n1
                  exact n1.2
                have p2 : c.val ≠ 0x5C := by
                  simp only [Bool.or_eq_true, beq_iff_eq, not_or] at n1
                  exact n1.1
                have p3 : 0x20 ≤ c.val := by
                  simp only [Bool.or_eq_true, beq_iff_eq, not_or, decide_eq_true_eq] at n7
                  omega
                refine ⟨by simp, Passes_plain c p1 p2 p3, ?_⟩
                intro x
                have := unquoteRound_plain c x p1 p2 p3
                rw [List.singleton_append, this]
                simp [json.coerceRound, hc]

theorem unquoteRound_multi (c : Byte) (rest : GoString) (hc : 0x80 ≤ c.val) :
    json.unquoteRound (c :: rest)
      = some (utf8.AppendRune (utf8.DecodeRune (c :: rest)).1, (utf8.DecodeRune (c :: rest)).2) := by
  rw [unquoteRound_plain c rest (by omega) (by omega) (by omega)]
  have : ¬ c.val < 0x80 := by omega
  simp [json.coerceRound, this]

theorem coerceRound_multi (c : Byte) (rest : GoString) (hc : 0x80 ≤ c.val) :
    json.coerceRound (c :: rest)
      = (utf8.AppendRune (utf8.DecodeRune (c :: rest)).1, (utf8.DecodeRune (c :: rest)).2) := by
  have : ¬ c.val < 0x80 := by omega
  simp [json.coerceRound, this]

theorem Passes_high (l : GoString) (h : ∀ c ∈ l, 0x80 ≤ c.val) : Passes l := by
  induction l with
  | nil => exact Passes_nil
  | cons c l ih =>
    have hc := h c (List.mem_cons_self _ _)
    exact Passes_append [c] l (Passes_plain c (by omega) (by omega) (by omega))
      (ih (fun x hx => h x (List.mem_cons_of_mem _ hx)))

theorem AppendRune_2028 : utf8.AppendRune 0x2028 = [0xE2, 0x80, 0xA8] := by decide

theorem AppendRune_2029 : utf8.AppendRune 0x2029 = [0xE2, 0x80, 0xA9] := by decide

theorem unquoteRound_u2028 (x : GoString) :
    json.unquoteRound (0x5C :: 0x75 :: 0x32 :: 0x30 :: 0x32 :: json.hex (0x2028 % 16) :: x)
      = some (utf8.AppendRune 0x2028, 6) := rfl

theorem unquoteRound_u2029 (x : GoString) :
    json.unquoteRound (0x5C :: 0x75 :: 0x32 :: 0x30 :: 0x32 :: json.hex (0x2029 % 16) :: x)
      = some (utf8.AppendRune 0x2029, 6) := rfl

theorem unquoteRound_ufffd (x : GoString) :
    json.unquoteRound (lit "\\ufffd" ++ x) = some (utf8.AppendRune utf8.RuneError, 6) := rfl

/-- What one round of `json.appendString` writes is taken into the string token as it
stands, and one round of `unquoteBytes` reads it back as the coerced text. -/
theorem escapeRound_spec (c : Byte) (rest : GoString) :
    (json.escapeRound (c :: rest)).2 = (json.coerceRound (c :: rest)).2
      ∧ (json.escapeRound (c :: rest)).1 ≠ []
      ∧ Passes (json.escapeRound (c :: rest)).1
      ∧ ∀ x, json.unquoteRound ((json.escapeRound (c :: rest)).1 ++ x)
          = some ((json.coerceRound (c :: rest)).1, (json.escapeRound (c :: rest)).1.length) := by
  by_cases hc : c.val < 0x80
  · have e1 : json.escapeRound (c :: rest) = (json.escapeASCII c, 1) := by simp [json.escapeRound, hc]
    have e2 : json.coerceRound (c :: rest) = ([c], 1) := by simp [json.coerceRound, hc]
    rw [e1, e2]
    obtain ⟨a, b, d⟩ := escapeASCII_spec c hc
    exact ⟨rfl, a, b, d⟩
  · have hc' : 0x80 ≤ c.val := by omega
    rw [coerceRound_multi c rest hc']
    have er : json.escapeRound (c :: rest) =
        if (utf8.DecodeRune (c :: rest)).1 == utf8.RuneError && (utf8.DecodeRune (c :: rest)).2 == 1 then
          (lit "\\ufffd", 1)
        else if (utf8.DecodeRune (c :: rest)).1 == 0x2028 || (utf8.DecodeRune (c :: rest)).1 == 0x2029 then
          ([0x5C, 0x75, 0x32, 0x30, 0x32, json.hex ((utf8.DecodeRune (c :: rest)).1 % 16)],
            (utf8.DecodeRune (c :: rest)).2)
        else ((c :: rest).take (utf8.DecodeRune (c :: rest)).2, (utf8.DecodeRune (c :: rest)).2) := by
      simp [json.escapeRound, hc]
    rw [er]
    rcases decoded c rest hc' with h1 | ⟨b1, r1, rfl, h2, henc, hcont, hind⟩
        | ⟨b1, b2, r2, rfl, h3, henc, hcont, hind⟩ | ⟨b1, b2, b3, r3, rfl, h4, henc, hcont, hind⟩
    · have p1 : (((utf8.DecodeRune (c :: rest)).1 == utf8.RuneError
          && (utf8.DecodeRune (c :: rest)).2 == 1) = true) := by
        rw [h1]; rfl
      rw [if_pos p1, h1]
      exact ⟨rfl, by decide, Passes_escapeU _ _ _ _ (by decide) (by decide) (by decide) (by decide),
        fun x => unquoteRound_ufffd x⟩
    · have n1 : ¬ (((utf8.DecodeRune (c :: b1 :: r1)).1 == utf8.RuneError
          && (utf8.DecodeRune (c :: b1 :: r1)).2 == 1) = true) := by
        rw [h2]; simp
      have n2 : ¬ (((utf8.DecodeRune (c :: b1 :: r1)).1 == 0x2028
          || (utf8.DecodeRune (c :: b1 :: r1)).1 == 0x2029) = true) := by
        intro h
        simp only [Bool.or_eq_true, beq_iff_eq] at h
        rcases h with h | h <;> rw [h] at henc
        · rw [AppendRune_2028] at henc; simp at henc
        · rw [AppendRune_2029] at henc; simp at henc
      rw [if_neg n1, if_neg n2, h2]
      refine ⟨rfl, by simp, ?_, ?_⟩
      · exact Passes_high _ (by
          intro x hx
          simp only [List.take, List.mem_cons, List.mem_singleton, List.not_mem_nil, or_false] at hx
          rcases hx with rfl | rfl <;> omega)
      · intro x
        show json.unquoteRound (c :: b1 :: x) = _
        rw [unquoteRound_multi c _ hc', hind x, h2]
        rfl
    · by_cases hu : (utf8.DecodeRune (c :: b1 :: b2 :: r2)).1 = 0x2028
          ∨ (utf8.DecodeRune (c :: b1 :: b2 :: r2)).1 = 0x2029
      · have n1 : ¬ (((utf8.DecodeRune (c :: b1 :: b2 :: r2)).1 == utf8.RuneError
            && (utf8.DecodeRune (c :: b1 :: b2 :: r2)).2 == 1) = true) := by
          rw [h3]; simp
        have p2 : (((utf8.DecodeRune (c :: b1 :: b2 :: r2)).1 == 0x2028
            || (utf8.DecodeRune (c :: b1 :: b2 :: r2)).1 == 0x2029) = true) := by
          simpa using hu
        rw [if_neg n1, if_pos p2, h3]
        refine ⟨rfl, by simp, ?_, ?_⟩
        · rcases hu with hu | hu <;> rw [hu] <;>
            exact Passes_escapeU _ _ _ _ (by decide) (by decide) (by decide) (by decide)
        · intro x
          rcases hu with hu | hu <;> rw [hu]
          · exact unquoteRound_u2028 x
          · exact unquoteRound_u2029 x
      · have n1 : ¬ (((utf8.DecodeRune (c :: b1 :: b2 :: r2)).1 == utf8.RuneError
            && (utf8.DecodeRune (c :: b1 :: b2 :: r2)).2 == 1) = true) := by
          rw [h3]; simp
        have n2 : ¬ (((utf8.DecodeRune (c :: b1 :: b2 :: r2)).1 == 0x2028
            || (utf8.DecodeRune (c :: b1 :: b2 :: r2)).1 == 0x2029) = true) := by
          simpa using hu
        rw [if_neg n1, if_neg n2, h3]
        refine ⟨rfl, by simp, ?_, ?_⟩
        · exact Passes_high _ (by
            intro x hx
            simp only [List.take, List.mem_cons, List.mem_singleton, List.not_mem_nil, or_false] at hx
            rcases hx with rfl | rfl | rfl <;> omega)
        · intro x
          show json.unquoteRound (c :: b1 :: b2 :: x) = _
          rw [unquoteRound_multi c _ hc', hind x, h3]
          rfl
    · have n1 : ¬ (((utf8.DecodeRune (c :: b1 :: b2 :: b3 :: r3)).1 == utf8.RuneError
          && (utf8.DecodeRune (c :: b1 :: b2 :: b3 :: r3)).2 == 1) = true) := by
        rw [h4]; simp
      have n2 : ¬ (((utf8.DecodeRune (c :: b1 :: b2 :: b3 :: r3)).1 == 0x2028
          || (utf8.DecodeRune (c :: b1 :: b2 :: b3 :: r3)).1 == 0x2029) = true) := by
        intro h
        simp only [Bool.or_eq_true, beq_iff_eq] at h
        rcases h with h | h <;> rw [h] at henc
        · rw [AppendRune_2028] at henc; simp at henc
        · rw [AppendRune_2029] at henc; simp at henc
      rw [if_neg n1, if_neg n2, h4]
      refine ⟨rfl, by simp, ?_, ?_⟩
      · exact Passes_high _ (by
          intro x hx
          simp only [List.take, List.mem_cons, List.mem_singleton, List.not_mem_nil, or_false] at hx
          rcases hx with rfl | rfl | rfl | rfl <;> omega)
      · intro x
        show json.unquoteRound (c :: b1 :: b2 :: b3 :: x) = _
        rw [unquoteRound_multi c _ hc', hind x, h4]
        rfl

theorem escapeRound_pos (s : GoString) (hs : s ≠ []) : 1 ≤ (json.escapeRound s).2 := by
  cases s with
  | nil => exact absurd rfl hs
  | cons c rest =>
    rw [(escapeRound_spec c rest).1]
    exact coerceRound_pos _ (by simp)

theorem escapeString_cons (c : Byte) (rest : GoString) :
    json.escapeString (c :: rest) = (json.escapeRound (c :: rest)).1
      ++ json.escapeString ((c :: rest).drop (json.escapeRound (c :: rest)).2) :=
  scanAll_round json.escapeRound escapeRound_pos (c :: rest) (by simp)

theorem escapeString_spec_aux (k : Nat) : ∀ s : GoString, s.length ≤ k →
    Passes (json.escapeString s) ∧ json.unquote (json.escapeString s) = some (json.coerce s) := by
  induction k with
  | zero =>
    intro s hn
    cases s with
    | nil => exact ⟨Passes_nil, rfl⟩
    | cons c rest => simp at hn
  | succ k ih =>
    intro s hn
    cases s with
    | nil => exact ⟨Passes_nil, rfl⟩
    | cons c rest =>
      simp only [List.length_cons] at hn
      obtain ⟨hsz, hne, hp, hu⟩ := escapeRound_spec c rest
      have hpos := coerceRound_pos (c :: rest) (by simp)
      have hl : ((c :: rest).drop (json.coerceRound (c :: rest)).2).length ≤ k := by
        simp only [List.length_drop, List.length_cons]
        omega
      obtain ⟨ip, iu⟩ := ih _ hl
      rw [escapeString_cons, coerce_cons, hsz]
      refine ⟨Passes_append _ _ hp ip, ?_⟩
      rw [unquote_chunk _ _ _ hne (hu _), iu]
      rfl

/-- The string literal that `json.appendString` writes is read as the coerced text. -/
theorem ParsesAs_appendString (s : GoString) : ParsesAs (json.appendString s) (.str (json.coerce s)) 0 := by
  obtain ⟨hp, hu⟩ := escapeString_spec_aux s.length s (le_refl _)
  intro st first _
  unfold json.appendString
  rw [List.singleton_append, List.cons_append, run_cons]
  have h1 : (json.Scanner.await st first).next 0x22 = ⟨.inString, st, [], none⟩ := by
    cases first <;> rfl
  rw [h1, run_append, hp, run_cons, run_nil, List.nil_append]
  show (match json.unquote (json.escapeString s) with
    | some str => json.Scanner.deliver ⟨.inString, st, json.escapeString s, none⟩ (.str str)
    | none => json.Scanner.error ⟨.inString, st, json.escapeString s, none⟩) = _
  rw [hu]
  exact deliver_congr _ _ _ rfl

/-! ## Writing an interactive message and reading it back -/

theorem ParsesAs_mono (text : GoString) (v : json.JVal) (d d' : Nat) (h : ParsesAs text v d)
    (hd : d ≤ d') : ParsesAs text v d' :=
  fun st first hst => h st first (by omega)

theorem run_open_lit (st : List json.Frame) (first : Bool) (pre key rest : GoString)
    (hpre : pre = 0x7B :: 0x22 :: (key ++ [0x22, 0x3A])) (hd : st.length + 1 ≤ json.maxNestingDepth)
    (hkey : unescaped key) (hco : json.coerce key = key) :
    (json.Scanner.await st first).run (pre ++ rest) =
      (json.Scanner.await (.objectValue [] key :: st) false).run rest := by
  have e : pre ++ rest = 0x7B :: ([] ++ 0x22 :: (key ++ 0x22 :: 0x3A :: rest)) := by
    rw [hpre]; simp
  rw [e, run_open st first [] key rest hd (fun _ h => absurd h (List.not_mem_nil _)) hkey, hco]

theorem run_next_lit (ms : List (GoString × json.JVal)) (st : List json.Frame) (sep key rest : GoString)
    (hsep : sep = 0x2C :: 0x22 :: (key ++ [0x22, 0x3A])) (hkey : unescaped key)
    (hco : json.coerce key = key) :
    (json.Scanner.after (.objectNext ms :: st)).run (sep ++ rest) =
      (json.Scanner.await (.objectValue ms key :: st) false).run rest := by
  have e : sep ++ rest = 0x2C :: ([] ++ 0x22 :: (key ++ 0x22 :: 0x3A :: rest)) := by
    rw [hsep]; simp
  rw [e, run_next ms st [] key rest (fun _ h => absurd h (List.not_mem_nil _)) hkey, hco]

theorem run_value_lit (text : GoString) (v : json.JVal) (d : Nat) (h : ParsesAs text v d)
    (ms : List (GoString × json.JVal)) (key : GoString) (st : List json.Frame) (rest : GoString)
    (hd : st.length + 1 + d ≤ json.maxNestingDepth) :
    (json.Scanner.await (.objectValue ms key :: st) false).run (text ++ rest) =
      (json.Scanner.after (.objectNext (ms ++ [(key, v)]) :: st)).run rest := by
  have := run_value text v d h ms key st [] rest hd (fun _ h => absurd h (List.not_mem_nil _))
  rwa [List.nil_append] at this

theorem run_close_lit (ms : List (GoString × json.JVal)) (st : List json.Frame) :
    (json.Scanner.after (.objectNext ms :: st)).run (lit "\x7d") = (json.Scanner.after st).deliver (.obj ms) := by
  have := run_close ms st [] (fun _ h => absurd h (List.not_mem_nil _))
  rwa [List.nil_append] at this

theorem ParsesAs_null : ParsesAs (lit "null") .null 0 := by
  intro st first _
  cases first <;> exact deliver_congr _ _ _ rfl

theorem run_elements {α : Type} (enc : α → GoString) (tree : α → json.JVal) (d : Nat)
    (h : ∀ x, ParsesAs (enc x) (tree x) d) (st : List json.Frame)
    (hd : st.length + 1 + d ≤ json.maxNestingDepth) (ys : List α) :
    ∀ es : List json.JVal,
      (json.Scanner.after (.arrayValue es :: st)).run (ys.flatMap (fun y => 0x2C :: enc y) ++ [0x5D]) =
        (json.Scanner.after st).deliver (.arr (es ++ ys.map tree)) := by
  induction ys with
  | nil =>
    intro es
    simp only [List.flatMap_nil, List.nil_append, List.map_nil, List.append_nil]
    rw [run_cons, run_nil]
    show json.Scanner.deliver _ _ = _
    exact deliver_congr _ _ _ rfl
  | cons y ys ih =>
    intro es
    simp only [List.flatMap_cons, List.cons_append, List.append_assoc, List.map_cons]
    rw [run_cons]
    have h1 : (json.Scanner.after (.arrayValue es :: st)).next 0x2C
        = json.Scanner.await (.arrayValue es :: st) false := rfl
    rw [h1, run_append, h y (.arrayValue es :: st) false (by simp only [List.length_cons]; omega)]
    have h2 : (json.Scanner.after (.arrayValue es :: st)).deliver (tree y)
        = json.Scanner.after (.arrayValue (es ++ [tree y]) :: st) := rfl
    rw [h2, ih (es ++ [tree y])]
    simp

theorem ParsesAs_slice {α : Type} (enc : α → GoString) (tree : α → json.JVal) (d : Nat)
    (h : ∀ x, ParsesAs (enc x) (tree x) d) (xs : Slice α) :
    ParsesAs (json.marshalSlice enc xs) (json.sliceTree tree xs) (d + 1) := by
  intro st first hd
  have e5b : ((0x5B : Byte) : Nat) = 0x5B := rfl
  have hopen : (json.Scanner.await st first).next 0x5B
      = json.Scanner.await (.arrayValue [] :: st) true := by
    cases first <;>
      simp [json.Scanner.await, json.Scanner.next, json.Scanner.stateBeginValue, json.Scanner.pushParseState, json.isSpace,
        e5b] <;> omega
  cases xs with
  | none => exact ParsesAs_null st first (by omega)
  | some l =>
    cases l with
    | nil =>
      show (json.Scanner.await st first).run [0x5B, 0x5D] = _
      rw [run_cons, hopen, run_cons, run_nil]
      show json.Scanner.deliver _ _ = _
      exact deliver_congr _ _ _ rfl
    | cons x xs =>
      have e : json.marshalSlice enc (some (x :: xs))
          = 0x5B :: (enc x ++ (xs.flatMap (fun y => 0x2C :: enc y) ++ [0x5D])) := by
        simp [json.marshalSlice]
      rw [e]
      rw [run_cons, hopen, run_append,
        h x (.arrayValue [] :: st) true (by simp only [List.length_cons]; omega)]
      have h2 : (json.Scanner.after (.arrayValue [] :: st)).deliver (tree x)
          = json.Scanner.after (.arrayValue ([] ++ [tree x]) :: st) := rfl
      rw [h2, run_elements enc tree d h st (by omega) xs]
      rfl

theorem unescaped_key (k : GoString) (h : (k.all fun c => c.val != 0x22 && c.val != 0x5C
    && decide (0x20 ≤ c.val)) = true) : unescaped k := by
  intro c hc
  have := List.all_eq_true.mp h c hc
  simp only [Bool.and_eq_true, bne_iff_ne, ne_eq, decide_eq_true_eq] at this
  exact ⟨this.1.1, this.1.2, this.2⟩

theorem ParsesAs_button (b : InteractiveGlobalButtons) : ParsesAs (json.marshalButton b) (json.buttonTree b) 1 := by
  intro st first hd
  unfold json.marshalButton json.buttonTree
  simp only [List.append_assoc]
  rw [run_open_lit st first _ (lit "type") _ (by decide) hd (unescaped_key _ (by decide)) (by decide),
    run_value_lit _ _ 0 (ParsesAs_appendString _) _ _ _ _ (by omega),
    run_next_lit _ _ _ (lit "title") _ (by decide) (unescaped_key _ (by decide)) (by decide),
    run_value_lit _ _ 0 (ParsesAs_appendString _) _ _ _ _ (by omega),
    run_close_lit]
  rfl

theorem ParsesAs_option (o : InteractiveMessageOptions) :
    ParsesAs (json.marshalOption o) (json.optionTree o) 1 := by
  intro st first hd
  unfold json.marshalOption json.optionTree
  simp only [List.append_assoc]
  rw [run_open_lit st first _ (lit "type") _ (by decide) hd (unescaped_key _ (by decide)) (by decide),
    run_value_lit _ _ 0 (ParsesAs_appendString _) _ _ _ _ (by omega),
    run_next_lit _ _ _ (lit "title") _ (by decide) (unescaped_key _ (by decide)) (by decide),
    run_value_lit _ _ 0 (ParsesAs_appendString _) _ _ _ _ (by omega),
    run_next_lit _ _ _ (lit "description") _ (by decide) (unescaped_key _ (by decide)) (by decide),
    run_value_lit _ _ 0 (ParsesAs_appendString _) _ _ _ _ (by omega),
    run_next_lit _ _ _ (lit "postbackText") _ (by decide) (unescaped_key _ (by decide)) (by decide),
    run_value_lit _ _ 0 (ParsesAs_appendString _) _ _ _ _ (by omega),
    run_close_lit]
  rfl

theorem ParsesAs_item (i : InteractiveMessageItem) : ParsesAs (json.marshalItem i) (json.itemTree i) 3 := by
  intro st first hd
  unfold json.marshalItem json.itemTree
  simp only [List.append_assoc]
  rw [run_open_lit st first _ (lit "title") _ (by decide) (by omega) (unescaped_key _ (by decide))
      (by decide),
    run_value_lit _ _ 0 (ParsesAs_appendString _) _ _ _ _ (by omega),
    run_next_lit _ _ _ (lit "subtitle") _ (by decide) (unescaped_key _ (by decide)) (by decide),
    run_value_lit _ _ 0 (ParsesAs_appendString _) _ _ _ _ (by omega),
    run_next_lit _ _ _ (lit "options") _ (by decide) (unescaped_key _ (by decide)) (by decide),
    run_value_lit _ _ 2 (ParsesAs_slice json.marshalOption json.optionTree 1 ParsesAs_option _) _ _ _ _
      (by omega),
    run_close_lit]
  rfl

/-- What `json.Marshal` writes for an interactive message is read as the tree
of the message. -/
theorem ParsesAs_Marshal (m : InteractiveMessage) : ParsesAs (json.Marshal m) (json.messageTree m) 5 := by
  intro st first hd
  unfold json.Marshal json.messageTree
  simp only [List.append_assoc]
  rw [run_open_lit st first _ (lit "type") _ (by decide) (by omega) (unescaped_key _ (by decide))
      (by decide),
    run_value_lit _ _ 0 (ParsesAs_appendString _) _ _ _ _ (by omega),
    run_next_lit _ _ _ (lit "title") _ (by decide) (unescaped_key _ (by decide)) (by decide),
    run_value_lit _ _ 0 (ParsesAs_appendString _) _ _ _ _ (by omega),
    run_next_lit _ _ _ (lit "body") _ (by decide) (unescaped_key _ (by decide)) (by decide),
    run_value_lit _ _ 0 (ParsesAs_appendString _) _ _ _ _ (by omega),
    run_next_lit _ _ _ (lit "msgid") _ (by decide) (unescaped_key _ (by decide)) (by decide),
    run_value_lit _ _ 0 (ParsesAs_appendString _) _ _ _ _ (by omega),
    run_next_lit _ _ _ (lit "globalButtons") _ (by decide) (unescaped_key _ (by decide)) (by decide),
    run_value_lit _ _ 2 (ParsesAs_slice json.marshalButton json.buttonTree 1 ParsesAs_button _) _ _ _ _
      (by omega),
    run_next_lit _ _ _ (lit "items") _ (by decide) (unescaped_key _ (by decide)) (by decide),
    run_value_lit _ _ 4 (ParsesAs_slice json.marshalItem json.itemTree 3 ParsesAs_item _) _ _ _ _ (by omega),
    run_close_lit]
  rfl

theorem Unmarshal_Marshal (m : InteractiveMessage) : json.Unmarshal (json.Marshal m) = .ok (json.messageTree m) :=
  Unmarshal_of_ParsesAs _ _ 5 (ParsesAs_Marshal m) (by decide)

/-! ## The payloads as JSON -/

open json

/-- C5 (amended): for the six templated kinds, for every request whose
kind-specific string fields contain no double quote, no backslash and no control
byte and are well-formed UTF-8, the payload is valid JSON and its value is the
object with exactly the members that the specification gives: `type` and the
fields of the request under their names, in the order of the template. -/
theorem C5_templated_payload (r : AnyRequest) (v : JVal) (hv : r.specPayload = some v)
    (h : ∀ f ∈ r.fields, unescaped f ∧ utf8.Valid f = true) :
    Unmarshal r.message = .ok v := by
  cases r with
  | text request =>
    simp only [AnyRequest.specPayload, Option.some.injEq] at hv
    simp only [AnyRequest.fields, List.mem_cons, List.mem_singleton, List.not_mem_nil, or_false,
      forall_eq_or_imp, forall_eq] at h
    rw [← hv]
    have := Unmarshal_of_ParsesAs _ _ 1 (ParsesAs_TextRequest request h.1) (by decide)
    rw [coerce_of_Valid _ h.2] at this
    exact this
  | image request =>
    simp only [AnyRequest.specPayload, Option.some.injEq] at hv
    simp only [AnyRequest.fields, List.mem_cons, List.mem_singleton, List.not_mem_nil, or_false,
      forall_eq_or_imp, forall_eq] at h
    rw [← hv]
    have := Unmarshal_of_ParsesAs _ _ 1 (ParsesAs_ImageRequest request h.1.1 h.2.1.1 h.2.2.1)
      (by decide)
    rw [coerce_of_Valid _ h.1.2, coerce_of_Valid _ h.2.1.2, coerce_of_Valid _ h.2.2.2] at this
    exact this
  | document request =>
    simp only [AnyRequest.specPayload, Option.some.injEq] at hv
    simp only [AnyRequest.fields, List.mem_cons, List.mem_singleton, List.not_mem_nil, or_false,
      forall_eq_or_imp, forall_eq] at h
    rw [← hv]
    have := Unmarshal_of_ParsesAs _ _ 1 (ParsesAs_DocumentRequest request h.1.1 h.2.1) (by decide)
    rw [coerce_of_Valid _ h.1.2, coerce_of_Valid _ h.2.2] at this
    exact this
  | audio request =>
    simp only [AnyRequest.specPayload, Option.some.injEq] at hv
    simp only [AnyRequest.fields, List.mem_cons, List.mem_singleton, List.not_mem_nil, or_false,
      forall_eq_or_imp, forall_eq] at h
    rw [← hv]
    have := Unmarshal_of_ParsesAs _ _ 1 (ParsesAs_AudioRequest request h.1) (by decide)
    rw [coerce_of_Valid _ h.2] at this
    exact this
  | video request =>
    simp only [AnyRequest.specPayload, Option.some.injEq] at hv
    simp only [AnyRequest.fields, List.mem_cons, List.mem_singleton, List.not_mem_nil, or_false,
      forall_eq_or_imp, forall_eq] at h
    rw [← hv]
    have := Unmarshal_of_ParsesAs _ _ 1 (ParsesAs_VideoRequest request h.1.1 h.2.1) (by decide)
    rw [coerce_of_Valid _ h.1.2, coerce_of_Valid _ h.2.2] at this
    exact this
  | sticker request =>
    simp only [AnyRequest.specPayload, Option.some.injEq] at hv
    simp only [AnyRequest.fields, List.mem_cons, List.mem_singleton, List.not_mem_nil, or_false,
      forall_eq_or_imp, forall_eq] at h
    rw [← hv]
    have := Unmarshal_of_ParsesAs _ _ 1 (ParsesAs_StickerRequest request h.1) (by decide)
    rw [coerce_of_Valid _ h.2] at this
    exact this
  | interactive request => simp [AnyRequest.specPayload] at hv

theorem C5_templated_payload_witness :
    Unmarshal (AnyRequest.message (.text textRequest)) =
      .ok (.obj [(lit "type", .str (lit "text")), (lit "text", .str (lit "lorem"))]) :=
  C5_templated_payload (.text textRequest)
    (.obj [(lit "type", .str (lit "text")), (lit "text", .str (lit "lorem"))]) rfl
    (by
      intro f hf
      simp only [AnyRequest.fields, List.mem_singleton] at hf
      subst hf
      exact ⟨unescaped_key _ (by decide), by decide⟩)

/-- C5 (as stated) fails: the text `caf\xe9` holds no double quote, no backslash
and no control byte, yet the `text` member of the payload is not the text: the
JSON decoder reads the ill-formed byte 0xE9 as U+FFFD. -/
theorem C5_counterexample :
    unescaped latin1Request.Text
      ∧ Unmarshal (AnyRequest.message (.text latin1Request)) =
        .ok (.obj [(lit "type", .str (lit "text")), (lit "text", .str (lit "caf" ++ [0xEF, 0xBF, 0xBD]))])
      ∧ Unmarshal (AnyRequest.message (.text latin1Request)) ≠
        .ok (.obj [(lit "type", .str (lit "text")), (lit "text", .str latin1Request.Text)]) := by
  have h : Unmarshal (AnyRequest.message (.text latin1Request)) =
      .ok (.obj [(lit "type", .str (lit "text")), (lit "text", .str (lit "caf" ++ [0xEF, 0xBF, 0xBD]))]) :=
    rfl
  refine ⟨unescaped_key _ (by decide), h, ?_⟩
  rw [h]
  intro e
  simp only [Except.ok.injEq, JVal.obj.injEq, List.cons.injEq, Prod.mk.injEq, JVal.str.injEq,
    true_and, and_true] at e
  exact absurd e (by decide)


theorem InteractiveMessageRequest_message_eq (request : InteractiveMessageRequest) :
    request.message = Marshal request.InteractiveMessage := by
  show Marshal request.InteractiveMessage ++ [] = _
  rw [List.append_nil]

theorem memberOfText_of_ParsesAs (text : GoString) (ms : List (GoString × JVal)) (d : Nat)
    (h : ParsesAs text (.obj ms) d) (hd : d ≤ maxNestingDepth) (key : GoString) :
    memberOfText text key = ms.reverse.lookup key := by
  unfold memberOfText
  rw [Unmarshal_of_ParsesAs text _ d h hd]
  rfl

/-- C6 (amended): for every request of a templated kind whose kind-specific
string fields contain no double quote, no backslash and no control byte, and
for every interactive request whose message has `Type` `list` (as
`NewInteractiveMessage` sets it), the payload is valid JSON and its member
`type` is the discriminator of the kind. -/
theorem C6_type_discriminator (r : AnyRequest)
    (h : match r with
      | .interactive request => request.InteractiveMessage.Type_ = lit "list"
      | _ => ∀ f ∈ r.fields, unescaped f) :
    memberOfText r.message (lit "type") = some (.str r.discriminator) := by
  cases r with
  | text request =>
    simp only [AnyRequest.fields, List.mem_cons, List.mem_singleton, List.not_mem_nil, or_false,
      forall_eq_or_imp, forall_eq] at h
    exact memberOfText_of_ParsesAs _ _ 1 (ParsesAs_TextRequest request h) (by decide) _
  | image request =>
    simp only [AnyRequest.fields, List.mem_cons, List.mem_singleton, List.not_mem_nil, or_false,
      forall_eq_or_imp, forall_eq] at h
    exact memberOfText_of_ParsesAs _ _ 1 (ParsesAs_ImageRequest request h.1 h.2.1 h.2.2) (by decide) _
  | document request =>
    simp only [AnyRequest.fields, List.mem_cons, List.mem_singleton, List.not_mem_nil, or_false,
      forall_eq_or_imp, forall_eq] at h
    exact memberOfText_of_ParsesAs _ _ 1 (ParsesAs_DocumentRequest request h.1 h.2) (by decide) _
  | audio request =>
    simp only [AnyRequest.fields, List.mem_cons, List.mem_singleton, List.not_mem_nil, or_false,
      forall_eq_or_imp, forall_eq] at h
    exact memberOfText_of_ParsesAs _ _ 1 (ParsesAs_AudioRequest request h) (by decide) _
  | video request =>
    simp only [AnyRequest.fields, List.mem_cons, List.mem_singleton, List.not_mem_nil, or_false,
      forall_eq_or_imp, forall_eq] at h
    exact memberOfText_of_ParsesAs _ _ 1 (ParsesAs_VideoRequest request h.1 h.2) (by decide) _
  | sticker request =>
    simp only [AnyRequest.fields, List.mem_cons, List.mem_singleton, List.not_mem_nil, or_false,
      forall_eq_or_imp, forall_eq] at h
    exact memberOfText_of_ParsesAs _ _ 1 (ParsesAs_StickerRequest request h) (by decide) _
  | interactive request =>
    simp only at h
    show memberOfText request.message (lit "type") = _
    rw [InteractiveMessageRequest_message_eq,
      memberOfText_of_ParsesAs _ _ 5 (ParsesAs_Marshal request.InteractiveMessage) (by decide), h]
    rfl

theorem C6_type_discriminator_witness :
    memberOfText (AnyRequest.message (.interactive interactiveMessageRequest)) (lit "type")
      = some (.str (lit "list")) :=
  C6_type_discriminator (.interactive interactiveMessageRequest) rfl

/-- C6 (as stated) fails: an interactive request whose message is written as a
struct literal with `Type` `button` has the member `type` `button`, not `list`;
and the payload of a text request whose text is a double quote is not valid
JSON at all. -/
theorem C6_counterexample :
    memberOfText (AnyRequest.message (.interactive buttonRequest)) (lit "type")
        = some (.str (lit "button"))
      ∧ memberOfText (AnyRequest.message (.interactive buttonRequest)) (lit "type")
        ≠ some (.str (AnyRequest.discriminator (.interactive buttonRequest)))
      ∧ Unmarshal (AnyRequest.message (.text quoteRequest)) = .error .SyntaxError := by
  have h : memberOfText (AnyRequest.message (.interactive buttonRequest)) (lit "type")
      = some (.str (lit "button")) := rfl
  refine ⟨h, ?_, rfl⟩
  rw [h]
  intro e
  simp only [Option.some.injEq, JVal.str.injEq] at e
  exact absurd e (by decide)

theorem sliceTree_map {α β : Type} (f : β → α) (tree : α → JVal) (tree' : β → JVal) (l : List β)
    (h : ∀ x ∈ l, tree (f x) = tree' x) :
    sliceTree tree (some (l.map f)) = .arr (l.map tree') := by
  unfold sliceTree
  simp only [List.map_map]
  congr 1
  exact List.map_congr_left h

/-- C8 (amended): for every list of sections built with
`NewInteractiveMessageItem`, each from a list of options built with
`NewInteractiveMessageOption`, and every list of buttons built with `NewButton`,
the lists being slices that are not `nil` and the strings well-formed UTF-8, the
message built by `NewInteractiveMessage`, written as JSON, has `type` `list`, the
sections in the order of the list, in each section its options in the order of
its list, `type` `text` on every button and every option, and `title`, `body`,
`msgid`, `subtitle`, `description` and `postbackText` as the caller gave them. -/
theorem C8_interactive_structure (body title messageId : GoString) (buttons : List GoString)
    (sections : List (GoString × GoString × List (GoString × GoString × GoString)))
    (hbody : utf8.Valid body = true) (htitle : utf8.Valid title = true)
    (hid : utf8.Valid messageId = true) (hbuttons : ∀ t ∈ buttons, utf8.Valid t = true)
    (hsections : ∀ s ∈ sections, utf8.Valid s.1 = true ∧ utf8.Valid s.2.1 = true
      ∧ ∀ o ∈ s.2.2, utf8.Valid o.1 = true ∧ utf8.Valid o.2.1 = true ∧ utf8.Valid o.2.2 = true) :
    Unmarshal (Marshal (NewInteractiveMessage body title messageId
        (some (buttons.map NewButton))
        (some (sections.map fun s => NewInteractiveMessageItem s.1 s.2.1
          (some (s.2.2.map fun o => NewInteractiveMessageOption o.1 o.2.1 o.2.2)))))) =
      .ok (.obj [(lit "type", .str (lit "list")), (lit "title", .str title),
        (lit "body", .str body), (lit "msgid", .str messageId),
        (lit "globalButtons", .arr (buttons.map fun t =>
          .obj [(lit "type", .str (lit "text")), (lit "title", .str t)])),
        (lit "items", .arr (sections.map fun s =>
          .obj [(lit "title", .str s.1), (lit "subtitle", .str s.2.1),
            (lit "options", .arr (s.2.2.map fun o =>
              .obj [(lit "type", .str (lit "text")), (lit "title", .str o.1),
                (lit "description", .str o.2.1), (lit "postbackText", .str o.2.2)]))]))]) := by
  rw [Unmarshal_Marshal]
  have ctext : coerce (lit "text") = lit "text" := by decide
  have clist : coerce (lit "list") = lit "list" := by decide
  have hb : sliceTree buttonTree (some (buttons.map NewButton))
      = .arr (buttons.map fun t => .obj [(lit "type", .str (lit "text")), (lit "title", .str t)]) := by
    apply sliceTree_map
    intro t ht
    simp only [buttonTree, NewButton, ctext, coerce_of_Valid t (hbuttons t ht)]
  have ho : ∀ s ∈ sections, sliceTree optionTree
        (some (s.2.2.map fun o => NewInteractiveMessageOption o.1 o.2.1 o.2.2))
      = .arr (s.2.2.map fun o =>
          .obj [(lit "type", .str (lit "text")), (lit "title", .str o.1),
            (lit "description", .str o.2.1), (lit "postbackText", .str o.2.2)]) := by
    intro s hs
    apply sliceTree_map
    intro o ho
    obtain ⟨v1, v2, v3⟩ := (hsections s hs).2.2 o ho
    simp only [optionTree, NewInteractiveMessageOption, ctext, coerce_of_Valid _ v1,
      coerce_of_Valid _ v2, coerce_of_Valid _ v3]
  have hi : sliceTree itemTree (some (sections.map fun s => NewInteractiveMessageItem s.1 s.2.1
        (some (s.2.2.map fun o => NewInteractiveMessageOption o.1 o.2.1 o.2.2))))
      = .arr (sections.map fun s =>
          .obj [(lit "title", .str s.1), (lit "subtitle", .str s.2.1),
            (lit "options", .arr (s.2.2.map fun o =>
              .obj [(lit "type", .str (lit "text")), (lit "title", .str o.1),
                (lit "description", .str o.2.1), (lit "postbackText", .str o.2.2)]))]) := by
    apply sliceTree_map
    intro s hs
    simp only [itemTree, NewInteractiveMessageItem, ho s hs, coerce_of_Valid _ (hsections s hs).1,
      coerce_of_Valid _ (hsections s hs).2.1]
  simp only [messageTree, NewInteractiveMessage, hb, hi, clist, coerce_of_Valid _ hbody,
    coerce_of_Valid _ htitle, coerce_of_Valid _ hid]

theorem C8_interactive_structure_witness :
    Unmarshal (Marshal (NewInteractiveMessage (lit "Body") (lit "Title") (lit "123456")
        (some ([lit "Button"].map NewButton))
        (some ([(lit "first section", lit "first section subtitle",
            [(lit "1st option", lit "1st option description", lit "1"),
             (lit "2nd option", lit "2nd option description", lit "2")])].map
          fun s => NewInteractiveMessageItem s.1 s.2.1
            (some (s.2.2.map fun o => NewInteractiveMessageOption o.1 o.2.1 o.2.2)))))) =
      .ok (.obj [(lit "type", .str (lit "list")), (lit "title", .str (lit "Title")),
        (lit "body", .str (lit "Body")), (lit "msgid", .str (lit "123456")),
        (lit "globalButtons", .arr ([lit "Button"].map fun t =>
          .obj [(lit "type", .str (lit "text")), (lit "title", .str t)])),
        (lit "items", .arr ([(lit "first section", lit "first section subtitle",
            [(lit "1st option", lit "1st option description", lit "1"),
             (lit "2nd option", lit "2nd option description", lit "2")])].map fun s =>
          .obj [(lit "title", .str s.1), (lit "subtitle", .str s.2.1),
            (lit "options", .arr (s.2.2.map fun o =>
              .obj [(lit "type", .str (lit "text")), (lit "title", .str o.1),
                (lit "description", .str o.2.1), (lit "postbackText", .str o.2.2)]))]))]) :=
  C8_interactive_structure (lit "Body") (lit "Title") (lit "123456") [lit "Button"]
    [(lit "first section", lit "first section subtitle",
      [(lit "1st option", lit "1st option description", lit "1"),
       (lit "2nd option", lit "2nd option description", lit "2")])]
    (by decide) (by decide) (by decide) (by decide) (by decide)

/-- C8 (as stated) fails: with no sections and no buttons, passed as `nil`
slices, the message has `null` for `items` and for `globalButtons`, no array;
and a title that is no well-formed UTF-8 does not come back as the caller gave
it. -/
theorem C8_counterexample :
    memberOfText (Marshal nilMessage) (lit "items") = some .null
      ∧ memberOfText (Marshal nilMessage) (lit "globalButtons") = some .null
      ∧ latin1Message.Title = [0xE9]
      ∧ memberOfText (Marshal latin1Message) (lit "title") = some (.str [0xEF, 0xBF, 0xBD]) :=
  ⟨rfl, rfl, rfl, rfl⟩

/-! ## Text payloads that are not valid JSON -/

theorem outer_error : Step.outer .error := by simp [Step.outer]

theorem next_error (s : Scanner) (c : Byte) (h : s.step = .error) : s.next c = s := by
  unfold Scanner.next
  rw [h]

theorem run_error (t : GoString) : ∀ s : Scanner, s.step = .error → (s.run t).step = .error := by
  induction t with
  | nil => intro s h; exact h
  | cons c t ih =>
    intro s h
    rw [run_cons, next_error s c h]
    exact ih s h

theorem deliver_step (s : Scanner) (v : JVal) :
    (s.deliver v).step = .endTop ∨ (s.deliver v).step = .endValue ∨ (s.deliver v).step = .error := by
  unfold Scanner.deliver
  split
  · exact Or.inl rfl
  · split
    · exact Or.inr (Or.inl rfl)
    · exact Or.inr (Or.inr rfl)
  · exact Or.inr (Or.inl rfl)
  · exact Or.inr (Or.inl rfl)
  · exact Or.inr (Or.inr rfl)

theorem deliver_outer (s : Scanner) (v : JVal) : (s.deliver v).step.outer := by
  rcases deliver_step s v with h | h | h <;> rw [h] <;> simp [Step.outer]

theorem stateEndTop_outer (s : Scanner) (c : Byte) (h : s.step.outer) :
    (s.stateEndTop c).step.outer := by
  unfold Scanner.stateEndTop
  split
  · exact h
  · exact outer_error

theorem stateEndValue_outer (s : Scanner) (c : Byte) (h : s.step.outer) :
    (s.stateEndValue c).step.outer := by
  unfold Scanner.stateEndValue
  split
  · exact stateEndTop_outer s c h
  · split
    · simp [Step.outer]
    · split
      · split
        · simp [Step.outer]
        · exact outer_error
      · split
        · simp [Step.outer]
        · split
          · exact deliver_outer _ _
          · exact outer_error
      · split
        · simp [Step.outer]
        · split
          · exact deliver_outer _ _
          · exact outer_error
      · exact outer_error

theorem stateEndValue_quote (s : Scanner) : (s.stateEndValue 0x22).step = .error := by
  unfold Scanner.stateEndValue
  split
  · rfl
  · rw [if_neg (by decide)]
    split <;> rfl

theorem pushParseState_step (s : Scanner) (f : Frame) (st : Step) :
    (s.pushParseState f st).step = st ∨ (s.pushParseState f st).step = .error := by
  unfold Scanner.pushParseState
  split
  · exact Or.inl rfl
  · exact Or.inr rfl

theorem stateBeginValue_outer (s : Scanner) (c : Byte) (hc : c.val ≠ 0x22) (h : s.step.outer) :
    (s.stateBeginValue c).step.outer := by
  have e : (c.val == 0x22) = false := by simpa using hc
  unfold Scanner.stateBeginValue
  split
  · exact h
  · split
    · rcases pushParseState_step s (.objectKey []) .beginStringOrEmpty with h | h <;> rw [h] <;>
        simp [Step.outer]
    · split
      · rcases pushParseState_step s (.arrayValue []) .beginValueOrEmpty with h | h <;> rw [h] <;>
          simp [Step.outer]
      · rw [e]
        simp only [Bool.false_eq_true, if_false]
        repeat' split
        all_goals simp [Step.outer, Scanner.error]

theorem stateBeginValue_quote (s : Scanner) : (s.stateBeginValue 0x22).step = .inString := rfl

theorem stateBeginString_outer (s : Scanner) (c : Byte) (hc : c.val ≠ 0x22) (h : s.step.outer) :
    (s.stateBeginString c).step.outer := by
  have e : (c.val == 0x22) = false := by simpa using hc
  unfold Scanner.stateBeginString
  split
  · exact h
  · rw [e]
    exact outer_error

theorem stateBeginString_quote (s : Scanner) : (s.stateBeginString 0x22).step = .inString := rfl

theorem next_outer (s : Scanner) (c : Byte) (hc : c.val ≠ 0x22) (h : s.step.outer) :
    (s.next c).step.outer := by
  have e : (c.val == 0x22) = false := by simpa using hc
  obtain ⟨step, st, tok, val⟩ := s
  have hv := stateEndValue_outer
  have hb := stateBeginValue_outer
  have hs := stateBeginString_outer
  have ht := stateEndTop_outer
  have hd := deliver_outer
  cases step
  case inString => exact absurd rfl h.1
  case inStringEsc => exact absurd rfl h.2.1
  case inStringEscU => exact absurd rfl h.2.2.1
  case inStringEscU1 => exact absurd rfl h.2.2.2.1
  case inStringEscU12 => exact absurd rfl h.2.2.2.2.1
  case inStringEscU123 => exact absurd rfl h.2.2.2.2.2
  all_goals simp only [Scanner.next, Scanner.endNumber, Scanner.stateESign, Scanner.popParseState]
  all_goals repeat' split
  all_goals first
    | exact h
    | exact outer_error
    | exact hd _ _
    | exact ht _ c h
    | exact hv _ c h
    | exact hv _ c (hd _ _)
    | exact hb _ c hc h
    | exact hs _ c hc h
    | simp [Step.outer, Scanner.shift, Scanner.error]

theorem next_quote_outer (s : Scanner) (h : s.step.outer) :
    (s.next 0x22).step = .inString ∨ (s.next 0x22).step = .error := by
  obtain ⟨step, st, tok, val⟩ := s
  cases step
  case inString => exact absurd rfl h.1
  case inStringEsc => exact absurd rfl h.2.1
  case inStringEscU => exact absurd rfl h.2.2.1
  case inStringEscU1 => exact absurd rfl h.2.2.2.1
  case inStringEscU12 => exact absurd rfl h.2.2.2.2.1
  case inStringEscU123 => exact absurd rfl h.2.2.2.2.2
  all_goals first
    | exact Or.inl rfl
    | exact Or.inr rfl
    | exact Or.inr (stateEndValue_quote _)

theorem next_inString (s : Scanner) (c : Byte) (h : s.step = .inString ∨ s.step = .error)
    (h1 : c.val ≠ 0x22) (h2 : c.val ≠ 0x5C) :
    (s.next c).step = .inString ∨ (s.next c).step = .error := by
  rcases h with h | h
  · have e1 : (c.val == 0x22) = false := by simpa using h1
    have e2 : (c.val == 0x5C) = false := by simpa using h2
    unfold Scanner.next
    rw [h]
    simp only [e1, e2, Bool.false_eq_true, if_false]
    split
    · exact Or.inr rfl
    · exact Or.inl rfl
  · rw [next_error s c h]
    exact Or.inr h

theorem next_inString_quote (s : Scanner) (h : s.step = .inString ∨ s.step = .error) :
    (s.next 0x22).step.outer := by
  rcases h with h | h
  · unfold Scanner.next
    rw [h]
    simp only []
    rw [if_pos (by decide)]
    split
    · exact deliver_outer _ _
    · exact outer_error
  · rw [next_error s _ h, h]
    exact outer_error

theorem next_inString_control (s : Scanner) (c : Byte) (h : s.step = .inString ∨ s.step = .error)
    (hc : c.val < 0x20) : (s.next c).step = .error := by
  rcases h with h | h
  · have e1 : (c.val == 0x22) = false := by
      simp only [beq_eq_false_iff_ne, ne_eq]
      omega
    have e2 : (c.val == 0x5C) = false := by
      simp only [beq_eq_false_iff_ne, ne_eq]
      omega
    unfold Scanner.next
    rw [h]
    simp only [e1, e2, Bool.false_eq_true, if_false, hc, if_true]
    rfl
  · rw [next_error s c h]
    exact h

theorem side_error (b : Bool) : Step.side b .error := by
  cases b
  · exact outer_error
  · exact Or.inr rfl

theorem next_side (s : Scanner) (c : Byte) (b : Bool) (hc : c.val ≠ 0x5C) (h : Step.side b s.step) :
    Step.side (if c.val = 0x22 then !b else b) (s.next c).step := by
  by_cases hq : c.val = 0x22
  · have ec : c = 0x22 := Fin.ext hq
    subst ec
    rw [if_pos hq]
    cases b
    · exact next_quote_outer s h
    · exact next_inString_quote s h
  · rw [if_neg hq]
    cases b
    · exact next_outer s c hq h
    · exact next_inString s c h hq hc

theorem quotes_cons (c : Byte) (t : GoString) :
    quotes (c :: t) = (if c.val = 0x22 then 1 else 0) + quotes t := by
  unfold quotes
  rw [List.filter_cons]
  by_cases hq : c.val = 0x22
  · have e : (c.val == 0x22) = true := by simpa using hq
    simp only [e, if_true, List.length_cons]
    rw [if_pos hq]
    omega
  · have e : (c.val == 0x22) = false := by simpa using hq
    simp only [e, Bool.false_eq_true, if_false]
    rw [if_neg hq]
    omega

theorem run_side (text : GoString) (hb : ∀ c ∈ text, c.val ≠ 0x5C) :
    ∀ (s : Scanner) (b : Bool), Step.side b s.step →
      Step.side (if quotes text % 2 = 1 then !b else b) (s.run text).step := by
  induction text with
  | nil =>
    intro s b h
    exact h
  | cons c t ih =>
    intro s b h
    rw [run_cons]
    have h1 := next_side s c b (hb c (List.mem_cons_self _ _)) h
    have h2 := ih (fun x hx => hb x (List.mem_cons_of_mem _ hx)) (s.next c) _ h1
    rw [quotes_cons]
    by_cases hq : c.val = 0x22
    · rw [if_pos hq] at h2 ⊢
      by_cases hp : quotes t % 2 = 1
      · rw [if_pos hp] at h2
        rw [if_neg (by omega)]
        simpa using h2
      · rw [if_neg hp] at h2
        rw [if_pos (by omega)]
        exact h2
    · rw [if_neg hq] at h2 ⊢
      by_cases hp : quotes t % 2 = 1
      · rw [if_pos hp] at h2
        rw [if_pos (by omega)]
        exact h2
      · rw [if_neg hp] at h2
        rw [if_neg (by omega)]
        exact h2

theorem run_inString (p : GoString) (hp : ∀ c ∈ p, c.val ≠ 0x22 ∧ c.val ≠ 0x5C) :
    ∀ s : Scanner, s.step = .inString ∨ s.step = .error →
      (s.run p).step = .inString ∨ (s.run p).step = .error := by
  induction p with
  | nil =>
    intro s h
    exact h
  | cons c p ih =>
    intro s h
    rw [run_cons]
    have hc := hp c (List.mem_cons_self _ _)
    exact ih (fun x hx => hp x (List.mem_cons_of_mem _ hx)) _ (next_inString s c h hc.1 hc.2)

theorem next_backslash (s : Scanner) (h : s.step = .inString ∨ s.step = .error) :
    (s.next 0x5C).step = .inStringEsc ∨ (s.next 0x5C).step = .error := by
  rcases h with h | h
  · unfold Scanner.next
    rw [h]
    exact Or.inl rfl
  · rw [next_error s _ h]
    exact Or.inr h

theorem next_esc_quote (s : Scanner) (h : s.step = .inStringEsc ∨ s.step = .error) :
    (s.next 0x22).step = .inString ∨ (s.next 0x22).step = .error := by
  rcases h with h | h
  · unfold Scanner.next
    rw [h]
    exact Or.inl rfl
  · rw [next_error s _ h]
    exact Or.inr h

theorem next_esc_other (s : Scanner) (e : Byte) (h : s.step = .inStringEsc ∨ s.step = .error)
    (he : e.val ∉ [0x22, 0x5C, 0x2F, 0x62, 0x66, 0x6E, 0x72, 0x74, 0x75]) :
    (s.next e).step = .error := by
  rcases h with h | h
  · simp only [List.mem_cons, List.mem_singleton, not_or, List.not_mem_nil, or_false] at he
    obtain ⟨h1, h2, h3, h4, h5, h6, h7, h8, h9⟩ := he
    have e1 : (e.val == 0x22) = false := by simpa using h1
    have e2 : (e.val == 0x5C) = false := by simpa using h2
    have e3 : (e.val == 0x2F) = false := by simpa using h3
    have e4 : (e.val == 0x62) = false := by simpa using h4
    have e5 : (e.val == 0x66) = false := by simpa using h5
    have e6 : (e.val == 0x6E) = false := by simpa using h6
    have e7 : (e.val == 0x72) = false := by simpa using h7
    have e8 : (e.val == 0x74) = false := by simpa using h8
    have e9 : (e.val == 0x75) = false := by simpa using h9
    unfold Scanner.next
    rw [h]
    simp only [e1, e2, e3, e4, e5, e6, e7, e8, e9, Bool.or_self, Bool.false_eq_true, if_false]
    rfl
  · rw [next_error s e h]
    exact h

theorem run_space_error (t : GoString) (s : Scanner) (h : s.step = .error) :
    ((s.run t).next 0x20).step = .error := by
  rw [next_error _ _ (run_error t s h)]
  exact run_error t s h

theorem run_close_inString (s : Scanner) (h : s.step = .inString ∨ s.step = .error) :
    ((s.run (lit "\n\t\t\x7d")).next 0x20).step = .error := by
  have e : lit "\n\t\t\x7d" = 0x0A :: lit "\t\t\x7d" := rfl
  rw [e, run_cons]
  exact run_space_error _ _ (next_inString_control s 0x0A h (by decide))

theorem run_close_outer (s : Scanner) (h : s.step.outer) :
    ((s.run (lit "\"\n\t\t\x7d")).next 0x20).step = .error := by
  have e : lit "\"\n\t\t\x7d" = 0x22 :: lit "\n\t\t\x7d" := rfl
  rw [e, run_cons]
  exact run_close_inString _ (next_quote_outer s h)

theorem run_text_odd (text : GoString) (s : Scanner) (h : s.step = .inString)
    (hb : ∀ c ∈ text, c.val ≠ 0x5C) (hq : quotes text % 2 = 1) :
    ((s.run (text ++ lit "\"\n\t\t\x7d")).next 0x20).step = .error := by
  rw [run_append]
  have h1 := run_side text hb s true (Or.inl h)
  rw [if_pos hq] at h1
  exact run_close_outer _ h1

theorem run_text_escape (p q : GoString) (s : Scanner) (h : s.step = .inString)
    (hp : ∀ c ∈ p, c.val ≠ 0x22 ∧ c.val ≠ 0x5C)
    (hq : ∀ e ∈ q.head?, e.val ∉ [0x22, 0x5C, 0x2F, 0x62, 0x66, 0x6E, 0x72, 0x74, 0x75]) :
    ((s.run ((p ++ 0x5C :: q) ++ lit "\"\n\t\t\x7d")).next 0x20).step = .error := by
  rw [List.append_assoc, run_append, List.cons_append, run_cons]
  have h1 := next_backslash _ (run_inString p hp s (Or.inl h))
  cases q with
  | nil =>
    have e : ([] : GoString) ++ lit "\"\n\t\t\x7d" = 0x22 :: lit "\n\t\t\x7d" := rfl
    rw [e, run_cons]
    exact run_close_inString _ (next_esc_quote _ h1)
  | cons e q =>
    rw [List.cons_append, run_cons]
    exact run_space_error _ _ (next_esc_other _ e h1 (hq e rfl))

theorem textMessage_eq (request : TextRequest) :
    request.message =
      lit "\x7b\n\t\t\t\"type\": \"text\",\n\t\t\t\"text\": \"" ++ (request.Text ++ lit "\"\n\t\t\x7d") :=
  rfl

theorem run_text_open :
    (Scanner.reset.run (lit "\x7b\n\t\t\t\"type\": \"text\",\n\t\t\t\"text\": \"")).step = .inString :=
  rfl

theorem Valid_of_error (data : GoString)
    (h : ((Scanner.reset.run data).next 0x20).step = .error) : json.Valid data = false := by
  unfold json.Valid
  rw [h]
  rfl

/-- C11 (as stated) fails: a `Text` of two backslashes gives a payload that is
valid JSON, with the member `text` one backslash; and a `Text` with double
quotes that closes the member `text` and opens a member `x` gives valid JSON
too. -/
theorem C11_counterexample :
    (0x5C : Byte) ∈ backslashRequest.Text
      ∧ json.Valid backslashRequest.message = true
      ∧ Unmarshal backslashRequest.message =
        .ok (.obj [(lit "type", .str (lit "text")), (lit "text", .str [0x5C])])
      ∧ (0x22 : Byte) ∈ memberRequest.Text
      ∧ json.Valid memberRequest.message = true
      ∧ Unmarshal memberRequest.message =
        .ok (.obj [(lit "type", .str (lit "text")), (lit "text", .str (lit "a")),
          (lit "x", .str (lit "b"))]) :=
  ⟨by decide, by decide, rfl, by decide, by decide, rfl⟩

/-! ## The status code of the response -/

/-- C12: for every send operation, when the builder succeeds and the sender
returns a response without error, the returned `Response` and error are those
of any other call whose response has the same body, whatever the status codes
of the two responses, the clients and the requests; and a response whose body
is `{"status":"submitted","messageId":"1234-56789"}` yields
`Response{"submitted", "1234-56789"}` and a nil error under every status code. -/
theorem C12_status_code_ignored (g g' : client) (r r' : AnyRequest) (req req' : http.Request)
    (resp resp' : http.Response)
    (hb : g.httpBuilder (lit "POST") MessageUrl (r.form g).Encode = .ok req)
    (hs : g.httpClient (g.stamped req) = .ok resp)
    (hb' : g'.httpBuilder (lit "POST") MessageUrl (r'.form g').Encode = .ok req')
    (hs' : g'.httpClient (g'.stamped req') = .ok resp')
    (hbody : resp'.Body = resp.Body) :
    ((g'.Send r').response = (g.Send r).response ∧ (g'.Send r').err = (g.Send r).err)
      ∧ (resp.Body = submittedBody →
        (g.Send r).response = ⟨lit "submitted", lit "1234-56789"⟩ ∧ (g.Send r).err = none) := by
  rw [Send_of_response g r req resp hb hs, Send_of_response g' r' req' resp' hb' hs', hbody]
  refine ⟨⟨rfl, rfl⟩, fun h => ?_⟩
  rw [h, Decode_submittedBody]
  exact ⟨rfl, rfl⟩

theorem C12_status_code_ignored_witness :
    (((gcStatus 500).Send (.image ⟨[], [], [], [], []⟩)).response = (gc.Send (.text textRequest)).response
        ∧ ((gcStatus 500).Send (.image ⟨[], [], [], [], []⟩)).err = (gc.Send (.text textRequest)).err)
      ∧ ((⟨200, submittedBody⟩ : http.Response).Body = submittedBody →
        (gc.Send (.text textRequest)).response = ⟨lit "submitted", lit "1234-56789"⟩
          ∧ (gc.Send (.text textRequest)).err = none) :=
  C12_status_code_ignored gc (gcStatus 500) (.text textRequest) (.image ⟨[], [], [], [], []⟩)
    { Method := lit "POST", URL := MessageUrl, Body := (AnyRequest.form gc (.text textRequest)).Encode,
      Header := [] }
    { Method := lit "POST", URL := MessageUrl,
      Body := (AnyRequest.form (gcStatus 500) (.image ⟨[], [], [], [], []⟩)).Encode, Header := [] }
    { StatusCode := 200, Body := submittedBody } { StatusCode := 500, Body := submittedBody }
    rfl rfl rfl rfl rfl

/-! ## The two packages -/

theorem Client_Send_eq (vars : gupshup.Globals) (g : gupshup.Client) (r : AnyRequest) :
    gupshup.Client.Send vars g r =
      client.Send ⟨g.ApiKey, g.AppName, vars.HttpClient, vars.Http⟩ r := by
  cases r <;> rfl

/-- C13: for every message kind, request, API key, app name, builder and
sender, the method of the sub-package `Client`, with the package variables
`Http` and `HttpClient` set to the builder and the sender, and the method of the
root-package `client` that holds the same builder and sender in its fields make
the same calls of the transport (the same method, URL and body to the builder,
the same request with the same headers to the sender) and return the same
`Response` and error; so do the `Client` under the variables as `init` sets them
and the client that `NewClient` returns. -/
theorem C13_packages_agree (r : AnyRequest) (apiKey appName : GoString) (builder : httpBuilder)
    (sender : httpClient) :
    gupshup.Client.Send ⟨sender, builder⟩ ⟨apiKey, appName⟩ r =
        client.Send ⟨apiKey, appName, sender, builder⟩ r
      ∧ gupshup.Client.Send (gupshup.init sender builder) ⟨apiKey, appName⟩ r =
        (NewClient sender builder apiKey appName).Send r :=
  ⟨Client_Send_eq ⟨sender, builder⟩ ⟨apiKey, appName⟩ r,
    Client_Send_eq (gupshup.init sender builder) ⟨apiKey, appName⟩ r⟩

/-! ## What a nil error says of the response -/

theorem stringsOf_cons (f : ResponseField) (m : GoString × JVal) (ms : List (GoString × JVal)) :
    stringsOf f (m :: ms) =
      (if fieldOf m.1 = some f then
        match m.2 with
        | .str s => [s]
        | _ => []
      else []) ++ stringsOf f ms := by
  unfold stringsOf
  rw [List.filterMap_cons]
  rcases m with ⟨k, v⟩
  by_cases hf : fieldOf k = some f
  · cases v <;> simp [hf]
  · simp [hf]

theorem getLast_getD_append (a b : List GoString) (d : GoString) :
    ((a ++ b).getLast?).getD d = (b.getLast?).getD ((a.getLast?).getD d) := by
  cases b with
  | nil => simp
  | cons x b =>
    rw [List.getLast?_append, List.getLast?_eq_getLast (x :: b) (by simp)]
    rfl

theorem storeMember_Status (d : Response × Option GoError) (m : GoString × JVal) :
    (storeMember d m).1.Status = ((stringsOf .Status [m]).getLast?).getD d.1.Status := by
  rcases m with ⟨k, v⟩
  unfold storeMember stringsOf
  cases hf : fieldOf k with
  | none => simp [hf]
  | some f => cases f <;> cases v <;> simp [hf]

theorem storeMember_MessageId (d : Response × Option GoError) (m : GoString × JVal) :
    (storeMember d m).1.MessageId = ((stringsOf .MessageId [m]).getLast?).getD d.1.MessageId := by
  rcases m with ⟨k, v⟩
  unfold storeMember stringsOf
  cases hf : fieldOf k with
  | none => simp [hf]
  | some f => cases f <;> cases v <;> simp [hf]

theorem stringsOf_append (f : ResponseField) (a b : List (GoString × JVal)) :
    stringsOf f (a ++ b) = stringsOf f a ++ stringsOf f b := by
  unfold stringsOf
  rw [List.filterMap_append]

theorem foldl_storeMember_fields (ms : List (GoString × JVal)) :
    ∀ d : Response × Option GoError,
      (ms.foldl storeMember d).1.Status = ((stringsOf .Status ms).getLast?).getD d.1.Status
      ∧ (ms.foldl storeMember d).1.MessageId
        = ((stringsOf .MessageId ms).getLast?).getD d.1.MessageId := by
  induction ms with
  | nil => intro d; exact ⟨rfl, rfl⟩
  | cons m ms ih =>
    intro d
    rw [List.foldl_cons]
    have h := ih (storeMember d m)
    rw [storeMember_Status, storeMember_MessageId, ← getLast_getD_append,
      ← getLast_getD_append, ← stringsOf_append, ← stringsOf_append] at h
    exact h

theorem storeMember_err (d : Response × Option GoError) (m : GoString × JVal) :
    (storeMember d m).2 = none ↔ d.2 = none ∧ fitsMember m = true := by
  rcases m with ⟨k, v⟩
  rcases d with ⟨r, e⟩
  unfold storeMember fitsMember
  cases hf : fieldOf k with
  | none => simp
  | some f => cases f <;> cases v <;> cases e <;> simp [saveError]

theorem foldl_storeMember_err (ms : List (GoString × JVal)) :
    ∀ d : Response × Option GoError,
      (ms.foldl storeMember d).2 = none ↔ d.2 = none ∧ ms.all fitsMember = true := by
  induction ms with
  | nil => intro d; simp
  | cons m ms ih =>
    intro d
    rw [List.foldl_cons, ih, storeMember_err, List.all_cons, Bool.and_eq_true, and_assoc]

theorem Decode_nil_error (data : GoString) (h : (Decode data ⟨[], []⟩).2 = none) :
    ∃ v, readValue data = .ok v ∧ v.fits = true
      ∧ (Decode data ⟨[], []⟩).1 = ⟨v.field .Status, v.field .MessageId⟩ := by
  unfold Decode at h ⊢
  cases hv : readValue data with
  | error err =>
    rw [hv] at h
    simp only [reduceCtorEq] at h
  | ok v =>
    rw [hv] at h
    refine ⟨v, rfl, ?_⟩
    cases v with
    | obj ms =>
      simp only [unmarshal] at h ⊢
      have h1 := (foldl_storeMember_err ms (⟨[], []⟩, none)).1 h
      have h2 := foldl_storeMember_fields ms (⟨[], []⟩, none)
      refine ⟨h1.2, ?_⟩
      rcases hr : (ms.foldl storeMember (⟨[], []⟩, none)).1 with ⟨a, b⟩
      rw [hr] at h2
      simp only [JVal.field]
      rw [← h2.1, ← h2.2]
    | null => exact ⟨rfl, rfl⟩
    | bool _ => simp only [unmarshal, reduceCtorEq] at h
    | num _ => simp only [unmarshal, reduceCtorEq] at h
    | str _ => simp only [unmarshal, reduceCtorEq] at h
    | arr _ => simp only [unmarshal, reduceCtorEq] at h

theorem Decode_of_fits (data : GoString) (v : JVal) (hv : readValue data = .ok v)
    (hf : v.fits = true) : (Decode data ⟨[], []⟩).2 = none := by
  unfold Decode
  rw [hv]
  cases v with
  | obj ms =>
    simp only [unmarshal]
    exact (foldl_storeMember_err ms (⟨[], []⟩, none)).2 ⟨rfl, hf⟩
  | null => rfl
  | bool _ => simp only [JVal.fits, reduceCtorEq] at hf
  | num _ => simp only [JVal.fits, reduceCtorEq] at hf
  | str _ => simp only [JVal.fits, reduceCtorEq] at hf
  | arr _ => simp only [JVal.fits, reduceCtorEq] at hf

/-- C9 (amended): for every send operation and every call, when the builder or
the sender fails the `Response` is zero-valued and the error is the
collaborator's; otherwise the `Response` and the error are what decoding the
body gives: the error is nil exactly when the body starts with a JSON value
that is `null` or an object in which every member named `status` or
`messageId`, case ignored, is a string or `null`, and then `Status` is the last
string member named `status` and `MessageId` the last string member named
`messageId`, each the empty string where the body holds no such member. -/
theorem C9_response_invariant (g : client) (r : AnyRequest) :
    match g.httpBuilder (lit "POST") MessageUrl (r.form g).Encode with
    | .error err => (g.Send r).response = ⟨[], []⟩ ∧ (g.Send r).err = some err
    | .ok req =>
      match g.httpClient (g.stamped req) with
      | .error err => (g.Send r).response = ⟨[], []⟩ ∧ (g.Send r).err = some err
      | .ok resp =>
        ((g.Send r).response, (g.Send r).err) = json.Decode resp.Body ⟨[], []⟩
          ∧ ((g.Send r).err = none ↔ ∃ v, json.readValue resp.Body = .ok v ∧ v.fits = true)
          ∧ ∀ v, json.readValue resp.Body = .ok v → (g.Send r).err = none →
            (g.Send r).response = ⟨v.field .Status, v.field .MessageId⟩ := by
  cases hb : g.httpBuilder (lit "POST") MessageUrl (r.form g).Encode with
  | error err =>
    simp only []
    rw [Send_of_build_error g r err hb]
    exact ⟨rfl, rfl⟩
  | ok req =>
    simp only []
    cases hs : g.httpClient (g.stamped req) with
    | error err =>
      simp only []
      rw [Send_of_do_error g r req err hb hs]
      exact ⟨rfl, rfl⟩
    | ok resp =>
      simp only []
      rw [Send_of_response g r req resp hb hs]
      refine ⟨rfl, ⟨fun h => ?_, fun h => ?_⟩, fun v hv h => ?_⟩
      · obtain ⟨v, hv, hf, _⟩ := Decode_nil_error resp.Body h
        exact ⟨v, hv, hf⟩
      · obtain ⟨v, hv, hf⟩ := h
        exact Decode_of_fits resp.Body v hv hf
      · obtain ⟨w, hw, _, hr⟩ := Decode_nil_error resp.Body h
        rw [hv] at hw
        cases hw
        exact hr

/-- C9 (as stated) fails: on the body `{"status":"x"}` the call returns a nil
error with a `Response` that is neither fully populated nor zero-valued. -/
theorem C9_counterexample :
    ((gcBody (lit "\x7b\"status\":\"x\"\x7d")).Send (.text textRequest)).err = none
      ∧ ((gcBody (lit "\x7b\"status\":\"x\"\x7d")).Send (.text textRequest)).response.MessageId = []
      ∧ ((gcBody (lit "\x7b\"status\":\"x\"\x7d")).Send (.text textRequest)).response ≠ ⟨[], []⟩ := by
  decide

/-! ## Texts that break out of the JSON string -/

theorem Escaped_of_plain (p : GoString) (h : ∀ c ∈ p, c.val ≠ 0x22 ∧ c.val ≠ 0x5C) : Escaped p := by
  induction p with
  | nil => exact .nil
  | cons c p ih =>
    have hc := h c (List.mem_cons_self _ _)
    exact .plain c p hc.1 hc.2 (ih fun x hx => h x (List.mem_cons_of_mem _ hx))

theorem inText_error (st : List Frame) (s : Scanner) (h : s.step = .error) : s.inText st :=
  Or.inl h

theorem next_inText_plain (st : List Frame) (s : Scanner) (c : Byte) (h : s.inText st)
    (h1 : c.val ≠ 0x22) (h2 : c.val ≠ 0x5C) : (s.next c).inText st := by
  rcases h with h | ⟨h, hst⟩
  · rw [next_error s c h]
    exact Or.inl h
  · have e1 : (c.val == 0x22) = false := by simpa using h1
    have e2 : (c.val == 0x5C) = false := by simpa using h2
    unfold Scanner.next
    rw [h]
    simp only [e1, e2, Bool.false_eq_true, if_false]
    split
    · exact Or.inl rfl
    · exact Or.inr ⟨rfl, hst⟩

theorem next_inText_simple (st : List Frame) (s : Scanner) (e : Byte) (h : s.inText st)
    (he : (e.val == 0x62 || e.val == 0x66 || e.val == 0x6E || e.val == 0x72 || e.val == 0x74
      || e.val == 0x5C || e.val == 0x2F || e.val == 0x22) = true) :
    ((s.next 0x5C).next e).inText st := by
  rcases h with h | ⟨h, hst⟩
  · rw [next_error s _ h, next_error s _ h]
    exact Or.inl h
  · have e1 : s.next 0x5C = s.shift .inStringEsc 0x5C := by
      unfold Scanner.next
      rw [h]
      rfl
    rw [e1]
    unfold Scanner.next
    simp only [Scanner.shift]
    rw [if_pos he]
    exact Or.inr ⟨rfl, hst⟩

theorem next_inText_unicode (st : List Frame) (s : Scanner) (a b c d : Byte) (h : s.inText st)
    (ha : isHex a = true) (hb : isHex b = true) (hc : isHex c = true) (hd : isHex d = true) :
    ((((((s.next 0x5C).next 0x75).next a).next b).next c).next d).inText st := by
  rcases h with h | ⟨h, hst⟩
  · simp only [next_error s _ h]
    exact Or.inl h
  · have e1 : s.next 0x5C = s.shift .inStringEsc 0x5C := by
      unfold Scanner.next
      rw [h]
      rfl
    rw [e1]
    have e2 : (s.shift .inStringEsc 0x5C).next 0x75
        = (s.shift .inStringEsc 0x5C).shift .inStringEscU 0x75 := rfl
    rw [e2]
    simp only [Scanner.next, Scanner.shift, ha, hb, hc, hd, if_true]
    exact Or.inr ⟨rfl, hst⟩

theorem run_escaped (p : GoString) (hp : Escaped p) :
    ∀ (st : List Frame) (s : Scanner), s.inText st → (s.run p).inText st := by
  induction hp with
  | nil => intro st s h; exact h
  | plain c p h1 h2 _ ih =>
    intro st s h
    rw [run_cons]
    exact ih st _ (next_inText_plain st s c h h1 h2)
  | simple e p he _ ih =>
    intro st s h
    rw [run_cons, run_cons]
    exact ih st _ (next_inText_simple st s e h he)
  | unicode a b c d p ha hb hc hd _ ih =>
    intro st s h
    simp only [run_cons]
    exact ih st _ (next_inText_unicode st s a b c d h ha hb hc hd)

theorem next_inText_quote (ms : List (GoString × JVal)) (key : GoString) (s : Scanner)
    (h : s.inText [.objectValue ms key]) : (s.next 0x22).afterMember := by
  rcases h with h | ⟨h, hst⟩
  · rw [next_error s _ h]
    exact Or.inl h
  · unfold Scanner.next
    rw [h]
    simp only []
    rw [if_pos (by decide)]
    split
    · unfold Scanner.deliver
      rw [hst]
      exact Or.inr ⟨rfl, _, rfl⟩
    · exact Or.inl rfl

theorem next_done (s : Scanner) (c : Byte) (h : s.done) : (s.next c).done := by
  rcases h with h | h
  · rw [next_error s c h]
    exact Or.inl h
  · unfold Scanner.next
    rw [h]
    simp only [Scanner.stateEndTop]
    split
    · exact Or.inr h
    · exact Or.inl rfl

theorem next_done_quote (s : Scanner) (h : s.done) : (s.next 0x22).step = .error := by
  rcases h with h | h
  · rw [next_error s _ h]
    exact h
  · unfold Scanner.next
    rw [h]
    rfl

theorem run_done (q : GoString) : ∀ s : Scanner, s.done → (s.run q).done := by
  induction q with
  | nil => intro s h; exact h
  | cons c q ih =>
    intro s h
    rw [run_cons]
    exact ih _ (next_done s c h)

theorem run_done_close (q x : GoString) (s : Scanner) (h : s.done) :
    ((s.run (q ++ 0x22 :: x)).next 0x20).step = .error := by
  rw [run_append, run_cons]
  exact run_space_error _ _ (next_done_quote _ (run_done q s h))

theorem next_afterMember_space (s : Scanner) (c : Byte) (h : s.afterMember)
    (hc : isSpace c = true) : (s.next c).afterMember := by
  rcases h with h | ⟨h, ms, hst⟩
  · rw [next_error s c h]
    exact Or.inl h
  · obtain ⟨step, st, tok, val⟩ := s
    simp only at h hst
    subst h hst
    simp only [Scanner.next, Scanner.stateEndValue, hc, if_true]
    exact Or.inr ⟨rfl, ms, rfl⟩

theorem next_afterMember_other (s : Scanner) (c : Byte) (h : s.afterMember)
    (hs : isSpace c = false) (hc : c.val ≠ 0x2C) : (s.next c).done := by
  rcases h with h | ⟨h, ms, hst⟩
  · rw [next_error s c h]
    exact Or.inl h
  · have e : (c.val == 0x2C) = false := by simpa using hc
    obtain ⟨step, st, tok, val⟩ := s
    simp only at h hst
    subst h hst
    simp only [Scanner.next, Scanner.stateEndValue, hs, e, Bool.false_eq_true, if_false]
    split
    · exact Or.inr rfl
    · exact Or.inl rfl

theorem run_afterMember_space (ws : GoString) (hws : allSpace ws) :
    ∀ s : Scanner, s.afterMember → (s.run ws).afterMember := by
  induction ws with
  | nil => intro s h; exact h
  | cons c ws ih =>
    intro s h
    rw [run_cons]
    exact ih (fun x hx => hws x (List.mem_cons_of_mem _ hx)) _
      (next_afterMember_space s c h (hws c (List.mem_cons_self _ _)))

theorem beforeColon_error (s : Scanner) (h : s.step = .error) : s.beforeColon :=
  Or.inl (Or.inl h)

theorem beforeColon_key (s : Scanner) (ms : List (GoString × JVal))
    (h : s.step = .beginString ∨ ¬ s.step.outer) (hst : s.parseState = [.objectKey ms]) :
    s.beforeColon :=
  Or.inr (Or.inr (Or.inr ⟨h, ms, hst⟩))

theorem shift_beforeColon (s : Scanner) (ms : List (GoString × JVal)) (st : Step) (c : Byte)
    (h : ¬ st.outer) (hst : s.parseState = [.objectKey ms]) : (s.shift st c).beforeColon :=
  beforeColon_key _ ms (Or.inr h) hst

theorem next_beforeColon (s : Scanner) (c : Byte) (hc : c.val ≠ 0x3A) (h : s.beforeColon) :
    (s.next c).beforeColon := by
  have e : (c.val == 0x3A) = false := by simpa using hc
  rcases h with h | h | h | ⟨h, ms, hst⟩
  · rcases h with h | ⟨h, ms, hst⟩
    · rw [next_error s c h]
      exact beforeColon_error s h
    · obtain ⟨step, st, tok, val⟩ := s
      simp only at h hst
      subst h hst
      simp only [Scanner.next, Scanner.stateEndValue]
      split
      · exact Or.inl (Or.inr ⟨rfl, ms, rfl⟩)
      · split
        · exact beforeColon_key _ ms (Or.inl rfl) rfl
        · split
          · exact Or.inr (Or.inr (Or.inl (Or.inr rfl)))
          · exact beforeColon_error _ rfl
  · rcases h with h | ⟨h, ms, key, hst⟩
    · rw [next_error s c h]
      exact beforeColon_error s h
    · obtain ⟨step, st, tok, val⟩ := s
      simp only at h hst
      subst h hst
      simp only [Scanner.next, Scanner.stateEndValue, e, Bool.false_eq_true, if_false]
      split
      · exact Or.inr (Or.inl (Or.inr ⟨rfl, ms, key, rfl⟩))
      · exact beforeColon_error _ rfl
  · exact Or.inr (Or.inr (Or.inl (next_done s c h)))
  · obtain ⟨step, st, tok, val⟩ := s
    simp only at h hst
    subst hst
    rcases h with h | h
    · subst h
      simp only [Scanner.next, Scanner.stateBeginString]
      split
      · exact beforeColon_key _ ms (Or.inl rfl) rfl
      · split
        · exact beforeColon_key _ ms (Or.inr (by simp [Step.outer])) rfl
        · exact beforeColon_error _ rfl
    · cases step
      case inString =>
        simp only [Scanner.next]
        split
        · split
          · exact Or.inr (Or.inl (Or.inr ⟨rfl, ms, _, rfl⟩))
          · exact beforeColon_error _ rfl
        · split
          · exact shift_beforeColon _ ms _ _ (by simp [Step.outer]) rfl
          · split
            · exact beforeColon_error _ rfl
            · exact shift_beforeColon _ ms _ _ (by simp [Step.outer]) rfl
      case inStringEsc =>
        simp only [Scanner.next]
        split
        · exact shift_beforeColon _ ms _ _ (by simp [Step.outer]) rfl
        · split
          · exact shift_beforeColon _ ms _ _ (by simp [Step.outer]) rfl
          · exact beforeColon_error _ rfl
      case inStringEscU =>
        simp only [Scanner.next]
        split
        · exact shift_beforeColon _ ms _ _ (by simp [Step.outer]) rfl
        · exact beforeColon_error _ rfl
      case inStringEscU1 =>
        simp only [Scanner.next]
        split
        · exact shift_beforeColon _ ms _ _ (by simp [Step.outer]) rfl
        · exact beforeColon_error _ rfl
      case inStringEscU12 =>
        simp only [Scanner.next]
        split
        · exact shift_beforeColon _ ms _ _ (by simp [Step.outer]) rfl
        · exact beforeColon_error _ rfl
      case inStringEscU123 =>
        simp only [Scanner.next]
        split
        · exact shift_beforeColon _ ms _ _ (by simp [Step.outer]) rfl
        · exact beforeColon_error _ rfl
      all_goals exact absurd (by simp [Step.outer]) h

theorem run_beforeColon (q : GoString) (hq : ∀ c ∈ q, c.val ≠ 0x3A) :
    ∀ s : Scanner, s.beforeColon → (s.run q).beforeColon := by
  induction q with
  | nil => intro s h; exact h
  | cons c q ih =>
    intro s h
    rw [run_cons]
    exact ih (fun x hx => hq x (List.mem_cons_of_mem _ hx)) _
      (next_beforeColon s c (hq c (List.mem_cons_self _ _)) h)

theorem next_afterKey_space (s : Scanner) (c : Byte) (h : s.afterKey) (hc : isSpace c = true) :
    (s.next c).afterKey := by
  rcases h with h | ⟨h, ms, key, hst⟩
  · rw [next_error s c h]
    exact Or.inl h
  · obtain ⟨step, st, tok, val⟩ := s
    simp only at h hst
    subst h hst
    simp only [Scanner.next, Scanner.stateEndValue, hc, if_true]
    exact Or.inr ⟨rfl, ms, key, rfl⟩

theorem next_afterKey_brace (s : Scanner) (h : s.afterKey) : (s.next 0x7D).step = .error := by
  rcases h with h | ⟨h, ms, key, hst⟩
  · rw [next_error s _ h]
    exact h
  · obtain ⟨step, st, tok, val⟩ := s
    simp only at h hst
    subst h hst
    rfl

theorem run_afterKey_close (s : Scanner) (h : s.afterKey) :
    ((s.run (lit "\t\t\x7d")).next 0x20).step = .error := by
  have e : lit "\t\t\x7d" = [0x09, 0x09, 0x7D] := rfl
  rw [e, run_cons, run_cons, run_cons, run_nil]
  have h1 := next_afterKey_space _ 0x09 (next_afterKey_space s 0x09 h (by decide)) (by decide)
  have h2 := next_afterKey_brace _ h1
  rw [next_error _ _ h2]
  exact h2

theorem next_beforeColon_close (s : Scanner) (h : s.beforeColon) :
    ((s.next 0x22).next 0x0A).afterKey := by
  rcases h with h | h | h | ⟨h, ms, hst⟩
  · rcases h with h | ⟨h, ms, hst⟩
    · rw [next_error s _ h, next_error s _ h]
      exact Or.inl h
    · obtain ⟨step, st, tok, val⟩ := s
      simp only at h hst
      subst h hst
      exact Or.inl rfl
  · rcases h with h | ⟨h, ms, key, hst⟩
    · rw [next_error s _ h, next_error s _ h]
      exact Or.inl h
    · obtain ⟨step, st, tok, val⟩ := s
      simp only at h hst
      subst h hst
      exact Or.inl rfl
  · have h1 := next_done_quote s h
    rw [next_error _ _ h1]
    exact Or.inl h1
  · obtain ⟨step, st, tok, val⟩ := s
    simp only at h hst
    subst hst
    rcases h with h | h
    · subst h
      exact Or.inl rfl
    · cases step
      case inString =>
        have e1 : Scanner.next ⟨.inString, [.objectKey ms], tok, val⟩ 0x22 =
            match unquote tok with
            | some str => Scanner.deliver ⟨.inString, [.objectKey ms], tok, val⟩ (.str str)
            | none => Scanner.error ⟨.inString, [.objectKey ms], tok, val⟩ := rfl
        rw [e1]
        split
        · exact Or.inr ⟨rfl, ms, _, rfl⟩
        · exact Or.inl rfl
      case inStringEsc => exact Or.inl rfl
      case inStringEscU => exact Or.inl rfl
      case inStringEscU1 => exact Or.inl rfl
      case inStringEscU12 => exact Or.inl rfl
      case inStringEscU123 => exact Or.inl rfl
      all_goals exact absurd (by simp [Step.outer]) h

theorem run_beforeColon_close (s : Scanner) (h : s.beforeColon) :
    ((s.run (lit "\"\n\t\t\x7d")).next 0x20).step = .error := by
  have e : lit "\"\n\t\t\x7d" = 0x22 :: 0x0A :: lit "\t\t\x7d" := rfl
  rw [e, run_cons, run_cons]
  exact run_afterKey_close _ (next_beforeColon_close s h)

theorem next_escU (s : Scanner) (c : Byte)
    (h : s.step = .inStringEscU ∨ s.step = .inStringEscU1 ∨ s.step = .inStringEscU12
      ∨ s.step = .inStringEscU123) (hc : isHex c = false) : (s.next c).step = .error := by
  unfold Scanner.next
  rcases h with h | h | h | h <;> rw [h] <;> simp only [hc, Bool.false_eq_true, if_false] <;> rfl

theorem next_escU_hex (s : Scanner) (c : Byte) :
    (s.step = .inStringEscU → (s.next c).step = .inStringEscU1 ∨ (s.next c).step = .error)
    ∧ (s.step = .inStringEscU1 → (s.next c).step = .inStringEscU12 ∨ (s.next c).step = .error)
    ∧ (s.step = .inStringEscU12 → (s.next c).step = .inStringEscU123 ∨ (s.next c).step = .error) := by
  refine ⟨fun h => ?_, fun h => ?_, fun h => ?_⟩ <;>
  · unfold Scanner.next
    rw [h]
    simp only []
    split
    · exact Or.inl rfl
    · exact Or.inr rfl

theorem run_unicode_bad (rest x : GoString) (s : Scanner) (h : s.step = .inStringEscU)
    (hr : (match rest with
      | a :: b :: c :: d :: _ => isHex a && isHex b && isHex c && isHex d
      | _ => false) = false) :
    (s.run (rest ++ 0x22 :: x)).step = .error := by
  have hq : isHex 0x22 = false := by decide
  rcases rest with _ | ⟨a, _ | ⟨b, _ | ⟨c, _ | ⟨d, rest⟩⟩⟩⟩
  · rw [List.nil_append, run_cons]
    exact run_error _ _ (next_escU s _ (Or.inl h) hq)
  · simp only [List.cons_append, List.nil_append, run_cons]
    rcases (next_escU_hex s a).1 h with h1 | h1
    · exact run_error _ _ (next_escU _ _ (Or.inr (Or.inl h1)) hq)
    · exact run_error _ _ (by rw [next_error _ _ h1]; exact h1)
  · simp only [List.cons_append, List.nil_append, run_cons]
    rcases (next_escU_hex s a).1 h with h1 | h1
    · rcases (next_escU_hex _ b).2.1 h1 with h2 | h2
      · exact run_error _ _ (next_escU _ _ (Or.inr (Or.inr (Or.inl h2))) hq)
      · exact run_error _ _ (by rw [next_error _ _ h2]; exact h2)
    · exact run_error _ _ (by simp only [next_error _ _ h1]; exact h1)
  · simp only [List.cons_append, List.nil_append, run_cons]
    rcases (next_escU_hex s a).1 h with h1 | h1
    · rcases (next_escU_hex _ b).2.1 h1 with h2 | h2
      · rcases (next_escU_hex _ c).2.2 h2 with h3 | h3
        · exact run_error _ _ (next_escU _ _ (Or.inr (Or.inr (Or.inr h3))) hq)
        · exact run_error _ _ (by rw [next_error _ _ h3]; exact h3)
      · exact run_error _ _ (by simp only [next_error _ _ h2]; exact h2)
    · exact run_error _ _ (by simp only [next_error _ _ h1]; exact h1)
  · simp only [List.cons_append, run_cons]
    simp only [Bool.and_eq_false_imp] at hr
    by_cases ha : isHex a = true
    · by_cases hb : isHex b = true
      · by_cases hc : isHex c = true
        · have hd := hr (by rw [ha, hb, hc]; rfl)
          rcases (next_escU_hex s a).1 h with h1 | h1
          · rcases (next_escU_hex _ b).2.1 h1 with h2 | h2
            · rcases (next_escU_hex _ c).2.2 h2 with h3 | h3
              · exact run_error _ _ (next_escU _ _ (Or.inr (Or.inr (Or.inr h3))) hd)
              · exact run_error _ _ (by simp only [next_error _ _ h3]; exact h3)
            · exact run_error _ _ (by simp only [next_error _ _ h2]; exact h2)
          · exact run_error _ _ (by simp only [next_error _ _ h1]; exact h1)
        · rcases (next_escU_hex s a).1 h with h1 | h1
          · rcases (next_escU_hex _ b).2.1 h1 with h2 | h2
            · have h3 := next_escU _ c (Or.inr (Or.inr (Or.inl h2))) (by simpa using hc)
              exact run_error _ _ (by simp only [next_error _ _ h3]; exact h3)
            · exact run_error _ _ (by simp only [next_error _ _ h2]; exact h2)
          · exact run_error _ _ (by simp only [next_error _ _ h1]; exact h1)
      · rcases (next_escU_hex s a).1 h with h1 | h1
        · have h2 := next_escU _ b (Or.inr (Or.inl h1)) (by simpa using hb)
          exact run_error _ _ (by simp only [next_error _ _ h2]; exact h2)
        · exact run_error _ _ (by simp only [next_error _ _ h1]; exact h1)
    · have h1 := next_escU s a (Or.inl h) (by simpa using ha)
      exact run_error _ _ (by simp only [next_error _ _ h1]; exact h1)

theorem run_escape_bad (st : List Frame) (t x : GoString) (s : Scanner) (h : s.inText st)
    (ht : completesEscape t = false) :
    (((s.next 0x5C).run (t ++ 0x22 :: 0x0A :: x)).next 0x20).step = .error := by
  rcases h with h | ⟨h, _⟩
  · rw [next_error s _ h]
    exact run_space_error _ s h
  · have e1 : (s.next 0x5C).step = .inStringEsc := by
      unfold Scanner.next
      rw [h]
      rfl
    generalize s.next 0x5C = s1 at e1 ⊢
    cases t with
    | nil =>
      rw [List.nil_append, run_cons, run_cons]
      exact run_space_error _ _
        (next_inString_control _ 0x0A (next_esc_quote s1 (Or.inl e1)) (by decide))
    | cons e rest =>
      rw [List.cons_append, run_cons]
      simp only [completesEscape, Bool.or_eq_false_iff, Bool.and_eq_false_imp] at ht
      obtain ⟨⟨⟨⟨⟨⟨⟨⟨h1, h2⟩, h3⟩, h4⟩, h5⟩, h6⟩, h7⟩, h8⟩, hu⟩ := ht
      by_cases he : (e.val == 0x75) = true
      · have e2 : (s1.next e).step = .inStringEscU := by
          unfold Scanner.next
          rw [e1]
          simp only [h1, h2, h3, h4, h5, h6, h7, h8, he, Bool.or_self, Bool.false_eq_true,
            if_false, if_true]
          rfl
        have e3 := run_unicode_bad rest (0x0A :: x) _ e2 (hu he)
        rw [next_error _ _ e3]
        exact e3
      · have e2 : (s1.next e).step = .error := by
          unfold Scanner.next
          rw [e1]
          simp only [h1, h2, h3, h4, h5, h6, h7, h8, he, Bool.or_self, Bool.false_eq_true,
            if_false]
          rfl
        exact run_space_error _ _ e2

theorem run_text_open_state :
    (Scanner.reset.run (lit "\x7b\n\t\t\t\"type\": \"text\",\n\t\t\t\"text\": \"")).inText
      [.objectValue [(lit "type", .str (lit "text"))] (lit "text")] :=
  Or.inr ⟨rfl, rfl⟩

theorem run_text_break (p q : GoString) (s : Scanner) (ms : List (GoString × JVal))
    (key : GoString) (h : s.inText [.objectValue ms key]) (hp : Escaped p)
    (hq : (∃ t, q = 0x5C :: t ∧ completesEscape t = false)
      ∨ (∃ t, q = 0x22 :: t ∧ ∀ c ∈ t, c.val ≠ 0x3A)
      ∨ ∃ ws e t, q = 0x22 :: (ws ++ e :: t) ∧ allSpace ws ∧ isSpace e = false ∧ e.val ≠ 0x2C) :
    ((s.run ((p ++ q) ++ lit "\"\n\t\t\x7d")).next 0x20).step = .error := by
  have e : lit "\"\n\t\t\x7d" = 0x22 :: 0x0A :: lit "\t\t\x7d" := rfl
  rw [List.append_assoc, run_append]
  have h1 := run_escaped p hp _ s h
  rcases hq with ⟨t, rfl, ht⟩ | ⟨t, rfl, ht⟩ | ⟨ws, c, t, rfl, hws, hs, hc⟩
  · rw [List.cons_append, run_cons, e]
    exact run_escape_bad _ t _ _ h1 ht
  · rw [List.cons_append, run_cons, run_append]
    exact run_beforeColon_close _
      (run_beforeColon t ht _ (Or.inl (next_inText_quote ms key _ h1)))
  · rw [List.cons_append, run_cons, List.append_assoc, run_append, List.cons_append, run_cons, e]
    exact run_done_close t _ _
      (next_afterMember_other _ c
        (run_afterMember_space ws hws _ (next_inText_quote ms key _ h1)) hs hc)

/-- C11 (amended): the payload that `SendText` builds by interpolation, in the
root package and in the sub-package, is not valid JSON for every `TextRequest`
whose `Text` holds no backslash and an odd number of double quotes, and for
every `TextRequest` whose `Text` is a part `p` that stays inside a JSON string
(every backslash of `p` starts a complete escape sequence `\"`, `\\`, `\/`,
`\b`, `\f`, `\n`, `\r`, `\t` or `\u` with four hex digits, and no double quote
of `p` stands outside of one) followed by a backslash that starts no complete
escape sequence in the `Text`, or by a double quote after which the `Text` holds
no colon, or by a double quote after which the first byte that is not white
space is not a comma. -/
theorem C11_invalid_payload (request : TextRequest)
    (h : ((∀ c ∈ request.Text, c.val ≠ 0x5C) ∧ quotes request.Text % 2 = 1)
      ∨ ∃ p q, request.Text = p ++ q ∧ Escaped p ∧
        ((∃ t, q = 0x5C :: t ∧ completesEscape t = false)
          ∨ (∃ t, q = 0x22 :: t ∧ ∀ c ∈ t, c.val ≠ 0x3A)
          ∨ ∃ ws e t, q = 0x22 :: (ws ++ e :: t) ∧ allSpace ws ∧ isSpace e = false
              ∧ e.val ≠ 0x2C)) :
    json.Valid request.message = false ∧ json.Valid (gupshup.textMessage request) = false := by
  have e : gupshup.textMessage request = request.message := rfl
  rw [e, textMessage_eq]
  refine ⟨?_, ?_⟩ <;>
  · apply Valid_of_error
    rw [run_append]
    rcases h with ⟨hb, hq⟩ | ⟨p, q, ht, hp, hq⟩
    · exact run_text_odd _ _ run_text_open hb hq
    · rw [ht]
      exact run_text_break p q _ _ _ run_text_open_state hp hq

theorem C11_invalid_payload_witness :
    json.Valid saidRequest.message = false
      ∧ json.Valid (gupshup.textMessage saidRequest) = false :=
  C11_invalid_payload saidRequest
    (Or.inr ⟨lit "He said ", lit "\"hi\"", rfl, Escaped_of_plain _ (by decide),
      Or.inr (Or.inl ⟨lit "hi\"", rfl, by decide⟩)⟩)

end Gupshup
